import Mathlib

/-! Racemon: lap timer, motion detector, background model, median filter, YUYV
conversion and frame exchange of `src/main.c`.

Shallow embedding of the image helpers (`new_image`, `copy_image`, `mix_images`,
`percent_diff_images`, `insertion_sort_u8`, `median_channel`, `yuyv2y`,
`yuyv2rgba`), of the body of the capture loop of `run_capture` (reset block,
background warm-up, lap state machine, logging) and of the double-buffered
exchange between the capture thread and the display loop of `main`.

Conventions of the embedding:
* pixel buffers (`u8 *data`) are lists of naturals; a store into a `u8` reduces modulo
  256;
* a store outside its buffer is the result `none` in `insertion_sort_u8`, `copy_image`,
  `median_channel`, `yuyv2y` and `yuyv2rgba`; in the loops of `mix_images` and
  `percent_diff_images`, whose theorems take buffers of `n_pixels * channels` bytes, it
  is dropped;
* a read outside its buffer yields 0, except in `yuyv2y` and `yuyv2rgba`, where it is
  the result `none`;
* `int` expressions wrap modulo `2^32` into `-2^31 .. 2^31 - 1` (`wrap_int`): the bound
  `n_pixels * channels` of `mix_images` and `copy_image`, the bounds `n_pixels * 2` and
  `n_pixels * 4` of the YUYV conversions, the values `n`, `pad`, `imax` and the window
  indices of `median_channel`, the conversion of `size_t` to `int` in
  `insertion_sort_u8`; the sum `j + 1` at `INT_MAX` in `insertion_sort_u8` and an
  overflow of the loop counter of `median_channel` are the result `none`. In
  `percent_diff_images` the bound is `n_pixels` itself, the channel count being asserted
  to be 1;
* `u32` accumulators are reduced modulo `2^32`, `u64` subtraction modulo `2^64`;
* `>>` on a negative `int` is the arithmetic shift;
* the `double` lap times are exact rationals: `(double)(now - lap_start)/freq`
  is the rational quotient of the tick difference by the counter frequency. The rounded
  quotient is at most 2.0 when the exact one is at most 2, and above 2.0 when the exact
  one exceeds 2 by more than `2^-52`;
* a failed `assert` and a division by zero are the result `none`;
* `race.log` is the list of the lines appended so far, a line being the list
  of the numbers printed on it;
* the two threads are interleaved step by step, and a thread that waits for
  the mutex takes no step.
-/

namespace Racemon

/-! ## Images -/

/-- Struct `image` of main.c (lines 68-75). -/
structure image where
  width : Nat
  height : Nat
  channels : Nat
  stride : Nat
  n_pixels : Nat
  data : List Nat
deriving DecidableEq, Repr

/-- Function `new_image` (main.c 77-89): zeroed buffer of `height*width*channels` bytes. -/
def new_image (width height channels : Nat) : image :=
  { width := width
    height := height
    channels := channels
    stride := width * channels
    n_pixels := height * width
    data := List.replicate (height * width * channels) 0 }

/-- Function `new_image_like` (main.c 108-110). -/
def new_image_like (img : image) : image :=
  new_image img.width img.height img.channels

/-- Value of an `int` expression whose exact value is `x`: the two's-complement
representative of `x` modulo `2^32` in the range `-2^31 .. 2^31 - 1`. Since the reduction
commutes with sums and products, wrapping the exact value of an expression gives the
same result as wrapping after each operation. -/
def wrap_int (x : Int) : Int :=
  (x + 2147483648) % 4294967296 - 2147483648

/-- Right-hand side of the assignment at main.c 222 followed by the store into a `u8`:
`(old_weight * (int)o + new_weight * (int)n)/scale`, C division truncating toward zero. -/
def mix_pixel (old_weight new_weight scale : Int) (o n : Nat) : Nat :=
  (((old_weight * (o : Int) + new_weight * (n : Int)).tdiv scale) % 256).toNat

/-- One iteration of the loop of `mix_images` (main.c 221-223) on the memory of both
images: only `old->data[i]` is written. -/
def mix_images_body (old_weight new_weight scale : Int) (m : image × image) (i : Nat) :
    image × image :=
  let v := mix_pixel old_weight new_weight scale (m.1.data.getD i 0) (m.2.data.getD i 0)
  ({ m.1 with data := m.1.data.set i v }, m.2)

/-- Function `mix_images` (main.c 210-226). The result is the pair of images `(old, new)`
after the call; `none` when one of the two assertions fails. The bound `max` is the `int`
product `old->n_pixels * old->channels`; the loop `for (int i = 0; i < max; i++)` runs
`max` times, and not at all when `max` is not positive. -/
def mix_images (old new : image) (weight : Int) : Option (image × image) :=
  if old.n_pixels = new.n_pixels ∧ old.channels = new.channels then
    let max : Int := wrap_int ((old.n_pixels : Int) * (old.channels : Int))
    let scale : Int := 1000
    let new_weight : Int := weight
    let old_weight : Int := scale - new_weight
    some ((List.range max.toNat).foldl (mix_images_body old_weight new_weight scale) (old, new))
  else
    none

/-- Loop state of `percent_diff_images`: the counters `total` and `diff` (both `u32`)
and the bytes of the output image `c`. -/
structure diff_acc where
  total : Nat
  diff : Nat
  cdata : List Nat
deriving DecidableEq, Repr

/-- One iteration of the loop of `percent_diff_images` (main.c 288-300). -/
def percent_diff_body (a b : image) (threshold : Int) (st : diff_acc) (i : Nat) : diff_acc :=
  let total := (st.total + 1) % 2 ^ 32
  if (Int.natAbs ((a.data.getD i 0 : Int) - (b.data.getD i 0 : Int)) : Int) > threshold then
    { total := total
      diff := (st.diff + 100) % 2 ^ 32
      cdata := st.cdata.set i (a.data.getD i 0) }
  else
    { total := total
      diff := st.diff
      cdata := st.cdata.set i 0 }

/-- Function `percent_diff_images` (main.c 277-303): the returned percentage and the
image `c` after the call. `none` when an assertion fails or `total` is zero at the
final division. -/
def percent_diff_images (a b c : image) (threshold : Int) : Option (Int × image) :=
  if a.n_pixels = b.n_pixels ∧ a.channels = b.channels ∧ a.channels = 1 then
    let max := a.n_pixels * a.channels
    let st := (List.range max).foldl (percent_diff_body a b threshold)
      { total := 0, diff := 0, cdata := c.data }
    if st.total = 0 then none
    else some (((st.diff / st.total : Nat) : Int), { c with data := st.cdata })
  else
    none

/-! ## State of the capture loop -/

/-- Local variables of `run_capture` that live across iterations of the capture loop
(main.c 753-788), the fields of `capture_data` the loop writes, and the lines appended
to `race.log`. -/
structure capture_state where
  lap_times : Nat → ℚ
  race_start : Nat
  lap_start : Nat
  fastest_lap : Nat
  lap : Nat
  race_logged : Bool
  bg_finish_line : image
  initial_bg_finish_line : image
  finish_line_active : Bool
  finish_line_valid : Bool
  need_bg_frames : Int
  last_bg_mix : Nat
  reset_race : Bool
  valid_image : Bool
  race_log : List (List ℚ)

/-- Constant `n_laps` (main.c 753). -/
def n_laps : Nat := 3

/-- Constant `min_lap_time` (main.c 755). -/
def min_lap_time : ℚ := 2

/-- Constant `require_bg_frames` (main.c 783). -/
def require_bg_frames : Int := 60

/-- State on entry to the capture loop (main.c 753-788, and the zero-initialised
`capture_data` of main.c 1221). The array `lap_times` is not initialised by the
program: its initial contents are the parameter `garbage`. -/
def capture_init (garbage : Nat → ℚ) : capture_state :=
  { lap_times := garbage
    race_start := 0
    lap_start := 0
    fastest_lap := 0
    lap := 0
    race_logged := false
    bg_finish_line := new_image_like (new_image 64 256 1)
    initial_bg_finish_line := new_image_like (new_image 64 256 1)
    finish_line_active := false
    finish_line_valid := false
    need_bg_frames := require_bg_frames
    last_bg_mix := 0
    reset_race := false
    valid_image := false
    race_log := [] }

/-- Handling of the reset request at the top of the loop body (main.c 795-803). -/
def handle_reset (s : capture_state) : capture_state :=
  if s.reset_race then
    { s with
      lap := 0
      race_logged := false
      race_start := 0
      lap_start := 0
      fastest_lap := 0
      reset_race := false }
  else
    s

/-- Subtraction of two `u64` values. -/
def u64_sub (a b : Nat) : Nat :=
  (a % 2 ^ 64 + 2 ^ 64 - b % 2 ^ 64) % 2 ^ 64

/-- Value assigned to `lap_times[lap]` at main.c 860:
`(double)(now - lap_start)/SDL_GetPerformanceFrequency()`. -/
def elapsed_time (freq now lap_start : Nat) : ℚ :=
  (u64_sub now lap_start : ℚ) / (freq : ℚ)

/-- Update of the running lap time (main.c 858-861). -/
def update_lap_time (freq now : Nat) (s : capture_state) : capture_state :=
  if s.lap_start > 0 ∧ s.lap < n_laps then
    { s with lap_times := Function.update s.lap_times s.lap (elapsed_time freq now s.lap_start) }
  else
    s

/-- Edge detection and lap transitions (main.c 867-894) for a computed motion `percent`. -/
def finish_line_check (percent : Int) (now : Nat) (s : capture_state) : capture_state :=
  if percent > 20 then
    if !s.finish_line_active then
      let s1 := { s with finish_line_active := true }
      if s1.lap < n_laps then
        if s1.lap_start > 0 then
          if s1.lap_times s1.lap > min_lap_time then
            let s2 :=
              if s1.lap = 0 ∨ s1.lap_times s1.lap < s1.lap_times s1.fastest_lap then
                { s1 with fastest_lap := s1.lap }
              else
                s1
            { s2 with lap_start := now, lap := s2.lap + 1 }
          else
            s1
        else
          { s1 with lap_start := now, race_start := now }
      else
        s1
    else
      s
  else
    { s with finish_line_active := false }

/-- Numbers printed on one line of `race.log` (main.c 931-936): the `n_laps` lap times,
then the total accumulated in index order from `0.0`. -/
def race_log_line (lap_times : Nat → ℚ) : List ℚ :=
  (List.range n_laps).map lap_times ++
    [(List.range n_laps).foldl (fun total i => total + lap_times i) 0]

/-- End-of-race logging (main.c 926-939); `fopen_ok` tells whether `fopen` returned a
stream. -/
def log_race (fopen_ok : Bool) (s : capture_state) : capture_state :=
  if s.lap = n_laps ∧ !s.race_logged then
    { s with
      race_logged := true
      race_log := if fopen_ok then s.race_log ++ [race_log_line s.lap_times] else s.race_log }
  else
    s

/-- Inputs of one tick of the lap timer: the motion percentage computed at main.c 864,
the counter value `now` of main.c 826 and the outcome of `fopen` at main.c 929. -/
structure tick where
  percent : Int
  now : Nat
  fopen_ok : Bool
deriving DecidableEq, Repr

/-- Lap timer part of one loop iteration (main.c 858-894 and 926-939): running lap time,
then the transitions gated by `finish_line_valid`, then the logging. -/
def lap_tick (freq : Nat) (s : capture_state) (t : tick) : capture_state :=
  let s1 := update_lap_time freq t.now s
  let s2 := if s1.finish_line_valid then finish_line_check t.percent t.now s1 else s1
  log_race t.fopen_ok s2

/-- Lap timer over a stream of ticks. -/
def lap_run (freq : Nat) (s : capture_state) (ticks : List tick) : capture_state :=
  ticks.foldl (lap_tick freq) s

/-! ## Quantities named by the specification -/

/-- Number of positions `i < n` at which the bytes of `a` and `b` differ by more than
`threshold` in absolute value. -/
def diff_count (a b : List Nat) (threshold : Int) (n : Nat) : Nat :=
  (List.range n).countP
    (fun i => decide (|(a.getD i 0 : Int) - (b.getD i 0 : Int)| > threshold))

/-- Counter values of the rising edges of a tick stream: the ticks whose percent is above
20 while the preceding tick's percent was not (`active` tells whether the percent was
above 20 just before the first tick of the stream). -/
def rising_edges : Bool → List tick → List Nat
  | _, [] => []
  | active, t :: ts =>
    if t.percent > 20 then
      if active then rising_edges true ts else t.now :: rising_edges true ts
    else rising_edges false ts

/-- Crossing times of the scenario, 0.0, 3.0, 3.4, 6.0 and 9.5 seconds after the counter
value `t0`, for a counter running at `10 * u` ticks per second. -/
def scenario_edges (t0 u : Nat) : List Nat :=
  [t0, t0 + 30 * u, t0 + 34 * u, t0 + 60 * u, t0 + 95 * u]

/-- Value of `lap` after the first `k` crossings of the scenario. -/
def scenario_lap (k : Nat) : Nat :=
  [0, 0, 1, 1, 2, 3].getD k 3

/-- Value of `lap_start` after the first `k` crossings of the scenario. -/
def scenario_lap_start (t0 u k : Nat) : Nat :=
  [0, t0, t0 + 30 * u, t0 + 30 * u, t0 + 60 * u, t0 + 95 * u].getD k (t0 + 95 * u)

/-- Lap durations recorded by the scenario, in seconds. -/
def scenario_durations : List ℚ := [3, 3, 7 / 2]

/-- State of the lap timer after the first `k` crossings of the scenario. -/
def scenario_inv (t0 u k : Nat) (s : capture_state) : Prop :=
  s.finish_line_valid = true ∧
  s.fastest_lap = 0 ∧
  s.lap = scenario_lap k ∧
  s.lap_start = scenario_lap_start t0 u k ∧
  s.race_start = (if k = 0 then 0 else t0) ∧
  (∀ i, i < s.lap → s.lap_times i = scenario_durations.getD i 0) ∧
  s.race_logged = decide (5 ≤ k) ∧
  s.race_log = (if 5 ≤ k then [[3, 3, 7 / 2, 19 / 2]] else [])

/-! ## Repeated blending -/

/-- Reference image after `k` consecutive calls `mix_images(reference, new, 10)`, starting
from `old`. -/
def blend_times (new : image) : Nat → image → Option image
  | 0, old => some old
  | k + 1, old => (blend_times new k old).bind fun ref => (mix_images ref new 10).map Prod.fst

/-! ## Insertion sort and median filter -/

/-- Conversion of a `size_t` value to `int`, as in `int j = i - 1` (main.c 311): the
value is reduced modulo `2^32` into the range `-2^31 .. 2^31 - 1`. -/
def int_of_size (x : Nat) : Int :=
  ((x : Int) + 2 ^ 31) % 2 ^ 32 - 2 ^ 31

/-- Inner loop of `insertion_sort_u8` (main.c 312-314), entered with `j = m - 1`: while
`j >= 0 && a[j] > x` the byte `a[j]` moves to `a[j + 1]` and `j` decreases. The result
is `j + 1` at exit and the array. -/
def shift_loop (x : Nat) : Nat → List Nat → Nat × List Nat
  | 0, a => (0, a)
  | m + 1, a =>
    if a.getD m 0 > x then shift_loop x m (a.set (m + 1) (a.getD m 0)) else (m + 1, a)

/-- Body of the outer loop of `insertion_sort_u8` (main.c 310-315) for the index `i`.
Every iteration stores at `a[i]`, either in the inner loop or at the final `a[j + 1] = x`
with `j = i - 1`, so the index `i` has to lie inside the array. The `int` index `j` is
the wrapped value of `i - 1`; the result is `none` when `j + 1` overflows (`j` is
`INT_MAX`) or when the final store `a[j + 1] = x` has a negative index. -/
def insert_step (a : List Nat) (i : Nat) : Option (List Nat) :=
  if i < a.length then
    let x := a.getD i 0
    let j : Int := int_of_size (i - 1)
    if 0 ≤ j then
      if j + 1 < 2147483648 then
        let r := shift_loop x (j + 1).toNat a
        some (r.2.set r.1 x)
      else
        none
    else if j + 1 = 0 then
      some (a.set 0 x)
    else
      none
  else
    none

/-- Function `insertion_sort_u8` (main.c 306-317): the array after the call, `none` when
an iteration stores outside the array. -/
def insertion_sort_u8 (a : List Nat) (n : Nat) : Option (List Nat) :=
  (List.range' 1 (n - 1)).foldlM insert_step a

/-- Read of `data[idx]` for an `int` index; a read outside the buffer yields 0. -/
def read_at (data : List Nat) (idx : Int) : Nat :=
  if idx < 0 then 0 else data.getD idx.toNat 0

/-- Call `memcpy(dst + off, src + off, len)` with `int` arguments, `len` being converted
to `size_t`: the bytes of `dst` at the positions `off .. off + len - 1` become those of
`src`. Nothing happens when `len` is 0. The result is `none` when a byte would be written
outside `dst`, which is the case for every negative `len` (a huge `size_t`). -/
def copy_bytes (src dst : List Nat) (off len : Int) : Option (List Nat) :=
  if len = 0 then
    some dst
  else if 0 ≤ off ∧ 0 < len ∧ off + len ≤ (dst.length : Int) then
    some ((List.range dst.length).map fun (k : Nat) =>
      if off ≤ (k : Int) ∧ (k : Int) < off + len then src.getD k 0 else dst.getD k 0)
  else
    none

/-- Window gathered at main.c 357-362 around the byte index `i`: `k` runs over
`-r .. r` in the outer loop, `y` over `-r .. r` in the inner loop, and the byte read is
`a->data[x + y*stride]` with `x = i + k*channels`, both sums being `int` expressions. -/
def median_window (a : image) (r i : Nat) : List Nat :=
  (List.range (2 * r + 1)).flatMap fun (kk : Nat) =>
    (List.range (2 * r + 1)).map fun (yy : Nat) =>
      read_at a.data
        (wrap_int ((i : Int) + ((kk : Int) - (r : Int)) * (a.channels : Int) +
          ((yy : Int) - (r : Int)) * (a.stride : Int)))

/-- Value stored at `b->data[i]` (main.c 364-366): byte `n/2` of the sorted window. The
sort returns for every window of fewer than `2^31` bytes, the only windows for which
`median_channel` reaches this point; the value 0 of the other case is never used. -/
def median_value (a : image) (r i : Nat) : Nat :=
  match insertion_sort_u8 (median_window a r i) ((2 * r + 1) * (2 * r + 1)) with
  | some w => w.getD ((2 * r + 1) * (2 * r + 1) / 2) 0
  | none => 0

/-- Function `median_channel` (main.c 334-369) for a radius and a channel index that are
not negative. The result is the pair of images `(a, b)` after the call: the second
assertion `assert(a->channels = b->channels)` assigns `b->channels` to `a->channels` and
fails when that value is 0. The `int` values `n`, `pad` and `imax` are wrapped. The
result is `none`
* when `n` is not the number `(2r+1)^2` of bytes gathered in the array `win[n]`,
* when one of the two `memcpy` writes outside `b->data`,
* when a store `b->data[i]` of the filter loop falls outside `b->data`, or the counter
  `i` overflows at `i += a->channels`: the loop then goes on with a negative `i`.
The loop visits `i = pad, pad + channels, ...` while `i < imax`. -/
def median_channel (a b : image) (r channel : Nat) : Option (image × image) :=
  if a.n_pixels = b.n_pixels ∧ b.channels ≠ 0 then
    let a1 : image := { a with channels := b.channels }
    let n : Int := wrap_int (((2 * r + 1) * (2 * r + 1) : Nat) : Int)
    let pad : Int := wrap_int ((r * a1.stride + r * a1.channels + channel : Nat) : Int)
    let imax : Int := wrap_int (((a1.n_pixels * a1.channels : Nat) : Int) - pad)
    if n = (((2 * r + 1) * (2 * r + 1) : Nat) : Int) then
      (copy_bytes a1.data b.data 0 pad).bind fun (b1 : List Nat) =>
        (copy_bytes a1.data b1 imax pad).bind fun (b2 : List Nat) =>
          let count : Nat := ((imax - pad + (a1.channels : Int) - 1) / (a1.channels : Int)).toNat
          if (∀ t, t < count → pad.toNat + t * a1.channels < b2.length) ∧
              (0 < count → pad + (count : Int) * (a1.channels : Int) < 2147483648) then
            some (a1, { b with data := ((List.range count).foldl
              (fun (d : List Nat) (t : Nat) =>
                d.set (pad.toNat + t * a1.channels)
                  (median_value a1 r (pad.toNat + t * a1.channels))) b2) })
          else
            none
    else
      none
  else
    none

/-- Source bytes of the square neighbourhood of the pixel `(row, col)` of a one-channel
image, rows `row - r .. row + r` and columns `col - r .. col + r`, row by row. -/
def neighbourhood (a : image) (r row col : Nat) : List Nat :=
  (List.range (2 * r + 1)).flatMap fun (dy : Nat) =>
    (List.range (2 * r + 1)).map fun (dx : Nat) =>
      a.data.getD ((row - r + dy) * a.width + (col - r + dx)) 0

/-- Source bytes at the offsets `dx + dy * width`, `-r ≤ dx, dy ≤ r`, from the byte index
`k` of a one-channel image seen as one long array: the square neighbourhood when the pixel
is an interior pixel, a window that wraps onto the neighbouring rows when the pixel is
within `r` columns of the left or right edge. -/
def line_window (a : image) (r k : Nat) : List Nat :=
  (List.range (2 * r + 1)).flatMap fun (dy : Nat) =>
    (List.range (2 * r + 1)).map fun (dx : Nat) =>
      a.data.getD (k - (r * a.width + r) + dy * a.width + dx) 0

/-- Image of `width * height` pixels with one channel holding the bytes `l`. -/
def gray_image (width height : Nat) (l : List Nat) : image :=
  { width := width, height := height, channels := 1, stride := width
    n_pixels := height * width, data := l }

/-- Four-channel image of `2^29` pixels in one row, `2^31` bytes, over the bytes `l`. -/
def wide_rgba_image (l : List Nat) : image :=
  { width := 536870912, height := 1, channels := 4, stride := 2147483648
    n_pixels := 536870912, data := l }

/-! ## Background model and one iteration of the capture loop -/

/-- Function `copy_image` (main.c 189-195): the image `dest` after the call; `none` when
one of the two assertions fails or the `memcpy` of `src->n_pixels*src->channels` bytes, an
`int` product, writes outside `dest->data`. -/
def copy_image (src dest : image) : Option image :=
  if src.n_pixels = dest.n_pixels ∧ src.channels = dest.channels then
    (copy_bytes src.data dest.data 0
      (wrap_int ((src.n_pixels : Int) * (src.channels : Int)))).map
        fun (d : List Nat) => { dest with data := d }
  else
    none

/-- Constant `n_usable_frames` (main.c 784), with the truncating division of C. -/
def n_usable_frames : Int := require_bg_frames - require_bg_frames.tdiv 3

/-- Value of `bg_mix_count` (main.c 788): 60 seconds of counter ticks, as a `u64`. -/
def bg_mix_count (freq : Nat) : Nat := (60 * freq) % 2 ^ 64

/-- Variable `motion_threshold` (main.c 779), never reassigned. -/
def motion_threshold : Int := 8

/-- Idle re-arm of the warm-up counter (main.c 828-831). -/
def rearm_background (freq now : Nat) (s : capture_state) : capture_state :=
  if u64_sub now s.last_bg_mix > bg_mix_count freq then
    { s with need_bg_frames := s.need_bg_frames + 1 }
  else
    s

/-- Warm-up schedule (main.c 834-856) on the filtered region of interest `finish_line`:
`none` when an assertion of `copy_image` or `mix_images` fails. -/
def background_schedule (finish_line : image) (now : Nat) (s : capture_state) :
    Option capture_state :=
  if s.need_bg_frames ≠ 0 then
    let s1 := { s with last_bg_mix := now }
    let s2 : Option capture_state :=
      if s1.need_bg_frames = n_usable_frames then
        (copy_image finish_line s1.bg_finish_line).map fun bg =>
          { s1 with bg_finish_line := bg, valid_image := true }
      else if s1.need_bg_frames < n_usable_frames then
        (mix_images s1.bg_finish_line finish_line 10).map fun p =>
          { s1 with bg_finish_line := p.1 }
      else
        some s1
    s2.bind fun s2 =>
      let s3 := { s2 with need_bg_frames := s2.need_bg_frames - 1 }
      if s3.need_bg_frames = 0 ∧ !s3.finish_line_valid then
        (copy_image s3.bg_finish_line s3.initial_bg_finish_line).map fun ini =>
          { s3 with finish_line_valid := true, initial_bg_finish_line := ini }
      else
        some s3
  else
    some s

/-- Inputs of one iteration of the capture loop: whether the main thread has set
`reset_race` since the previous iteration (main.c 1285), the filtered region of interest
`finish_line` (main.c 823), the buffer `tmp_finish_line` that receives the difference
image (main.c 822, 864), the counter value `now` (main.c 826) and the outcome of `fopen`
(main.c 929). -/
structure frame where
  reset_request : Bool
  finish_line : image
  tmp_finish_line : image
  now : Nat
  fopen_ok : Bool

/-- One iteration of the capture loop on the variables of `capture_state`
(main.c 795-803, 826-894, 926-939): reset, idle re-arm, warm-up schedule, then the lap
timer with the motion percentage computed when `finish_line_valid` holds. -/
def capture_frame (freq : Nat) (s : capture_state) (f : frame) : Option capture_state :=
  let s1 := handle_reset { s with reset_race := s.reset_race || f.reset_request }
  (background_schedule f.finish_line f.now (rearm_background freq f.now s1)).bind fun s2 =>
    if s2.finish_line_valid then
      (percent_diff_images f.finish_line s2.bg_finish_line f.tmp_finish_line
          motion_threshold).map fun p =>
        lap_tick freq s2 { percent := p.1, now := f.now, fopen_ok := f.fopen_ok }
    else
      some (lap_tick freq s2 { percent := 0, now := f.now, fopen_ok := f.fopen_ok })

/-- The capture loop over a sequence of frames. -/
def capture_run (freq : Nat) : capture_state → List frame → Option capture_state
  | s, [] => some s
  | s, f :: fs => (capture_frame freq s f).bind fun s1 => capture_run freq s1 fs

/-- Value of `need_bg_frames` tested by the schedule of a frame: the counter after the
idle re-arm of that frame. -/
def frame_counter (freq : Nat) (s : capture_state) (f : frame) : Int :=
  (rearm_background freq f.now s).need_bg_frames

/-- An image with the dimensions of the region of interest: one channel, `n` pixels,
`n` bytes of data. -/
def roi_image (n : Nat) (img : image) : Prop :=
  img.n_pixels = n ∧ img.channels = 1 ∧ img.data.length = n

/-- The two reference images of a state have the dimensions of the region of interest. -/
def background_shaped (n : Nat) (s : capture_state) : Prop :=
  roi_image n s.bg_finish_line ∧ roi_image n s.initial_bg_finish_line

/-- The two images of a frame have the dimensions of the region of interest. -/
def frame_shaped (n : Nat) (f : frame) : Prop :=
  roi_image n f.finish_line ∧ roi_image n f.tmp_finish_line

/-- No idle re-arm fires on a sequence of frames that are all processed with a non-zero
warm-up counter: every counter value is at most 60 seconds of ticks after the previous one
(`prev` is the last-blend timestamp before the first frame). -/
def paced (freq : Nat) : Nat → List frame → Prop
  | _, [] => True
  | prev, f :: fs => u64_sub f.now prev ≤ bg_mix_count freq ∧ paced freq f.now fs

/-- Relation between the background variables before (`s`) and after (`t`) an iteration
whose schedule tests the counter value `c` on the filtered region of interest `fl` at
counter time `now`: the branches of main.c 834-853 written out field by field. -/
def schedule_result (c : Int) (fl : image) (now : Nat) (s t : capture_state) : Prop :=
  (c = 0 → t.bg_finish_line = s.bg_finish_line ∧ t.need_bg_frames = 0 ∧
    t.last_bg_mix = s.last_bg_mix ∧ t.valid_image = s.valid_image ∧
    t.finish_line_valid = s.finish_line_valid ∧
    t.initial_bg_finish_line = s.initial_bg_finish_line) ∧
  (c ≠ 0 → t.need_bg_frames = c - 1 ∧ t.last_bg_mix = now) ∧
  (c = 40 → t.bg_finish_line = { s.bg_finish_line with data := fl.data } ∧
    t.valid_image = true) ∧
  (c ≠ 40 → t.valid_image = s.valid_image) ∧
  (c < 40 → c ≠ 0 → mix_images s.bg_finish_line fl 10 = some (t.bg_finish_line, fl)) ∧
  (40 < c → t.bg_finish_line = s.bg_finish_line) ∧
  (s.finish_line_valid = true →
    t.finish_line_valid = true ∧ t.initial_bg_finish_line = s.initial_bg_finish_line) ∧
  (s.finish_line_valid = false → c = 1 →
    t.finish_line_valid = true ∧
    t.initial_bg_finish_line = { s.initial_bg_finish_line with data := t.bg_finish_line.data }) ∧
  (s.finish_line_valid = false → c ≠ 1 →
    t.finish_line_valid = false ∧ t.initial_bg_finish_line = s.initial_bg_finish_line)

/-- The variables of the lap timer agree in two states. -/
def same_lap_fields (s t : capture_state) : Prop :=
  t.lap_times = s.lap_times ∧ t.race_start = s.race_start ∧ t.lap_start = s.lap_start ∧
  t.fastest_lap = s.fastest_lap ∧ t.lap = s.lap ∧ t.race_logged = s.race_logged ∧
  t.finish_line_active = s.finish_line_active ∧ t.reset_race = s.reset_race ∧
  t.race_log = s.race_log

/-- The background variables agree in two states. -/
def same_background (s t : capture_state) : Prop :=
  t.bg_finish_line = s.bg_finish_line ∧
  t.initial_bg_finish_line = s.initial_bg_finish_line ∧
  t.finish_line_valid = s.finish_line_valid ∧ t.need_bg_frames = s.need_bg_frames ∧
  t.last_bg_mix = s.last_bg_mix ∧ t.valid_image = s.valid_image

/-- Counter value of the last frame of a sequence (`prev` when the sequence is empty). -/
def last_now : Nat → List frame → Nat
  | prev, [] => prev
  | _, f :: fs => last_now f.now fs

/-- Reference obtained by blending the regions of interest `fls` into `bg`, one call of
`mix_images` with weight 10 per region, in order. -/
def blend_list : List image → image → Option image
  | [], bg => some bg
  | fl :: rest, bg => (mix_images bg fl 10).bind fun p => blend_list rest p.1

/-- Reference built from the usable frames of a warm-up as the specification describes
it: a snapshot of the first usable region of interest, then one blend per later one. -/
def build_reference : List image → image → Option image
  | [], bg => some bg
  | fl :: rest, bg => (copy_image fl bg).bind fun r => blend_list rest r

/-- Invariant of the capture loop relating the warm-up counter, the two valid flags and
the lap timer: the counter is not negative; a counter below the usable threshold or a set
background-valid flag means a snapshot was taken (`valid_image`); while the
background-valid flag is unset the counter is positive and the lap timer is in its
NoRace state. -/
def background_inv (s : capture_state) : Prop :=
  0 ≤ s.need_bg_frames ∧
  (s.need_bg_frames < 40 → s.valid_image = true) ∧
  (s.finish_line_valid = true → s.valid_image = true) ∧
  (s.finish_line_valid = false →
    0 < s.need_bg_frames ∧ s.lap = 0 ∧ s.lap_start = 0 ∧ s.race_start = 0)

/-- Lap timer over a sequence of ticks, each preceded by the reset block with the reset
request `r` of the main thread (main.c 795-803, 858-894, 926-939). -/
def race_run (freq : Nat) (s : capture_state) (steps : List (Bool × tick)) : capture_state :=
  steps.foldl
    (fun st rt => lap_tick freq (handle_reset { st with reset_race := st.reset_race || rt.1 }) rt.2)
    s

/-- Invariant of the lap state machine named by the specification: `lap` and the
fastest-lap index stay within the `n_laps` entries of `lap_times`, and once a lap is
recorded the fastest-lap index is the smallest index holding the minimum of the recorded
durations `lap_times[0 .. lap-1]`. -/
def lap_inv (s : capture_state) : Prop :=
  s.lap ≤ n_laps ∧ s.fastest_lap < n_laps ∧
  (1 ≤ s.lap →
    s.fastest_lap < s.lap ∧
    (∀ j, j < s.lap → s.lap_times s.fastest_lap ≤ s.lap_times j) ∧
    (∀ j, j < s.fastest_lap → s.lap_times s.fastest_lap < s.lap_times j))

/-! ## Conversion of packed YUYV frames -/

/-- Function `clamp` (main.c 49-59). -/
def clamp (n min max : Int) : Int :=
  if n < min then min
  else if n > max then max
  else n

/-- Function `clamp255` (main.c 62-66). -/
def clamp255 (n : Int) : Int := clamp n 0 255

/-- Red chroma offset `vp` (main.c 609); `>>` on a negative `int` is taken as the
arithmetic shift. -/
def vp (V : Int) : Int := V + (V >>> (2 : Nat)) + (V >>> (3 : Nat)) + (V >>> (5 : Nat))

/-- Green chroma offset `uvp` (main.c 610). -/
def uvp (U V : Int) : Int :=
  -((U >>> (2 : Nat)) + (U >>> (4 : Nat)) + (U >>> (5 : Nat))) -
    ((V >>> (1 : Nat)) + (V >>> (3 : Nat)) + (V >>> (4 : Nat)) + (V >>> (5 : Nat)))

/-- Blue chroma offset `up` (main.c 611). -/
def up (U : Int) : Int := U + (U >>> (1 : Nat)) + (U >>> (2 : Nat)) + (U >>> (6 : Nat))

/-- Store of an `int` into a `u8`. -/
def store_u8 (x : Int) : Nat := (x % 256).toNat

/-- Body of the loop of `yuyv2rgba` (main.c 603-624) for the iteration with `i = 4 * t` and
`j = 8 * t`; `none` when one of the four reads or eight writes falls outside its buffer. -/
def yuyv2rgba_body (yuyv : List Nat) (rgba : List Nat) (t : Nat) : Option (List Nat) :=
  let i := 4 * t
  let j := 8 * t
  if i + 3 < yuyv.length ∧ j + 7 < rgba.length then
    let Y0 : Int := (yuyv.getD i 0 : Int) - 16
    let U : Int := (yuyv.getD (i + 1) 0 : Int) - 128
    let Y1 : Int := (yuyv.getD (i + 2) 0 : Int) - 16
    let V : Int := (yuyv.getD (i + 3) 0 : Int) - 128
    some ((((((((rgba.set j (store_u8 (clamp255 (Y0 + up U)))).set (j + 1)
      (store_u8 (clamp255 (Y0 + uvp U V)))).set (j + 2)
      (store_u8 (clamp255 (Y0 + vp V)))).set (j + 3) 255).set (j + 4)
      (store_u8 (clamp255 (Y1 + up U)))).set (j + 5)
      (store_u8 (clamp255 (Y1 + uvp U V)))).set (j + 6)
      (store_u8 (clamp255 (Y1 + vp V)))).set (j + 7) 255)
  else
    none

/-- Function `yuyv2rgba` (main.c 596-628): the buffer `rgba` after the call. The bounds
`yuyv_max` and `rgb_max` are `int` products. The loop runs for `t = 0, 1, ...` while
`4 * t < yuyv_max` and `8 * t < rgb_max`; the counters `i = 4 * t` and `j = 8 * t` stay
below `2^31` while it runs, because `2 * yuyv_max` and `rgb_max` are congruent modulo
`2^32`. -/
def yuyv2rgba (yuyv rgba : List Nat) (n_pixels : Int) : Option (List Nat) :=
  let yuyv_max : Int := wrap_int (n_pixels * 2)
  let rgb_max : Int := wrap_int (n_pixels * 4)
  let count : Nat := min ((yuyv_max + 3) / 4).toNat ((rgb_max + 7) / 8).toNat
  (List.range count).foldlM (yuyv2rgba_body yuyv) rgba

/-- Body of the loop of `yuyv2y` (main.c 636) for the iteration with `i = 2 * t` and
`j = t`; `none` when the read or the write falls outside its buffer. -/
def yuyv2y_body (yuyv : List Nat) (out : List Nat) (t : Nat) : Option (List Nat) :=
  if 2 * t < yuyv.length ∧ t < out.length then some (out.set t (yuyv.getD (2 * t) 0))
  else none

/-- Function `yuyv2y` (main.c 631-638): the buffer `out` after the call. The bound
`yuyv_max` is an `int` product, hence even. The loop runs for `t = 0, 1, ...` while
`2 * t < yuyv_max`. -/
def yuyv2y (yuyv out : List Nat) (n_pixels : Int) : Option (List Nat) :=
  let yuyv_max : Int := wrap_int (n_pixels * 2)
  let count : Nat := ((yuyv_max + 1) / 2).toNat
  (List.range count).foldlM (yuyv2y_body yuyv) out

/-- Byte that the specification gives to channel `ch` (0 blue, 1 green, 2 red, 3 alpha) of
pixel `p`: the luma of the pixel minus 16 plus the chroma offset of its pair, clamped to
`[0, 255]`; alpha is 255. -/
def bgra_channel (yuyv : List Nat) (p ch : Nat) : Nat :=
  let Y : Int := (yuyv.getD (2 * p) 0 : Int) - 16
  let U : Int := (yuyv.getD (4 * (p / 2) + 1) 0 : Int) - 128
  let V : Int := (yuyv.getD (4 * (p / 2) + 3) 0 : Int) - 128
  if ch = 0 then (clamp255 (Y + up U)).toNat
  else if ch = 1 then (clamp255 (Y + uvp U V)).toNat
  else if ch = 2 then (clamp255 (Y + vp V)).toNat
  else 255

/-! ## Frame exchange between the capture thread and the display loop -/

/-- Holder of `capture_data.mutex`. -/
inductive owner where
  | free
  | capture
  | display
deriving DecidableEq, Repr

/-- Position of the capture thread inside one iteration of its loop: `fetch` before
main.c 812; `writing` once `write1_image` and `write2_image` are set, while the stores of
main.c 815-923 go on; `locked` after `SDL_LockMutex` returned 0 (main.c 943); `flipped`
after main.c 944 and before the unlock of main.c 945. -/
inductive capture_pc where
  | fetch
  | writing
  | locked
  | flipped
deriving DecidableEq, Repr

/-- Position of the display loop of `main`: `idle` outside main.c 1312-1325; `reading k`
while it holds the mutex and `SDL_UpdateTexture` has copied `k` bytes of the slot pair
`image1[rindex]`, `image2[rindex]` (main.c 1314-1318). -/
inductive display_pc where
  | idle
  | reading (k : Nat)
deriving DecidableEq, Repr

/-- Shared variables of `capture_data` used by the exchange, and the local variables of
the two threads that matter for it. `slots i` is the content of the slot pair
`image1[i]`, `image2[i]` (`false` for index 0, `true` for index 1); `windex` is the index
the pointers `write1_image`, `write2_image` were taken from; `seen` is what the display
loop has copied in its current read. -/
structure exchange where
  slots : Bool → List Nat
  rindex : Bool
  mutex : owner
  windex : Bool
  cpc : capture_pc
  dpc : display_pc
  seen : List Nat

/-- One atomic step of one of the two threads. Capture thread: `fetch` (main.c 812-813),
`write i v` (one store through `write1_image` or `write2_image`, main.c 815-923),
`lock ok` (`SDL_LockMutex` of main.c 943, `ok` telling whether it returned 0), `flip`
(main.c 944), `unlock` (main.c 945). Display loop: `dlock ok` (main.c 1312), `dread`
(copy of the next byte, main.c 1314-1318), `dunlock` (main.c 1324). -/
inductive action where
  | fetch
  | write (i v : Nat)
  | lock (ok : Bool)
  | flip
  | unlock
  | dlock (ok : Bool)
  | dread
  | dunlock
deriving DecidableEq, Repr

/-- Effect of one step; `none` when the step cannot be taken in the state: the thread is
elsewhere in its code, or it waits for the mutex. -/
def exchange_step (s : exchange) (a : action) : Option exchange :=
  match a with
  | action.fetch =>
    if s.cpc = capture_pc.fetch then
      some { s with windex := !s.rindex, cpc := capture_pc.writing }
    else none
  | action.write i v =>
    if s.cpc = capture_pc.writing then
      some { s with slots := Function.update s.slots s.windex ((s.slots s.windex).set i v) }
    else none
  | action.lock ok =>
    if s.cpc = capture_pc.writing then
      if ok then
        if s.mutex = owner.free then
          some { s with mutex := owner.capture, cpc := capture_pc.locked }
        else none
      else some { s with cpc := capture_pc.fetch }
    else none
  | action.flip =>
    if s.cpc = capture_pc.locked then
      some { s with rindex := !s.rindex, cpc := capture_pc.flipped }
    else none
  | action.unlock =>
    if s.cpc = capture_pc.flipped then
      some { s with mutex := owner.free, cpc := capture_pc.fetch }
    else none
  | action.dlock ok =>
    if s.dpc = display_pc.idle then
      if ok then
        if s.mutex = owner.free then
          some { s with mutex := owner.display, dpc := display_pc.reading 0, seen := [] }
        else none
      else some s
    else none
  | action.dread =>
    match s.dpc with
    | display_pc.reading k =>
      if k < (s.slots s.rindex).length then
        some { s with seen := s.seen ++ [(s.slots s.rindex).getD k 0],
                      dpc := display_pc.reading (k + 1) }
      else none
    | display_pc.idle => none
  | action.dunlock =>
    match s.dpc with
    | display_pc.reading _ => some { s with mutex := owner.free, dpc := display_pc.idle }
    | display_pc.idle => none

/-- An interleaving of steps of the two threads. -/
def exchange_run : exchange → List action → Option exchange
  | s, [] => some s
  | s, a :: rest => (exchange_step s a).bind fun s1 => exchange_run s1 rest

/-- State of the exchange when the capture loop is entered (main.c 763-767), the two slot
pairs holding `blank`. -/
def exchange_init (blank : List Nat) : exchange :=
  { slots := fun _ => blank
    rindex := false
    mutex := owner.free
    windex := true
    cpc := capture_pc.fetch
    dpc := display_pc.idle
    seen := [] }

/-- Steps of the capture thread in one iteration of its loop that performs the stores
`ws` (index and value, in program order): main.c 812-813, the stores, then main.c
943-946 with `ok` telling whether `SDL_LockMutex` returned 0. -/
def publish_actions (ws : List (Nat × Nat)) (ok : Bool) : List action :=
  [action.fetch] ++ ws.map (fun w => action.write w.1 w.2) ++ [action.lock ok] ++
    (if ok then [action.flip, action.unlock] else [])

/-- Invariant of the exchange: the write pointers of the capture thread designate the slot
pair the reader is not directed to; the capture thread holds the mutex exactly between
its lock and its unlock, the display loop exactly while it reads; and what the display
loop has copied so far is a prefix of the slot pair `rindex` as it is now. -/
def exchange_inv (s : exchange) : Prop :=
  (s.cpc = capture_pc.writing → s.windex = !s.rindex) ∧
  (s.mutex = owner.capture ↔ (s.cpc = capture_pc.locked ∨ s.cpc = capture_pc.flipped)) ∧
  (s.mutex = owner.display ↔ ∃ k, s.dpc = display_pc.reading k) ∧
  (∀ k, s.dpc = display_pc.reading k → s.seen = (s.slots s.rindex).take k)

/-! ## Byte indices accessed by the median filter -/

/-- Indices touched by `memcpy(p + off, q + off, len)` with `int` arguments: the `int`
length is converted to `size_t`, so a negative `len` stands for `len + 2^64` bytes. -/
def copy_indices (off len : Int) : List Int :=
  (List.range (len % 18446744073709551616).toNat).map fun (k : Nat) => off + (k : Int)

/-- Indices of `a->data` read for the window around the byte index `i` (main.c 357-362),
as `int` values. -/
def window_indices (a : image) (r i : Nat) : List Int :=
  (List.range (2 * r + 1)).flatMap fun (kk : Nat) =>
    (List.range (2 * r + 1)).map fun (yy : Nat) =>
      wrap_int ((i : Int) + ((kk : Int) - (r : Int)) * (a.channels : Int) +
        ((yy : Int) - (r : Int)) * (a.stride : Int))

/-- Values of `i` visited by the filter loop of `median_channel` (main.c 356):
`pad, pad + channels, ...` below `imax`, with `a->channels` already overwritten by the
second assertion and `pad`, `imax` the wrapped `int` values. The loop is reached with
`pad ≥ 0` only, a negative `pad` being a huge length for the `memcpy` before it. The list
is the whole run of the loop when `i += a->channels` does not overflow, that is when the
last visited index plus `channels` is below `2^31`. -/
def filter_indices (a b : image) (r channel : Nat) : List Nat :=
  let a1 : image := { a with channels := b.channels }
  let pad : Int := wrap_int ((r * a1.stride + r * a1.channels + channel : Nat) : Int)
  let imax : Int := wrap_int (((a1.n_pixels * a1.channels : Nat) : Int) - pad)
  let count : Nat := ((imax - pad + (a1.channels : Int) - 1) / (a1.channels : Int)).toNat
  (List.range count).map fun (t : Nat) => pad.toNat + t * a1.channels

/-- Indices of `a->data` read by `median_channel`: the two `memcpy` (main.c 351-352) and
the windows of the filter loop. -/
def median_reads (a b : image) (r channel : Nat) : List Int :=
  let a1 : image := { a with channels := b.channels }
  let pad : Int := wrap_int ((r * a1.stride + r * a1.channels + channel : Nat) : Int)
  let imax : Int := wrap_int (((a1.n_pixels * a1.channels : Nat) : Int) - pad)
  copy_indices 0 pad ++ copy_indices imax pad ++
    (filter_indices a b r channel).flatMap fun (i : Nat) => window_indices a1 r i

/-- Indices of `b->data` written by `median_channel`: the two `memcpy` (main.c 351-352)
and the stores `b->data[i]` of the filter loop (main.c 366). -/
def median_writes (a b : image) (r channel : Nat) : List Int :=
  let a1 : image := { a with channels := b.channels }
  let pad : Int := wrap_int ((r * a1.stride + r * a1.channels + channel : Nat) : Int)
  let imax : Int := wrap_int (((a1.n_pixels * a1.channels : Nat) : Int) - pad)
  copy_indices 0 pad ++ copy_indices imax pad ++
    (filter_indices a b r channel).map fun (i : Nat) => (i : Int)

/-- A two-channel image of six pixels whose rows of one pixel are padded to three bytes. -/
def padded_rows_image (l : List Nat) : image :=
  { width := 1, height := 6, channels := 2, stride := 3, n_pixels := 6, data := l }

/-! ## Concrete images used as test inputs -/

/-- One-row, one-channel image holding the bytes `l`. -/
def row_image (l : List Nat) : image :=
  { width := l.length, height := 1, channels := 1, stride := l.length
    n_pixels := l.length, data := l }

/-- One-row, one-channel image of `n` bytes, all equal to `v`. -/
def uniform_row (n v : Nat) : image :=
  { width := n, height := 1, channels := 1, stride := n, n_pixels := n
    data := List.replicate n v }

/-! ## Concrete states used as test inputs -/

/-- A race in progress: race started at tick 1000, lap 1 completed in 3 s at tick 1030
(counter frequency 10 ticks per second), background valid, nothing on the line. -/
def running_state : capture_state :=
  { capture_init (fun i => if i = 0 then 3 else 0) with
    finish_line_valid := true
    race_start := 1000
    lap_start := 1030
    lap := 1 }

/-- The state `running_state` while an object is on the finish line and a reset has been
requested. -/
def reset_requested_state : capture_state :=
  { running_state with
    finish_line_active := true
    reset_race := true }

/-- Tick with the given percent and counter value on which `race.log` can be opened. -/
def tick_at (percent : Int) (now : Nat) : tick :=
  { percent := percent, now := now, fopen_ok := true }

/-- Tick stream of the scenario for a counter at 10 ticks per second starting at the
counter value `t0`: the five crossings, separated by ticks without motion. -/
def scenario_ticks (t0 : Nat) : List tick :=
  [tick_at 50 t0, tick_at 0 (t0 + 10), tick_at 50 (t0 + 30), tick_at 0 (t0 + 31),
   tick_at 50 (t0 + 34), tick_at 0 (t0 + 40), tick_at 50 (t0 + 60), tick_at 0 (t0 + 61),
   tick_at 50 (t0 + 95)]

/-- The stream `scenario_ticks 1000` with `fopen` failing on the last crossing, followed by
two more ticks. -/
def unwritable_ticks : List tick :=
  (scenario_ticks 1000).take 8 ++
    [{ percent := 50, now := 1095, fopen_ok := false }, tick_at 0 1100, tick_at 50 1200]

/-- NoRace state on entry to the loop, with a valid background. -/
def valid_start : capture_state :=
  { capture_init (fun _ => 0) with finish_line_valid := true }

/-- A state of the capture loop with four-byte reference images and warm-up counter `c`;
the counter frequency used with it is 10 ticks per second. -/
def warmup_state (c : Int) : capture_state :=
  { capture_init (fun _ => 0) with
    bg_finish_line := row_image [10, 20, 30, 40]
    initial_bg_finish_line := row_image [0, 0, 0, 0]
    need_bg_frames := c }

/-- A frame at counter value `now` whose filtered region of interest is the row `l`. -/
def row_frame (now : Nat) (l : List Nat) : frame :=
  { reset_request := false
    finish_line := row_image l
    tmp_finish_line := row_image (List.replicate l.length 0)
    now := now
    fopen_ok := true }

/-- A frame at counter value `now` whose filtered region of interest is the uniform
64 x 256 image of value `v`. -/
def roi_frame (now v : Nat) : frame :=
  { reset_request := false
    finish_line := { new_image 64 256 1 with data := List.replicate 16384 v }
    tmp_finish_line := new_image 64 256 1
    now := now
    fopen_ok := true }

/-- The first `k` frames of a capture of a black scene, one frame per counter tick. -/
def still_frames (k : Nat) : List frame :=
  (List.range k).map fun t => roi_frame (t + 1) 0

/-! ## Case analysis of the stages of a tick -/

theorem update_lap_time_running (freq now : Nat) (s : capture_state)
    (hrun : 0 < s.lap_start) (hlap : s.lap < n_laps) :
    update_lap_time freq now s =
      { s with lap_times :=
          Function.update s.lap_times s.lap (elapsed_time freq now s.lap_start) } := by
  unfold update_lap_time
  rw [if_pos ⟨hrun, hlap⟩]

theorem update_lap_time_idle (freq now : Nat) (s : capture_state)
    (h : ¬ (0 < s.lap_start ∧ s.lap < n_laps)) :
    update_lap_time freq now s = s := by
  unfold update_lap_time
  rw [if_neg h]

theorem log_race_skip (fopen_ok : Bool) (s : capture_state)
    (h : ¬ (s.lap = n_laps ∧ s.race_logged = false)) :
    log_race fopen_ok s = s := by
  unfold log_race
  rw [if_neg (by simpa using h)]

theorem log_race_append (fopen_ok : Bool) (s : capture_state)
    (hlap : s.lap = n_laps) (hlog : s.race_logged = false) :
    log_race fopen_ok s =
      { s with
        race_logged := true
        race_log := if fopen_ok then s.race_log ++ [race_log_line s.lap_times]
          else s.race_log } := by
  unfold log_race
  rw [if_pos (by simp [hlap, hlog])]

theorem finish_line_check_record (percent : Int) (now : Nat) (s : capture_state)
    (hp : percent > 20) (ha : s.finish_line_active = false) (hlap : s.lap < n_laps)
    (hrun : 0 < s.lap_start) (ht : min_lap_time < s.lap_times s.lap) :
    finish_line_check percent now s =
      { s with
        finish_line_active := true
        fastest_lap := if s.lap = 0 ∨ s.lap_times s.lap < s.lap_times s.fastest_lap
          then s.lap else s.fastest_lap
        lap_start := now
        lap := s.lap + 1 } := by
  unfold finish_line_check
  simp only [hp, ha, hlap, hrun, ht, gt_iff_lt, if_true, Bool.not_false]
  split_ifs <;> rfl

theorem finish_line_check_ignore (percent : Int) (now : Nat) (s : capture_state)
    (hp : percent > 20) (ha : s.finish_line_active = false) (hlap : s.lap < n_laps)
    (hrun : 0 < s.lap_start) (ht : ¬ min_lap_time < s.lap_times s.lap) :
    finish_line_check percent now s = { s with finish_line_active := true } := by
  unfold finish_line_check
  simp only [hp, ha, hlap, hrun, ht, gt_iff_lt, if_true, if_false, Bool.not_false]

theorem finish_line_check_start (percent : Int) (now : Nat) (s : capture_state)
    (hp : percent > 20) (ha : s.finish_line_active = false) (hlap : s.lap < n_laps)
    (hrun : s.lap_start = 0) :
    finish_line_check percent now s =
      { s with finish_line_active := true, lap_start := now, race_start := now } := by
  unfold finish_line_check
  simp only [hp, ha, hlap, hrun, gt_iff_lt, if_true, if_false, Bool.not_false, lt_irrefl]

theorem finish_line_check_done (percent : Int) (now : Nat) (s : capture_state)
    (hp : percent > 20) (ha : s.finish_line_active = false) (hlap : ¬ s.lap < n_laps) :
    finish_line_check percent now s = { s with finish_line_active := true } := by
  unfold finish_line_check
  simp only [hp, ha, hlap, gt_iff_lt, if_true, if_false, Bool.not_false]

theorem finish_line_check_held (percent : Int) (now : Nat) (s : capture_state)
    (hp : percent > 20) (ha : s.finish_line_active = true) :
    finish_line_check percent now s = s := by
  unfold finish_line_check
  simp only [hp, ha, gt_iff_lt, if_true, if_false, Bool.not_true]
  simp

theorem finish_line_check_low (percent : Int) (now : Nat) (s : capture_state)
    (hp : ¬ percent > 20) :
    finish_line_check percent now s = { s with finish_line_active := false } := by
  unfold finish_line_check
  simp only [hp, if_false]


@[simp] theorem update_lap_time_lap (freq now : Nat) (s : capture_state) :
    (update_lap_time freq now s).lap = s.lap := by
  unfold update_lap_time; split_ifs <;> rfl

@[simp] theorem update_lap_time_lap_start (freq now : Nat) (s : capture_state) :
    (update_lap_time freq now s).lap_start = s.lap_start := by
  unfold update_lap_time; split_ifs <;> rfl

@[simp] theorem update_lap_time_race_start (freq now : Nat) (s : capture_state) :
    (update_lap_time freq now s).race_start = s.race_start := by
  unfold update_lap_time; split_ifs <;> rfl

@[simp] theorem update_lap_time_fastest_lap (freq now : Nat) (s : capture_state) :
    (update_lap_time freq now s).fastest_lap = s.fastest_lap := by
  unfold update_lap_time; split_ifs <;> rfl

@[simp] theorem update_lap_time_race_logged (freq now : Nat) (s : capture_state) :
    (update_lap_time freq now s).race_logged = s.race_logged := by
  unfold update_lap_time; split_ifs <;> rfl

@[simp] theorem update_lap_time_finish_line_active (freq now : Nat) (s : capture_state) :
    (update_lap_time freq now s).finish_line_active = s.finish_line_active := by
  unfold update_lap_time; split_ifs <;> rfl

@[simp] theorem update_lap_time_finish_line_valid (freq now : Nat) (s : capture_state) :
    (update_lap_time freq now s).finish_line_valid = s.finish_line_valid := by
  unfold update_lap_time; split_ifs <;> rfl

@[simp] theorem update_lap_time_race_log (freq now : Nat) (s : capture_state) :
    (update_lap_time freq now s).race_log = s.race_log := by
  unfold update_lap_time; split_ifs <;> rfl

theorem update_lap_time_lap_times (freq now : Nat) (s : capture_state) :
    (update_lap_time freq now s).lap_times =
      if 0 < s.lap_start ∧ s.lap < n_laps then
        Function.update s.lap_times s.lap (elapsed_time freq now s.lap_start)
      else s.lap_times := by
  unfold update_lap_time; split_ifs <;> rfl

/-- Completed laps are not touched by the running lap time. -/
theorem update_lap_time_completed (freq now : Nat) (s : capture_state) (i : Nat)
    (hi : i ≠ s.lap) :
    (update_lap_time freq now s).lap_times i = s.lap_times i := by
  rw [update_lap_time_lap_times]
  split_ifs
  · exact Function.update_noteq hi _ _
  · rfl

@[simp] theorem log_race_lap (f : Bool) (s : capture_state) : (log_race f s).lap = s.lap := by
  unfold log_race; split_ifs <;> rfl

@[simp] theorem log_race_lap_times (f : Bool) (s : capture_state) :
    (log_race f s).lap_times = s.lap_times := by
  unfold log_race; split_ifs <;> rfl

@[simp] theorem log_race_lap_start (f : Bool) (s : capture_state) :
    (log_race f s).lap_start = s.lap_start := by
  unfold log_race; split_ifs <;> rfl

@[simp] theorem log_race_race_start (f : Bool) (s : capture_state) :
    (log_race f s).race_start = s.race_start := by
  unfold log_race; split_ifs <;> rfl

@[simp] theorem log_race_fastest_lap (f : Bool) (s : capture_state) :
    (log_race f s).fastest_lap = s.fastest_lap := by
  unfold log_race; split_ifs <;> rfl

@[simp] theorem log_race_finish_line_active (f : Bool) (s : capture_state) :
    (log_race f s).finish_line_active = s.finish_line_active := by
  unfold log_race; split_ifs <;> rfl

@[simp] theorem log_race_finish_line_valid (f : Bool) (s : capture_state) :
    (log_race f s).finish_line_valid = s.finish_line_valid := by
  unfold log_race; split_ifs <;> rfl

/-- A tick on a valid background is the three stages in sequence. -/
theorem lap_tick_valid (freq : Nat) (s : capture_state) (t : tick)
    (hvalid : s.finish_line_valid = true) :
    lap_tick freq s t =
      log_race t.fopen_ok (finish_line_check t.percent t.now (update_lap_time freq t.now s)) := by
  unfold lap_tick
  simp [hvalid]

/-- The recording branch of a tick, as one record update before logging. -/
theorem lap_tick_record (freq : Nat) (s : capture_state) (t : tick)
    (hvalid : s.finish_line_valid = true)
    (hpercent : t.percent > 20) (hactive : s.finish_line_active = false)
    (hrun : 0 < s.lap_start) (hlap : s.lap < n_laps)
    (helapsed : min_lap_time < elapsed_time freq t.now s.lap_start) :
    lap_tick freq s t = log_race t.fopen_ok
      { s with
        lap_times := Function.update s.lap_times s.lap (elapsed_time freq t.now s.lap_start)
        finish_line_active := true
        fastest_lap :=
          if s.lap = 0 ∨ elapsed_time freq t.now s.lap_start < s.lap_times s.fastest_lap
          then s.lap else s.fastest_lap
        lap_start := t.now
        lap := s.lap + 1 } := by
  have hlt : (update_lap_time freq t.now s).lap_times (update_lap_time freq t.now s).lap =
      elapsed_time freq t.now s.lap_start := by
    simp [update_lap_time_lap_times, hrun, hlap]
  rw [lap_tick_valid freq s t hvalid,
    finish_line_check_record t.percent t.now (update_lap_time freq t.now s) hpercent
      (by simpa using hactive) (by simpa using hlap) (by simpa using hrun)
      (by rw [hlt]; exact helapsed)]
  congr 1
  rw [hlt]
  simp only [update_lap_time_lap, update_lap_time_fastest_lap]
  rw [update_lap_time_running freq t.now s hrun hlap]
  by_cases h0 : s.lap = 0
  · simp [h0]
  · by_cases hf : s.fastest_lap = s.lap
    · simp [h0, hf]
    · simp [h0, Function.update_noteq hf]


theorem finish_line_check_active (percent : Int) (now : Nat) (s : capture_state) :
    (finish_line_check percent now s).finish_line_active = true ↔ percent > 20 := by
  by_cases hp : percent > 20
  · simp only [hp, iff_true]
    cases ha : s.finish_line_active
    · by_cases hlap : s.lap < n_laps
      · by_cases hrun : 0 < s.lap_start
        · by_cases ht : min_lap_time < s.lap_times s.lap
          · rw [finish_line_check_record _ _ _ hp ha hlap hrun ht]
          · rw [finish_line_check_ignore _ _ _ hp ha hlap hrun ht]
        · rw [finish_line_check_start _ _ _ hp ha hlap (by omega)]
      · rw [finish_line_check_done _ _ _ hp ha hlap]
    · rw [finish_line_check_held _ _ _ hp ha]
      exact ha
  · simp only [hp, iff_false]
    rw [finish_line_check_low _ _ _ hp]
    simp


/-! ## Lap timer: single ticks -/

/-- An elapsed time above two seconds measured with a counter frequency below `2^52`
exceeds two seconds by more than `2^-52`: the tick difference is an integer above
`2 * freq`. -/
theorem elapsed_time_margin (freq now lap_start : Nat) (hfreq : freq < 2 ^ 52)
    (h : min_lap_time < elapsed_time freq now lap_start) :
    min_lap_time + 1 / 2 ^ 52 < elapsed_time freq now lap_start := by
  unfold elapsed_time min_lap_time at *
  have hb : 0 < freq := by
    rcases Nat.eq_zero_or_pos freq with h0 | h0
    · rw [h0] at h
      simp at h
      exact absurd h (by norm_num)
    · exact h0
  have hbq : (0 : ℚ) < (freq : ℚ) := by exact_mod_cast hb
  rw [lt_div_iff₀ hbq] at h
  have h2 : 2 * freq < u64_sub now lap_start := by exact_mod_cast h
  have h3 : (2 * freq + 1 : ℚ) ≤ (u64_sub now lap_start : ℚ) := by exact_mod_cast h2
  have hf : (freq : ℚ) < 2 ^ 52 := by exact_mod_cast hfreq
  rw [lt_div_iff₀ hbq]
  have : (1 / 2 ^ 52 : ℚ) * freq < 1 := by
    rw [div_mul_eq_mul_div, one_mul, div_lt_one (by positivity)]
    exact hf
  nlinarith

/-- C2: on a rising edge during a running race with `lap < n_laps` and an elapsed time
above `min_lap_time`, the elapsed time is stored at index `lap`, the fastest-lap index
becomes `lap` when `lap = 0` or the stored duration is strictly below the duration stored
at the fastest-lap index and is unchanged otherwise, `lap_start` becomes `now` and `lap`
grows by exactly one. The statement is made where the `double` arithmetic of main.c 860
and 873-874 takes the same branches as the exact quotient: for a counter frequency below
`2^52` and a tick difference below `2^53` both operands are exact as `double` and the
quotient exceeds 2 by more than `2^-52`, half the spacing of the doubles above 2.0, so
that the rounded quotient is above 2.0 as well; and an elapsed time below the duration
of the fastest lap is taken to be below it by more than the relative rounding error
`2^-52`, so that the rounded quotient is below it as well. -/
theorem lap_recorded_on_rising_edge (freq : Nat) (s : capture_state) (t : tick)
    (hvalid : s.finish_line_valid = true)
    (hpercent : t.percent > 20) (hactive : s.finish_line_active = false)
    (hrun : 0 < s.lap_start) (hlap : s.lap < n_laps)
    (hfreq : freq < 2 ^ 52) (_hticks : u64_sub t.now s.lap_start < 2 ^ 53)
    (_hgap : elapsed_time freq t.now s.lap_start < s.lap_times s.fastest_lap →
      elapsed_time freq t.now s.lap_start * (1 + 1 / 2 ^ 52) < s.lap_times s.fastest_lap)
    (helapsed : min_lap_time < elapsed_time freq t.now s.lap_start) :
    min_lap_time + 1 / 2 ^ 52 < elapsed_time freq t.now s.lap_start ∧
    (lap_tick freq s t).lap_times s.lap = elapsed_time freq t.now s.lap_start ∧
    (lap_tick freq s t).fastest_lap =
      (if s.lap = 0 ∨ (lap_tick freq s t).lap_times s.lap < s.lap_times s.fastest_lap
        then s.lap else s.fastest_lap) ∧
    (s.lap = 0 ∨ s.fastest_lap ≠ s.lap →
      ((lap_tick freq s t).fastest_lap = s.lap ↔
        s.lap = 0 ∨ (lap_tick freq s t).lap_times s.lap < s.lap_times s.fastest_lap)) ∧
    (lap_tick freq s t).lap_start = t.now ∧
    (lap_tick freq s t).lap = s.lap + 1 := by
  refine ⟨elapsed_time_margin freq t.now s.lap_start hfreq helapsed, ?_⟩
  rw [lap_tick_record freq s t hvalid hpercent hactive hrun hlap helapsed]
  simp only [log_race_lap_times, log_race_fastest_lap, log_race_lap_start, log_race_lap,
    Function.update_same, true_and, and_true]
  intro h
  rcases h with h | h
  · simp [h]
  · by_cases hc : s.lap = 0 ∨ elapsed_time freq t.now s.lap_start < s.lap_times s.fastest_lap
    · simp [hc]
    · simp [hc, h]

/-- Witness of C2: lap 2 of `running_state` completed after 2.6 s. -/
theorem lap_recorded_on_rising_edge_witness :
    (running_state.finish_line_valid = true ∧
      (50 : Int) > 20 ∧ running_state.finish_line_active = false ∧
      0 < running_state.lap_start ∧ running_state.lap < n_laps ∧
      10 < 2 ^ 52 ∧ u64_sub 1056 running_state.lap_start < 2 ^ 53 ∧
      (elapsed_time 10 1056 running_state.lap_start <
          running_state.lap_times running_state.fastest_lap →
        elapsed_time 10 1056 running_state.lap_start * (1 + 1 / 2 ^ 52) <
          running_state.lap_times running_state.fastest_lap) ∧
      min_lap_time < elapsed_time 10 1056 running_state.lap_start) ∧
    ((lap_tick 10 running_state ⟨50, 1056, true⟩).lap_times 1 = 13 / 5 ∧
      (lap_tick 10 running_state ⟨50, 1056, true⟩).fastest_lap = 1 ∧
      (lap_tick 10 running_state ⟨50, 1056, true⟩).lap_start = 1056 ∧
      (lap_tick 10 running_state ⟨50, 1056, true⟩).lap = 2) := by
  have h1 : running_state.finish_line_valid = true := rfl
  have h2 : (50 : Int) > 20 := by decide
  have h3 : running_state.finish_line_active = false := rfl
  have h4 : 0 < running_state.lap_start := by decide
  have h5 : running_state.lap < n_laps := by decide
  have h7 : 10 < 2 ^ 52 := by norm_num
  have h8 : u64_sub 1056 running_state.lap_start < 2 ^ 53 := by
    norm_num [u64_sub, running_state]
  have h6 : min_lap_time < elapsed_time 10 1056 running_state.lap_start := by
    norm_num [min_lap_time, elapsed_time, u64_sub, running_state]
  have he : elapsed_time 10 1056 running_state.lap_start = 13 / 5 := by
    norm_num [elapsed_time, u64_sub, running_state]
  have h9 : elapsed_time 10 1056 running_state.lap_start <
        running_state.lap_times running_state.fastest_lap →
      elapsed_time 10 1056 running_state.lap_start * (1 + 1 / 2 ^ 52) <
        running_state.lap_times running_state.fastest_lap := by
    intro _
    rw [he]
    norm_num [running_state, capture_init]
  have h := lap_recorded_on_rising_edge 10 running_state ⟨50, 1056, true⟩ h1 h2 h3 h4 h5
    h7 h8 h9 h6
  refine ⟨⟨h1, h2, h3, h4, h5, h7, h8, h9, h6⟩, ?_, ?_, h.2.2.2.2.1, h.2.2.2.2.2⟩
  · rw [← he]; exact h.2.1
  · rw [h.2.2.1, h.2.1, he]
    norm_num [running_state, capture_init]

/-- C3: on a rising edge during a running race with `lap < n_laps` and an elapsed time of
at most `min_lap_time`, the crossing is ignored: `lap`, `lap_start`, `race_start`, the
fastest-lap index, the durations of the completed laps, the logged flag and the log are
the same after the tick as before it. -/
theorem short_lap_ignored (freq : Nat) (s : capture_state) (t : tick)
    (hvalid : s.finish_line_valid = true)
    (hpercent : t.percent > 20) (hactive : s.finish_line_active = false)
    (hrun : 0 < s.lap_start) (hlap : s.lap < n_laps)
    (hshort : elapsed_time freq t.now s.lap_start ≤ min_lap_time) :
    (lap_tick freq s t).lap = s.lap ∧
    (lap_tick freq s t).lap_start = s.lap_start ∧
    (lap_tick freq s t).race_start = s.race_start ∧
    (lap_tick freq s t).fastest_lap = s.fastest_lap ∧
    (∀ i, i < s.lap → (lap_tick freq s t).lap_times i = s.lap_times i) ∧
    (lap_tick freq s t).race_logged = s.race_logged ∧
    (lap_tick freq s t).race_log = s.race_log := by
  have hlt : (update_lap_time freq t.now s).lap_times (update_lap_time freq t.now s).lap =
      elapsed_time freq t.now s.lap_start := by
    simp [update_lap_time_lap_times, hrun, hlap]
  have hstep : lap_tick freq s t =
      { update_lap_time freq t.now s with finish_line_active := true } := by
    rw [lap_tick_valid freq s t hvalid,
      finish_line_check_ignore t.percent t.now (update_lap_time freq t.now s) hpercent
        (by simpa using hactive) (by simpa using hlap) (by simpa using hrun)
        (by rw [hlt]; exact not_lt.mpr hshort)]
    exact log_race_skip _ _ (by simp; intro h; rw [h] at hlap; exact absurd hlap (lt_irrefl _))
  rw [hstep]
  refine ⟨by simp, by simp, by simp, by simp, ?_, by simp, by simp⟩
  intro i hi
  exact update_lap_time_completed freq t.now s i (Nat.ne_of_lt hi)

/-- Witness of C3: a second crossing 0.4 s after the start of lap 2 of `running_state`. -/
theorem short_lap_ignored_witness :
    (running_state.finish_line_valid = true ∧
      (50 : Int) > 20 ∧ running_state.finish_line_active = false ∧
      0 < running_state.lap_start ∧ running_state.lap < n_laps ∧
      elapsed_time 10 1034 running_state.lap_start ≤ min_lap_time) ∧
    ((lap_tick 10 running_state ⟨50, 1034, true⟩).lap = 1 ∧
      (lap_tick 10 running_state ⟨50, 1034, true⟩).lap_start = 1030 ∧
      (lap_tick 10 running_state ⟨50, 1034, true⟩).lap_times 0 = 3) := by
  have h1 : running_state.finish_line_valid = true := rfl
  have h2 : (50 : Int) > 20 := by decide
  have h3 : running_state.finish_line_active = false := rfl
  have h4 : 0 < running_state.lap_start := by decide
  have h5 : running_state.lap < n_laps := by decide
  have h6 : elapsed_time 10 1034 running_state.lap_start ≤ min_lap_time := by
    norm_num [min_lap_time, elapsed_time, u64_sub, running_state]
  have h := short_lap_ignored 10 running_state ⟨50, 1034, true⟩ h1 h2 h3 h4 h5 h6
  exact ⟨⟨h1, h2, h3, h4, h5, h6⟩, h.1, h.2.1, h.2.2.2.2.1 0 (by decide)⟩

/-- C4: a tick that is not a rising edge (percent above 20 with the active flag already
set, or percent not above 20) leaves `lap`, `lap_start`, `race_start` and the fastest-lap
index unchanged; and after a tick on a valid background the active flag is set exactly
when the percent of that tick exceeded 20. -/
theorem only_rising_edge_drives (freq : Nat) (s : capture_state) (t : tick) :
    (¬ (t.percent > 20 ∧ s.finish_line_active = false) →
      (lap_tick freq s t).lap = s.lap ∧
      (lap_tick freq s t).lap_start = s.lap_start ∧
      (lap_tick freq s t).race_start = s.race_start ∧
      (lap_tick freq s t).fastest_lap = s.fastest_lap) ∧
    (s.finish_line_valid = true →
      ((lap_tick freq s t).finish_line_active = true ↔ t.percent > 20)) := by
  constructor
  · intro hedge
    unfold lap_tick
    simp only [log_race_lap, log_race_lap_start, log_race_race_start, log_race_fastest_lap]
    split_ifs with hv
    · by_cases hp : t.percent > 20
      · have ha : (update_lap_time freq t.now s).finish_line_active = true := by
          simpa [hp] using hedge
        rw [finish_line_check_held _ _ _ hp ha]
        simp
      · rw [finish_line_check_low _ _ _ hp]
        simp
    · simp
  · intro hvalid
    rw [lap_tick_valid freq s t hvalid, log_race_finish_line_active]
    exact finish_line_check_active _ _ _

/-- Witness of C4: the object stays on the line of `reset_requested_state`. -/
theorem only_rising_edge_drives_witness :
    (¬ ((50 : Int) > 20 ∧ reset_requested_state.finish_line_active = false) ∧
      reset_requested_state.finish_line_valid = true) ∧
    ((lap_tick 10 reset_requested_state ⟨50, 1100, true⟩).lap = 1 ∧
      (lap_tick 10 reset_requested_state ⟨50, 1100, true⟩).lap_start = 1030 ∧
      (lap_tick 10 reset_requested_state ⟨50, 1100, true⟩).finish_line_active = true) := by
  have h1 : ¬ ((50 : Int) > 20 ∧ reset_requested_state.finish_line_active = false) := by
    simp [reset_requested_state]
  have h2 : reset_requested_state.finish_line_valid = true := rfl
  have h := only_rising_edge_drives 10 reset_requested_state ⟨50, 1100, true⟩
  exact ⟨⟨h1, h2⟩, (h.1 h1).1, (h.1 h1).2.1, (h.2 h2).mpr (by decide)⟩

/-! ## External reset -/

/-- C6 as stated fails: a reset handled while the active flag is set leaves it set. -/
theorem reset_keeps_active_flag :
    reset_requested_state.reset_race = true ∧
    ¬ ((handle_reset reset_requested_state).lap = 0 ∧
      (handle_reset reset_requested_state).lap_start = 0 ∧
      (handle_reset reset_requested_state).race_start = 0 ∧
      (handle_reset reset_requested_state).fastest_lap = 0 ∧
      (handle_reset reset_requested_state).finish_line_active = false ∧
      (handle_reset reset_requested_state).race_logged = false) := by
  refine ⟨rfl, ?_⟩
  intro h
  exact absurd h.2.2.2.2.1 (by decide)

/-- C6 (amended): handling a reset request sets `lap`, `lap_start`, `race_start` and the
fastest-lap index to 0 and the logged flag to false, clears the request, and leaves the
active flag as it was. -/
theorem reset_reinitialises_race (s : capture_state) (hreset : s.reset_race = true) :
    (handle_reset s).lap = 0 ∧
    (handle_reset s).lap_start = 0 ∧
    (handle_reset s).race_start = 0 ∧
    (handle_reset s).fastest_lap = 0 ∧
    (handle_reset s).race_logged = false ∧
    (handle_reset s).finish_line_active = s.finish_line_active ∧
    (handle_reset s).reset_race = false := by
  unfold handle_reset
  rw [if_pos hreset]
  exact ⟨rfl, rfl, rfl, rfl, rfl, rfl, rfl⟩

/-- Witness of C6 (amended) at `reset_requested_state`. -/
theorem reset_reinitialises_race_witness :
    reset_requested_state.reset_race = true ∧
    (handle_reset reset_requested_state).lap = 0 ∧
    (handle_reset reset_requested_state).lap_start = 0 ∧
    (handle_reset reset_requested_state).finish_line_active = true :=
  ⟨rfl, (reset_reinitialises_race reset_requested_state rfl).1,
    (reset_reinitialises_race reset_requested_state rfl).2.1,
    (reset_reinitialises_race reset_requested_state rfl).2.2.2.2.2.1⟩

/-- C7: handling the reset request leaves the background model unchanged: the reference
image, the warm-up counter, the time of the last blend, the background-valid flag, the
initial reference and the exchange valid flag. -/
theorem reset_keeps_background (s : capture_state) :
    (handle_reset s).bg_finish_line = s.bg_finish_line ∧
    (handle_reset s).need_bg_frames = s.need_bg_frames ∧
    (handle_reset s).last_bg_mix = s.last_bg_mix ∧
    (handle_reset s).finish_line_valid = s.finish_line_valid ∧
    (handle_reset s).initial_bg_finish_line = s.initial_bg_finish_line ∧
    (handle_reset s).valid_image = s.valid_image := by
  unfold handle_reset
  split_ifs <;> exact ⟨rfl, rfl, rfl, rfl, rfl, rfl⟩

/-! ## Motion detector: the loop of `percent_diff_images` -/

theorem diff_count_succ (a b : List Nat) (threshold : Int) (n : Nat) :
    diff_count a b threshold (n + 1) = diff_count a b threshold n +
      (if |(a.getD n 0 : Int) - (b.getD n 0 : Int)| > threshold then 1 else 0) := by
  unfold diff_count
  rw [List.range_succ, List.countP_append, List.countP_cons, List.countP_nil]
  simp

theorem diff_count_le (a b : List Nat) (threshold : Int) (n : Nat) :
    diff_count a b threshold n ≤ n := by
  unfold diff_count
  exact (List.countP_le_length _).trans_eq (List.length_range n)

theorem percent_diff_body_total (a b : image) (threshold : Int) (st : diff_acc) (i : Nat) :
    (percent_diff_body a b threshold st i).total = (st.total + 1) % 2 ^ 32 := by
  unfold percent_diff_body
  split_ifs <;> rfl

theorem percent_diff_body_diff (a b : image) (threshold : Int) (st : diff_acc) (i : Nat) :
    (percent_diff_body a b threshold st i).diff =
      if |(a.data.getD i 0 : Int) - (b.data.getD i 0 : Int)| > threshold
      then (st.diff + 100) % 2 ^ 32 else st.diff := by
  unfold percent_diff_body
  rw [Int.natCast_natAbs]
  split_ifs <;> rfl

theorem percent_diff_loop (a b : image) (threshold : Int) (c0 : List Nat) (n : Nat) :
    ((List.range n).foldl (percent_diff_body a b threshold)
        { total := 0, diff := 0, cdata := c0 }).total = n % 2 ^ 32 ∧
    ((List.range n).foldl (percent_diff_body a b threshold)
        { total := 0, diff := 0, cdata := c0 }).diff =
      (100 * diff_count a.data b.data threshold n) % 2 ^ 32 := by
  induction n with
  | zero => simp [diff_count]
  | succ k ih =>
    rw [List.range_succ, List.foldl_append, List.foldl_cons, List.foldl_nil, diff_count_succ,
      percent_diff_body_total, percent_diff_body_diff]
    obtain ⟨ht, hd⟩ := ih
    rw [ht, hd]
    split_ifs with hc
    · constructor <;> omega
    · constructor <;> omega

theorem percent_diff_value (a b c : image) (threshold : Int)
    (hn : a.n_pixels = b.n_pixels) (hca : a.channels = 1) (hcb : b.channels = 1)
    (hpos : 0 < a.n_pixels) (hsize : a.n_pixels < 2 ^ 31) :
    (percent_diff_images a b c threshold).map Prod.fst =
      some (((100 * diff_count a.data b.data threshold a.n_pixels % 2 ^ 32 / a.n_pixels : Nat)
        : Int)) := by
  obtain ⟨ht, hd⟩ := percent_diff_loop a b threshold c.data a.n_pixels
  have hmod : a.n_pixels % 2 ^ 32 = a.n_pixels := Nat.mod_eq_of_lt (by omega)
  unfold percent_diff_images
  rw [if_pos ⟨hn, by rw [hca, hcb], hca⟩]
  simp only [hca, Nat.mul_one]
  rw [ht, hd, hmod, if_neg (by omega)]
  rfl

theorem diff_count_self (a : List Nat) (threshold : Int) (h : 0 ≤ threshold) (n : Nat) :
    diff_count a a threshold n = 0 := by
  induction n with
  | zero => rfl
  | succ k ih =>
    rw [diff_count_succ, ih, sub_self, abs_zero, if_neg (not_lt.mpr h)]

theorem diff_count_all (a b : List Nat) (threshold : Int) (n : Nat)
    (h : ∀ i, i < n → |(a.getD i 0 : Int) - (b.getD i 0 : Int)| > threshold) :
    diff_count a b threshold n = n := by
  induction n with
  | zero => rfl
  | succ k ih =>
    rw [diff_count_succ, ih (fun i hi => h i (Nat.lt_succ_of_lt hi)),
      if_pos (h k (Nat.lt_succ_self k))]

/-- C8 as stated fails: with 2 differing bytes out of 3 the function returns 66, while
`round (100 * 2 / 3)` is 67. -/
theorem percent_diff_truncates :
    (percent_diff_images (row_image [10, 20, 30]) (row_image [10, 40, 60])
        (row_image [0, 0, 0]) 8).map Prod.fst = some 66 ∧
    round ((100 * (diff_count [10, 20, 30] [10, 40, 60] 8 3 : ℚ)) / 3) = 67 := by
  constructor
  · decide
  · have hd : diff_count [10, 20, 30] [10, 40, 60] 8 3 = 2 := by decide
    rw [hd, round_eq, Int.floor_eq_iff]
    norm_num

/-- C8 (amended): on equally sized non-empty 1-channel images the function returns the
truncated quotient of `(100 * d) mod 2^32` by `n`, where `n` is the number of bytes and
`d` the number of positions whose bytes differ by more than the threshold; whenever
`100 * d < 2^32` this is the floor of `100 * d / n`. -/
theorem percent_diff_images_floor (a b c : image) (threshold : Int)
    (hn : a.n_pixels = b.n_pixels) (hca : a.channels = 1) (hcb : b.channels = 1)
    (hpos : 0 < a.n_pixels) (hsize : a.n_pixels < 2 ^ 31) :
    (percent_diff_images a b c threshold).map Prod.fst =
      some (((100 * diff_count a.data b.data threshold a.n_pixels % 2 ^ 32 / a.n_pixels : Nat)
        : Int)) ∧
    (100 * diff_count a.data b.data threshold a.n_pixels < 2 ^ 32 →
      (percent_diff_images a b c threshold).map Prod.fst =
        some ⌊(100 * (diff_count a.data b.data threshold a.n_pixels : ℚ)) / (a.n_pixels : ℚ)⌋) := by
  have hv := percent_diff_value a b c threshold hn hca hcb hpos hsize
  refine ⟨hv, fun hsmall => ?_⟩
  rw [hv, Nat.mod_eq_of_lt hsmall]
  congr 1
  have := Rat.floor_intCast_div_natCast
    ((100 * diff_count a.data b.data threshold a.n_pixels : Nat) : Int) a.n_pixels
  push_cast at this ⊢
  rw [this]

/-- Witness of C8 (amended) on three-byte images. -/
theorem percent_diff_images_floor_witness :
    ((row_image [10, 20, 30]).n_pixels = (row_image [10, 40, 60]).n_pixels ∧
      (row_image [10, 20, 30]).channels = 1 ∧ (row_image [10, 40, 60]).channels = 1 ∧
      0 < (row_image [10, 20, 30]).n_pixels ∧ (row_image [10, 20, 30]).n_pixels < 2 ^ 31 ∧
      100 * diff_count (row_image [10, 20, 30]).data (row_image [10, 40, 60]).data 8
        (row_image [10, 20, 30]).n_pixels < 2 ^ 32) ∧
    (percent_diff_images (row_image [10, 20, 30]) (row_image [10, 40, 60])
        (row_image [0, 0, 0]) 8).map Prod.fst =
      some ⌊(100 * (diff_count (row_image [10, 20, 30]).data (row_image [10, 40, 60]).data 8
        (row_image [10, 20, 30]).n_pixels : ℚ)) / ((row_image [10, 20, 30]).n_pixels : ℚ)⌋ :=
  ⟨⟨rfl, rfl, rfl, by decide, by decide, by decide⟩,
    (percent_diff_images_floor (row_image [10, 20, 30]) (row_image [10, 40, 60])
      (row_image [0, 0, 0]) 8 rfl rfl rfl (by decide) (by decide)).2 (by decide)⟩

/-- C9 as stated fails: on two images of 42949673 bytes that differ by 255 at every
position the counter `diff` wraps around `2^32` and the function returns 0, not 100. -/
theorem percent_diff_wraps :
    (∀ i, i < (uniform_row 42949673 255).n_pixels →
      |(((uniform_row 42949673 255).data.getD i 0 : Nat) : Int) -
        (((uniform_row 42949673 0).data.getD i 0 : Nat) : Int)| > 8) ∧
    (percent_diff_images (uniform_row 42949673 255) (uniform_row 42949673 0)
        (uniform_row 42949673 0) 8).map Prod.fst = some 0 := by
  have hall : ∀ i, i < (uniform_row 42949673 255).n_pixels →
      |(((uniform_row 42949673 255).data.getD i 0 : Nat) : Int) -
        (((uniform_row 42949673 0).data.getD i 0 : Nat) : Int)| > 8 := by
    intro i hi
    have hi' : i < 42949673 := hi
    have h1 : (uniform_row 42949673 255).data.getD i 0 = 255 := by
      show (List.replicate 42949673 255).getD i 0 = 255
      rw [List.getD_eq_getElem?_getD, List.getElem?_replicate, if_pos hi']
      rfl
    have h2 : (uniform_row 42949673 0).data.getD i 0 = 0 := by
      show (List.replicate 42949673 0).getD i 0 = 0
      rw [List.getD_eq_getElem?_getD, List.getElem?_replicate, if_pos hi']
      rfl
    rw [h1, h2]
    decide
  refine ⟨hall, ?_⟩
  rw [percent_diff_value (uniform_row 42949673 255) (uniform_row 42949673 0)
      (uniform_row 42949673 0) 8 rfl rfl rfl (by decide) (by decide),
    diff_count_all _ _ 8 _ hall]
  decide

/-- C9 (amended): on a non-empty 1-channel image compared with itself the function
returns 0 for every threshold `>= 0`; on equally sized non-empty 1-channel images of
`n` bytes with `100 * n < 2^32` whose bytes differ by more than the threshold at every
position it returns 100. -/
theorem percent_diff_images_extremes (a b c : image) (threshold : Int)
    (hn : a.n_pixels = b.n_pixels) (hca : a.channels = 1) (hcb : b.channels = 1)
    (hpos : 0 < a.n_pixels) (hsize : a.n_pixels < 2 ^ 31) :
    (0 ≤ threshold → (percent_diff_images a a c threshold).map Prod.fst = some 0) ∧
    (100 * a.n_pixels < 2 ^ 32 →
      (∀ i, i < a.n_pixels →
        |(a.data.getD i 0 : Int) - (b.data.getD i 0 : Int)| > threshold) →
      (percent_diff_images a b c threshold).map Prod.fst = some 100) := by
  constructor
  · intro ht
    rw [percent_diff_value a a c threshold rfl hca hca hpos hsize,
      diff_count_self a.data threshold ht]
    simp
  · intro hsmall hall
    rw [percent_diff_value a b c threshold hn hca hcb hpos hsize,
      diff_count_all a.data b.data threshold a.n_pixels hall, Nat.mod_eq_of_lt hsmall,
      Nat.mul_div_cancel _ hpos]
    rfl

/-- Witness of C9 (amended) on three-byte images. -/
theorem percent_diff_images_extremes_witness :
    ((row_image [10, 20, 30]).n_pixels = (row_image [40, 50, 60]).n_pixels ∧
      (row_image [10, 20, 30]).channels = 1 ∧ (row_image [40, 50, 60]).channels = 1 ∧
      0 < (row_image [10, 20, 30]).n_pixels ∧ (row_image [10, 20, 30]).n_pixels < 2 ^ 31 ∧
      (0 : Int) ≤ 8 ∧ 100 * (row_image [10, 20, 30]).n_pixels < 2 ^ 32 ∧
      ∀ i, i < (row_image [10, 20, 30]).n_pixels →
        |(((row_image [10, 20, 30]).data.getD i 0 : Nat) : Int) -
          (((row_image [40, 50, 60]).data.getD i 0 : Nat) : Int)| > 8) ∧
    (percent_diff_images (row_image [10, 20, 30]) (row_image [10, 20, 30])
        (row_image [0, 0, 0]) 8).map Prod.fst = some 0 ∧
    (percent_diff_images (row_image [10, 20, 30]) (row_image [40, 50, 60])
        (row_image [0, 0, 0]) 8).map Prod.fst = some 100 := by
  have hall : ∀ i, i < (row_image [10, 20, 30]).n_pixels →
      |(((row_image [10, 20, 30]).data.getD i 0 : Nat) : Int) -
        (((row_image [40, 50, 60]).data.getD i 0 : Nat) : Int)| > 8 := by
    decide
  have h := percent_diff_images_extremes (row_image [10, 20, 30]) (row_image [40, 50, 60])
    (row_image [0, 0, 0]) 8 rfl rfl rfl (by decide) (by decide)
  exact ⟨⟨rfl, rfl, rfl, by decide, by decide, by decide, by decide, hall⟩,
    h.1 (by decide), h.2 (by decide) hall⟩

/-! ## Background blend: the loop of `mix_images` -/

theorem mix_pixel_weight_10 (o n : Nat) (ho : o < 256) (hn : n < 256) :
    mix_pixel (1000 - 10) 10 1000 o n = (o * (1000 - 10) + n * 10) / 1000 := by
  unfold mix_pixel
  rw [Int.tdiv_eq_ediv (by omega) (by decide)]
  omega

theorem getD_lt_256 (l : List Nat) (h : ∀ x ∈ l, x < 256) (i : Nat) : l.getD i 0 < 256 := by
  rw [List.getD_eq_getElem?_getD]
  cases hi : l[i]? with
  | none => simp
  | some v =>
    simp only [Option.getD_some]
    exact h v (List.getElem?_mem hi)

theorem mix_images_loop (ow nw sc : Int) (old new : image) (n : Nat) :
    ((List.range n).foldl (mix_images_body ow nw sc) (old, new)).2 = new ∧
    ((List.range n).foldl (mix_images_body ow nw sc) (old, new)).1 =
      { old with data := ((List.range n).foldl (mix_images_body ow nw sc) (old, new)).1.data } ∧
    ((List.range n).foldl (mix_images_body ow nw sc) (old, new)).1.data.length =
      old.data.length ∧
    ∀ i, i < old.data.length →
      ((List.range n).foldl (mix_images_body ow nw sc) (old, new)).1.data.getD i 0 =
        if i < n then mix_pixel ow nw sc (old.data.getD i 0) (new.data.getD i 0)
        else old.data.getD i 0 := by
  induction n with
  | zero => simp
  | succ k ih =>
    rw [List.range_succ, List.foldl_append, List.foldl_cons, List.foldl_nil]
    obtain ⟨h2, h1, hlen, hdata⟩ := ih
    generalize (List.range k).foldl (mix_images_body ow nw sc) (old, new) = r at h2 h1 hlen hdata
    unfold mix_images_body
    refine ⟨h2, ?_, ?_, ?_⟩
    · show ({ r.1 with data := _ } : image) = _
      rw [h1]
    · show (r.1.data.set k _).length = _
      rw [List.length_set, hlen]
    · intro i hi
      show (r.1.data.set k _).getD i 0 = _
      rw [List.getD_eq_getElem?_getD, List.getElem?_set]
      by_cases hki : k = i
      · subst hki
        have := hdata k hi
        rw [if_neg (lt_irrefl k)] at this
        rw [if_pos rfl, if_pos (by rw [hlen]; exact hi), if_pos (Nat.lt_succ_self k), this, h2]
        rfl
      · have := hdata i hi
        rw [List.getD_eq_getElem?_getD] at this
        rw [if_neg hki, this]
        by_cases hik : i < k
        · rw [if_pos hik, if_pos (Nat.lt_succ_of_lt hik)]
        · rw [if_neg hik, if_neg (by omega)]

/-- An `int` expression whose exact value fits the type has that value. -/
theorem wrap_int_eq (x : Int) (h0 : 0 ≤ x) (h1 : x < 2 ^ 31) : wrap_int x = x := by
  unfold wrap_int
  omega

theorem wrap_int_range (x : Int) : -2 ^ 31 ≤ wrap_int x ∧ wrap_int x < 2 ^ 31 := by
  unfold wrap_int
  omega

/-- Number of iterations of the loop of `mix_images`. -/
theorem mix_images_count (old : image) (h : old.n_pixels * old.channels < 2 ^ 31) :
    (wrap_int ((old.n_pixels : Int) * (old.channels : Int))).toNat =
      old.n_pixels * old.channels := by
  have h2 : ((old.n_pixels * old.channels : Nat) : Int) < 2 ^ 31 := by exact_mod_cast h
  rw [← Nat.cast_mul, wrap_int_eq _ (Int.natCast_nonneg _) h2, Int.toNat_ofNat]

theorem mix_images_unfold (old new : image) (w : Int)
    (hn : old.n_pixels = new.n_pixels) (hc : old.channels = new.channels) :
    mix_images old new w =
      some ((List.range (wrap_int ((old.n_pixels : Int) * (old.channels : Int))).toNat).foldl
        (mix_images_body (1000 - w) w 1000) (old, new)) := by
  unfold mix_images
  simp only [if_pos (And.intro hn hc)]

/-- Result of `mix_images` for any weight: the bytes below the loop bound are blended,
the others are unchanged, and `new` is unchanged. -/
theorem mix_images_any (old new : image) (w : Int)
    (hn : old.n_pixels = new.n_pixels) (hc : old.channels = new.channels) :
    ∃ old', mix_images old new w = some (old', new) ∧
      old' = { old with data := old'.data } ∧
      old'.data.length = old.data.length ∧
      ∀ i, i < old.data.length →
        old'.data.getD i 0 =
          if i < (wrap_int ((old.n_pixels : Int) * (old.channels : Int))).toNat then
            mix_pixel (1000 - w) w 1000 (old.data.getD i 0) (new.data.getD i 0)
          else old.data.getD i 0 := by
  rw [mix_images_unfold old new w hn hc]
  generalize (wrap_int ((old.n_pixels : Int) * (old.channels : Int))).toNat = m
  obtain ⟨h2, h1, hl, hdata⟩ := mix_images_loop (1000 - w) w 1000 old new m
  refine ⟨((List.range m).foldl (mix_images_body (1000 - w) w 1000) (old, new)).1, ?_, h1, hl,
    hdata⟩
  have key : ∀ (p : image × image), p.2 = new → some p = some (p.1, new) := by
    intro p hp
    rw [← hp]
  exact key _ h2

/-- A call of `mix_images` whose `int` loop bound is not positive blends nothing. -/
theorem mix_images_skips (old new : image) (w : Int)
    (hn : old.n_pixels = new.n_pixels) (hc : old.channels = new.channels)
    (h : (wrap_int ((old.n_pixels : Int) * (old.channels : Int))).toNat = 0) :
    mix_images old new w = some (old, new) := by
  rw [mix_images_unfold old new w hn hc, h]
  rfl

/-- On four-channel images of `2^29` pixels, `2^31` bytes, the loop bound
`n_pixels * channels` of main.c 216 wraps to `-2^31` and `mix_images` blends nothing:
the size bound of the blend theorems cannot be dropped. -/
theorem mix_images_bound_wraps (l1 l2 : List Nat) :
    mix_images (wide_rgba_image l1) (wide_rgba_image l2) 10 =
      some (wide_rgba_image l1, wide_rgba_image l2) :=
  mix_images_skips _ _ 10 rfl rfl
    (show (wrap_int (((536870912 : Nat) : Int) * ((4 : Nat) : Int))).toNat = 0 by decide)

/-- C10 as stated fails: blending the byte 0 toward 255 with weight 10 stores 2, while
`round ((0 * 990 + 255 * 10) / 1000)` is 3. -/
theorem mix_images_truncates :
    mix_images (row_image [0]) (row_image [255]) 10 =
      some (row_image [2], row_image [255]) ∧
    round ((((0 : Nat) : ℚ) * (1000 - 10) + ((255 : Nat) : ℚ) * 10) / 1000) = 3 := by
  constructor
  · decide
  · rw [round_eq, Int.floor_eq_iff]
    norm_num

/-- C10 (amended): for equally sized images of fewer than `2^31` bytes, each buffer
holding `n_pixels * channels` bytes, and weight 10, `mix_images` replaces each reference
byte `old[i]` by the truncated quotient `(old[i] * (1000 - 10) + new[i] * 10) / 1000`,
changes no other field of `old`, and leaves the image `new` unchanged. -/
theorem mix_images_blend (old new : image)
    (hn : old.n_pixels = new.n_pixels) (hc : old.channels = new.channels)
    (hlen : old.data.length = old.n_pixels * old.channels)
    (_hlen2 : new.data.length = new.n_pixels * new.channels)
    (hsize : old.n_pixels * old.channels < 2 ^ 31)
    (hold : ∀ x ∈ old.data, x < 256) (hnew : ∀ x ∈ new.data, x < 256) :
    ∃ old', mix_images old new 10 = some (old', new) ∧
      old' = { old with data := old'.data } ∧
      old'.data.length = old.data.length ∧
      ∀ i, i < old.data.length →
        old'.data.getD i 0 =
          (old.data.getD i 0 * (1000 - 10) + new.data.getD i 0 * 10) / 1000 := by
  obtain ⟨old', e, h1, hl, hdata⟩ := mix_images_any old new 10 hn hc
  refine ⟨old', e, h1, hl, ?_⟩
  intro i hi
  rw [hdata i hi, mix_images_count old hsize, if_pos (by rw [← hlen]; exact hi),
    mix_pixel_weight_10 _ _ (getD_lt_256 _ hold i) (getD_lt_256 _ hnew i)]

/-- Witness of C10 (amended) on four-byte images. -/
theorem mix_images_blend_witness :
    ((row_image [0, 255, 100, 7]).n_pixels = (row_image [255, 0, 101, 250]).n_pixels ∧
      (row_image [0, 255, 100, 7]).channels = (row_image [255, 0, 101, 250]).channels ∧
      (row_image [0, 255, 100, 7]).data.length =
        (row_image [0, 255, 100, 7]).n_pixels * (row_image [0, 255, 100, 7]).channels ∧
      (row_image [255, 0, 101, 250]).data.length =
        (row_image [255, 0, 101, 250]).n_pixels * (row_image [255, 0, 101, 250]).channels ∧
      (row_image [0, 255, 100, 7]).n_pixels * (row_image [0, 255, 100, 7]).channels < 2 ^ 31 ∧
      (∀ x ∈ (row_image [0, 255, 100, 7]).data, x < 256) ∧
      (∀ x ∈ (row_image [255, 0, 101, 250]).data, x < 256)) ∧
    ∃ old', mix_images (row_image [0, 255, 100, 7]) (row_image [255, 0, 101, 250]) 10 =
        some (old', row_image [255, 0, 101, 250]) ∧
      old' = { row_image [0, 255, 100, 7] with data := old'.data } ∧
      old'.data.length = (row_image [0, 255, 100, 7]).data.length ∧
      ∀ i, i < (row_image [0, 255, 100, 7]).data.length →
        old'.data.getD i 0 =
          ((row_image [0, 255, 100, 7]).data.getD i 0 * (1000 - 10) +
            (row_image [255, 0, 101, 250]).data.getD i 0 * 10) / 1000 :=
  ⟨⟨rfl, rfl, rfl, rfl, by decide, by decide, by decide⟩,
    mix_images_blend (row_image [0, 255, 100, 7]) (row_image [255, 0, 101, 250])
      rfl rfl rfl rfl (by decide) (by decide) (by decide)⟩

/-! ## Lap timer: tick streams -/

/-- The five possible outcomes of the transition stage. -/
theorem finish_line_check_eq (p : Int) (now : Nat) (s : capture_state) :
    finish_line_check p now s = s ∨
    finish_line_check p now s = { s with finish_line_active := false } ∨
    finish_line_check p now s = { s with finish_line_active := true } ∨
    finish_line_check p now s =
      { s with finish_line_active := true, lap_start := now, race_start := now } ∨
    (s.lap < n_laps ∧ ∃ fl, finish_line_check p now s =
      { s with finish_line_active := true, fastest_lap := fl, lap_start := now,
               lap := s.lap + 1 }) := by
  by_cases hp : p > 20
  · cases ha : s.finish_line_active
    · by_cases hlap : s.lap < n_laps
      · by_cases hrun : 0 < s.lap_start
        · by_cases ht : min_lap_time < s.lap_times s.lap
          · exact Or.inr (Or.inr (Or.inr (Or.inr ⟨hlap, _,
              finish_line_check_record _ _ _ hp ha hlap hrun ht⟩)))
          · exact Or.inr (Or.inr (Or.inl (finish_line_check_ignore _ _ _ hp ha hlap hrun ht)))
        · exact Or.inr (Or.inr (Or.inr (Or.inl
            (finish_line_check_start _ _ _ hp ha hlap (by omega)))))
      · exact Or.inr (Or.inr (Or.inl (finish_line_check_done _ _ _ hp ha hlap)))
    · exact Or.inl (finish_line_check_held _ _ _ hp ha)
  · exact Or.inr (Or.inl (finish_line_check_low _ _ _ hp))

@[simp] theorem finish_line_check_lap_times (p : Int) (now : Nat) (s : capture_state) :
    (finish_line_check p now s).lap_times = s.lap_times := by
  rcases finish_line_check_eq p now s with h | h | h | h | ⟨_, _, h⟩ <;> rw [h]

@[simp] theorem finish_line_check_race_logged (p : Int) (now : Nat) (s : capture_state) :
    (finish_line_check p now s).race_logged = s.race_logged := by
  rcases finish_line_check_eq p now s with h | h | h | h | ⟨_, _, h⟩ <;> rw [h]

@[simp] theorem finish_line_check_race_log (p : Int) (now : Nat) (s : capture_state) :
    (finish_line_check p now s).race_log = s.race_log := by
  rcases finish_line_check_eq p now s with h | h | h | h | ⟨_, _, h⟩ <;> rw [h]

@[simp] theorem finish_line_check_finish_line_valid (p : Int) (now : Nat) (s : capture_state) :
    (finish_line_check p now s).finish_line_valid = s.finish_line_valid := by
  rcases finish_line_check_eq p now s with h | h | h | h | ⟨_, _, h⟩ <;> rw [h]

theorem finish_line_check_lap (p : Int) (now : Nat) (s : capture_state) :
    (finish_line_check p now s).lap = s.lap ∨
      ((finish_line_check p now s).lap = s.lap + 1 ∧ s.lap < n_laps) := by
  rcases finish_line_check_eq p now s with h | h | h | h | ⟨hl, _, h⟩
  · exact Or.inl (by rw [h])
  · exact Or.inl (by rw [h])
  · exact Or.inl (by rw [h])
  · exact Or.inl (by rw [h])
  · exact Or.inr ⟨by rw [h], hl⟩

/-- A tick on a background that is not valid skips the transition stage. -/
theorem lap_tick_invalid (freq : Nat) (s : capture_state) (t : tick)
    (hvalid : s.finish_line_valid = false) :
    lap_tick freq s t = log_race t.fopen_ok (update_lap_time freq t.now s) := by
  unfold lap_tick
  simp [hvalid]

/-- Lap-timer fields after a tick, in terms of the state after the transition stage. -/
theorem lap_tick_lap_cases (freq : Nat) (s : capture_state) (t : tick) :
    (lap_tick freq s t).lap = s.lap ∨
      ((lap_tick freq s t).lap = s.lap + 1 ∧ s.lap < n_laps) := by
  cases hv : s.finish_line_valid
  · rw [lap_tick_invalid freq s t hv]
    simp
  · rw [lap_tick_valid freq s t hv]
    have := finish_line_check_lap t.percent t.now (update_lap_time freq t.now s)
    simpa using this

theorem lap_tick_lap_times_of_finished (freq : Nat) (s : capture_state) (t : tick)
    (h : ¬ s.lap < n_laps) : (lap_tick freq s t).lap_times = s.lap_times := by
  cases hv : s.finish_line_valid
  · rw [lap_tick_invalid freq s t hv, log_race_lap_times,
      update_lap_time_idle _ _ _ (fun hh => h hh.2)]
  · rw [lap_tick_valid freq s t hv, log_race_lap_times, finish_line_check_lap_times,
      update_lap_time_idle _ _ _ (fun hh => h hh.2)]

/-- Logged flag and log after one tick, from the lap count after the tick. -/
theorem lap_tick_log (freq : Nat) (s : capture_state) (t : tick) :
    ((lap_tick freq s t).lap = n_laps ∧ s.race_logged = false →
      (lap_tick freq s t).race_logged = true ∧
      (lap_tick freq s t).race_log =
        if t.fopen_ok then s.race_log ++ [race_log_line (lap_tick freq s t).lap_times]
        else s.race_log) ∧
    (¬ ((lap_tick freq s t).lap = n_laps ∧ s.race_logged = false) →
      (lap_tick freq s t).race_logged = s.race_logged ∧
      (lap_tick freq s t).race_log = s.race_log) := by
  have key : ∀ s2 : capture_state, s2.race_logged = s.race_logged → s2.race_log = s.race_log →
      ((log_race t.fopen_ok s2).lap = n_laps ∧ s.race_logged = false →
        (log_race t.fopen_ok s2).race_logged = true ∧
        (log_race t.fopen_ok s2).race_log =
          if t.fopen_ok then s.race_log ++ [race_log_line (log_race t.fopen_ok s2).lap_times]
          else s.race_log) ∧
      (¬ ((log_race t.fopen_ok s2).lap = n_laps ∧ s.race_logged = false) →
        (log_race t.fopen_ok s2).race_logged = s.race_logged ∧
        (log_race t.fopen_ok s2).race_log = s.race_log) := by
    intro s2 h1 h2
    simp only [log_race_lap, log_race_lap_times]
    constructor
    · rintro ⟨hl, hf⟩
      rw [log_race_append _ _ hl (by rw [h1, hf])]
      simp [h2]
    · intro hn
      rw [log_race_skip _ _ (by rw [h1]; exact hn)]
      exact ⟨h1, h2⟩
  cases hv : s.finish_line_valid
  · rw [lap_tick_invalid freq s t hv]
    exact key (update_lap_time freq t.now s) (by simp) (by simp)
  · rw [lap_tick_valid freq s t hv]
    exact key (finish_line_check t.percent t.now (update_lap_time freq t.now s))
      (by simp) (by simp)

theorem race_log_line_eq (lt : Nat → ℚ) :
    race_log_line lt = [lt 0, lt 1, lt 2, lt 0 + lt 1 + lt 2] := by
  simp [race_log_line, n_laps, List.range_succ]

/-- Invariant behind the single append: the race is logged exactly when `lap = n_laps`,
and the log is the initial log followed by the line of the finished race. -/
theorem lap_run_log_inv (freq : Nat) (log0 : List (List ℚ)) (ticks : List tick) :
    ∀ s : capture_state,
      s.lap ≤ n_laps → (s.race_logged = true ↔ s.lap = n_laps) →
      s.race_log = log0 ++ (if s.lap = n_laps then [race_log_line s.lap_times] else []) →
      (∀ x ∈ ticks, x.fopen_ok = true) →
      (lap_run freq s ticks).lap ≤ n_laps ∧
      ((lap_run freq s ticks).race_logged = true ↔ (lap_run freq s ticks).lap = n_laps) ∧
      (lap_run freq s ticks).race_log = log0 ++
        (if (lap_run freq s ticks).lap = n_laps
          then [race_log_line (lap_run freq s ticks).lap_times] else []) := by
  induction ticks with
  | nil => intro s h1 h2 h3 _; exact ⟨h1, h2, h3⟩
  | cons t ts ih =>
    intro s h1 h2 h3 hopen
    have ht : t.fopen_ok = true := hopen t (List.mem_cons_self _ _)
    have hts : ∀ x ∈ ts, x.fopen_ok = true := fun x hx => hopen x (List.mem_cons_of_mem _ hx)
    show _ ∧ _ ∧ (lap_run freq (lap_tick freq s t) ts).race_log = _
    have hlog := lap_tick_log freq s t
    have hcase := lap_tick_lap_cases freq s t
    by_cases hfin : s.lap = n_laps
    · have hl : s.race_logged = true := h2.mpr hfin
      have hlap : (lap_tick freq s t).lap = n_laps := by
        rcases hcase with h | ⟨_, h⟩
        · rw [h, hfin]
        · omega
      obtain ⟨e1, e2⟩ := hlog.2 (by simp [hl])
      refine ih _ (by omega) (by rw [e1]; simp [hl, hlap]) ?_ hts
      rw [e2, h3, if_pos hfin, if_pos hlap,
        lap_tick_lap_times_of_finished freq s t (by omega)]
    · have hl : s.race_logged = false := by
        cases h : s.race_logged
        · rfl
        · exact absurd (h2.mp h) hfin
      rw [if_neg hfin, List.append_nil] at h3
      by_cases hlap : (lap_tick freq s t).lap = n_laps
      · obtain ⟨e1, e2⟩ := hlog.1 ⟨hlap, hl⟩
        refine ih _ (by omega) (by rw [e1]; simp [hlap]) ?_ hts
        rw [e2, if_pos ht, if_pos hlap, h3]
      · obtain ⟨e1, e2⟩ := hlog.2 (fun h => hlap h.1)
        refine ih _ ?_ (by rw [e1, hl]; simp [hlap]) ?_ hts
        · rcases hcase with h | ⟨h, h'⟩ <;> omega
        · rw [e2, if_neg hlap, h3, List.append_nil]

/-- Invariant of the lap timer that needs no assumption on `fopen`: the race is logged
exactly when `lap = n_laps`, and nothing is appended before. -/
theorem lap_run_state_inv (freq : Nat) (log0 : List (List ℚ)) (ticks : List tick) :
    ∀ s : capture_state,
      s.lap ≤ n_laps → (s.race_logged = true ↔ s.lap = n_laps) →
      (s.lap ≠ n_laps → s.race_log = log0) →
      (lap_run freq s ticks).lap ≤ n_laps ∧
      ((lap_run freq s ticks).race_logged = true ↔ (lap_run freq s ticks).lap = n_laps) ∧
      ((lap_run freq s ticks).lap ≠ n_laps → (lap_run freq s ticks).race_log = log0) := by
  induction ticks with
  | nil => intro s h1 h2 h3; exact ⟨h1, h2, h3⟩
  | cons t ts ih =>
    intro s h1 h2 h3
    show (lap_run freq (lap_tick freq s t) ts).lap ≤ _ ∧ _ ∧ _
    have hlog := lap_tick_log freq s t
    have hcase := lap_tick_lap_cases freq s t
    by_cases hfin : s.lap = n_laps
    · have hl : s.race_logged = true := h2.mpr hfin
      have hlap : (lap_tick freq s t).lap = n_laps := by
        rcases hcase with h | ⟨_, h⟩
        · rw [h, hfin]
        · omega
      obtain ⟨e1, _⟩ := hlog.2 (by simp [hl])
      exact ih _ (by omega) (by rw [e1]; simp [hl, hlap]) (fun h => absurd hlap h)
    · have hl : s.race_logged = false := by
        cases h : s.race_logged
        · rfl
        · exact absurd (h2.mp h) hfin
      by_cases hlap : (lap_tick freq s t).lap = n_laps
      · obtain ⟨e1, _⟩ := hlog.1 ⟨hlap, hl⟩
        exact ih _ (by omega) (by rw [e1]; simp [hlap]) (fun h => absurd hlap h)
      · obtain ⟨e1, e2⟩ := hlog.2 (fun h => hlap h.1)
        refine ih _ ?_ (by rw [e1, hl]; simp [hlap]) (fun _ => by rw [e2]; exact h3 hfin)
        rcases hcase with h | ⟨h, h'⟩ <;> omega

theorem lap_tick_completed (freq : Nat) (s : capture_state) (t : tick) (i : Nat)
    (hi : i < s.lap) : (lap_tick freq s t).lap_times i = s.lap_times i := by
  cases hv : s.finish_line_valid
  · rw [lap_tick_invalid freq s t hv, log_race_lap_times]
    exact update_lap_time_completed freq t.now s i (Nat.ne_of_lt hi)
  · rw [lap_tick_valid freq s t hv, log_race_lap_times, finish_line_check_lap_times]
    exact update_lap_time_completed freq t.now s i (Nat.ne_of_lt hi)

theorem lap_tick_finish_line_valid (freq : Nat) (s : capture_state) (t : tick) :
    (lap_tick freq s t).finish_line_valid = s.finish_line_valid := by
  cases hv : s.finish_line_valid
  · rw [lap_tick_invalid freq s t hv]; simpa using hv
  · rw [lap_tick_valid freq s t hv]; simpa using hv

/-- A tick that is not a rising edge leaves the lap-timer variables alone. -/
theorem lap_tick_no_edge (freq : Nat) (s : capture_state) (t : tick)
    (hedge : ¬ (t.percent > 20 ∧ s.finish_line_active = false)) :
    (lap_tick freq s t).lap = s.lap ∧
    (lap_tick freq s t).lap_start = s.lap_start ∧
    (lap_tick freq s t).race_start = s.race_start ∧
    (lap_tick freq s t).fastest_lap = s.fastest_lap := by
  cases hv : s.finish_line_valid
  · rw [lap_tick_invalid freq s t hv]
    simp
  · rw [lap_tick_valid freq s t hv]
    simp only [log_race_lap, log_race_lap_start, log_race_race_start, log_race_fastest_lap]
    by_cases hp : t.percent > 20
    · have ha : (update_lap_time freq t.now s).finish_line_active = true := by
        simpa [hp] using hedge
      rw [finish_line_check_held _ _ _ hp ha]
      simp
    · rw [finish_line_check_low _ _ _ hp]
      simp

theorem lap_tick_active (freq : Nat) (s : capture_state) (t : tick)
    (hvalid : s.finish_line_valid = true) :
    (lap_tick freq s t).finish_line_active = decide (t.percent > 20) := by
  rw [lap_tick_valid freq s t hvalid, log_race_finish_line_active]
  have := finish_line_check_active t.percent t.now (update_lap_time freq t.now s)
  by_cases hp : t.percent > 20
  · simp [hp, this.mpr hp]
  · have h2 : ¬ (finish_line_check t.percent t.now (update_lap_time freq t.now s)).finish_line_active
        = true := fun h => hp (this.mp h)
    simp [hp, h2]

theorem scenario_lap_lt (k : Nat) (hk : k < 5) : scenario_lap k < n_laps := by
  interval_cases k <;> decide

theorem scenario_no_edge (t0 u k : Nat) (s : capture_state) (t : tick)
    (hinv : scenario_inv t0 u k s)
    (hedge : ¬ (t.percent > 20 ∧ s.finish_line_active = false)) :
    scenario_inv t0 u k (lap_tick (10 * u) s t) := by
  obtain ⟨hv, hf, hl, hls, hrs, hlt, hlg, hlog⟩ := hinv
  obtain ⟨e1, e2, e3, e4⟩ := lap_tick_no_edge (10 * u) s t hedge
  have hnolog : ¬ ((lap_tick (10 * u) s t).lap = n_laps ∧ s.race_logged = false) := by
    rintro ⟨h1, h2⟩
    rw [hlg] at h2
    have hk : k < 5 := by simpa using h2
    have := scenario_lap_lt k hk
    rw [e1, hl] at h1
    omega
  obtain ⟨e5, e6⟩ := (lap_tick_log (10 * u) s t).2 hnolog
  refine ⟨by rw [lap_tick_finish_line_valid, hv], by rw [e4, hf], by rw [e1, hl],
    by rw [e2, hls], by rw [e3, hrs], ?_, by rw [e5, hlg], by rw [e6, hlog]⟩
  intro i hi
  rw [e1] at hi
  rw [lap_tick_completed _ _ _ _ hi]
  exact hlt i hi

theorem lap_tick_start (freq : Nat) (s : capture_state) (t : tick)
    (hvalid : s.finish_line_valid = true)
    (hpercent : t.percent > 20) (hactive : s.finish_line_active = false)
    (hlap : s.lap < n_laps) (hrun : s.lap_start = 0) :
    lap_tick freq s t =
      { s with finish_line_active := true, lap_start := t.now, race_start := t.now } := by
  rw [lap_tick_valid freq s t hvalid,
    update_lap_time_idle freq t.now s (by rw [hrun]; simp),
    finish_line_check_start _ _ _ hpercent hactive hlap hrun]
  exact log_race_skip _ _ (fun h => by have := h.1; simp only at this; omega)

theorem lap_tick_ignore (freq : Nat) (s : capture_state) (t : tick)
    (hvalid : s.finish_line_valid = true)
    (hpercent : t.percent > 20) (hactive : s.finish_line_active = false)
    (hrun : 0 < s.lap_start) (hlap : s.lap < n_laps)
    (hshort : elapsed_time freq t.now s.lap_start ≤ min_lap_time) :
    lap_tick freq s t =
      { s with
        lap_times := Function.update s.lap_times s.lap (elapsed_time freq t.now s.lap_start)
        finish_line_active := true } := by
  have hlt : (update_lap_time freq t.now s).lap_times (update_lap_time freq t.now s).lap =
      elapsed_time freq t.now s.lap_start := by
    simp [update_lap_time_lap_times, hrun, hlap]
  rw [lap_tick_valid freq s t hvalid,
    finish_line_check_ignore t.percent t.now (update_lap_time freq t.now s) hpercent
      (by simpa using hactive) (by simpa using hlap) (by simpa using hrun)
      (by rw [hlt]; exact not_lt.mpr hshort),
    update_lap_time_running freq t.now s hrun hlap]
  exact log_race_skip _ _ (fun h => by have := h.1; simp only at this; omega)

theorem elapsed_time_add (freq a d : Nat) (h : a + d < 2 ^ 64) :
    elapsed_time freq (a + d) a = (d : ℚ) / (freq : ℚ) := by
  unfold elapsed_time u64_sub
  congr 2
  omega

theorem seconds_eq (u d : Nat) (hu : 0 < u) :
    ((d * u : Nat) : ℚ) / ((10 * u : Nat) : ℚ) = (d : ℚ) / 10 := by
  have : (u : ℚ) ≠ 0 := by exact_mod_cast (Nat.pos_iff_ne_zero.mp hu)
  push_cast
  field_simp
  ring

theorem scenario_edge (t0 u k : Nat) (s : capture_state) (t : tick)
    (ht0 : 0 < t0) (hu : 0 < u) (hmax : t0 + 95 * u < 2 ^ 64) (hk : k < 5)
    (hinv : scenario_inv t0 u k s)
    (hp : t.percent > 20) (ha : s.finish_line_active = false)
    (hnow : t.now = (scenario_edges t0 u).getD k 0) (hopen : t.fopen_ok = true) :
    scenario_inv t0 u (k + 1) (lap_tick (10 * u) s t) := by
  obtain ⟨hv, hf, hl, hls, hrs, hlt, hlg, hlog⟩ := hinv
  have hlogd : s.race_logged = false := by rw [hlg]; simp; omega
  have hlog0 : s.race_log = [] := by rw [hlog, if_neg (by omega)]
  interval_cases k
  · -- first crossing: the race starts
    have hl0 : s.lap = 0 := hl
    have hls0 : s.lap_start = 0 := hls
    have hnow0 : t.now = t0 := hnow
    rw [lap_tick_start _ s t hv hp ha (by rw [hl0]; decide) hls0]
    refine ⟨hv, hf, hl0, ?_, ?_, ?_, ?_, ?_⟩
    · simpa [scenario_lap_start] using hnow0
    · simpa using hnow0
    · intro i hi; simp only [hl0] at hi; omega
    · simpa using hlogd
    · simpa using hlog0
  · -- second crossing, 3.0 s after the first: lap 1 is recorded
    have hl0 : s.lap = 0 := hl
    have hls0 : s.lap_start = t0 := hls
    have hnow0 : t.now = t0 + 30 * u := hnow
    have he : elapsed_time (10 * u) t.now s.lap_start = 3 := by
      rw [hnow0, hls0, elapsed_time_add _ _ _ (by omega), seconds_eq u 30 hu]
      norm_num
    rw [lap_tick_record _ s t hv hp ha (by omega) (by rw [hl0]; decide)
      (by rw [he]; norm_num [min_lap_time]), he,
      log_race_skip _ _ (fun h => by have := h.1; simp only [hl0] at this; exact absurd this (by decide))]
    refine ⟨hv, ?_, ?_, ?_, ?_, ?_, ?_, ?_⟩
    · simp [hl0]
    · simp [hl0, scenario_lap]
    · simpa [scenario_lap_start] using hnow0
    · simpa using hrs
    · intro i hi
      have hi0 : i = 0 := by simp only [hl0] at hi; omega
      subst hi0
      show Function.update s.lap_times s.lap 3 0 = scenario_durations.getD 0 0
      rw [hl0, Function.update_same]
      rfl
    · simpa using hlogd
    · simpa using hlog0
  · -- third crossing, 0.4 s after the second: ignored
    have hl0 : s.lap = 1 := hl
    have hls0 : s.lap_start = t0 + 30 * u := hls
    have hnow0 : t.now = t0 + 30 * u + 4 * u := by
      have : t.now = t0 + 34 * u := hnow
      omega
    have he : elapsed_time (10 * u) t.now s.lap_start = 2 / 5 := by
      rw [hnow0, hls0, elapsed_time_add _ _ _ (by omega), seconds_eq u 4 hu]
      norm_num
    rw [lap_tick_ignore _ s t hv hp ha (by omega) (by rw [hl0]; decide)
      (by rw [he]; norm_num [min_lap_time]), he]
    refine ⟨hv, hf, hl0, hls0, by simpa using hrs, ?_, by simpa using hlogd,
      by simpa using hlog0⟩
    intro i hi
    have hi' : i < s.lap := hi
    show Function.update s.lap_times s.lap (2 / 5) i = scenario_durations.getD i 0
    rw [Function.update_noteq (Nat.ne_of_lt hi')]
    exact hlt i hi'
  · -- fourth crossing, 3.0 s after the second: lap 2 is recorded
    have hl0 : s.lap = 1 := hl
    have hls0 : s.lap_start = t0 + 30 * u := hls
    have hnow0 : t.now = t0 + 30 * u + 30 * u := by
      have : t.now = t0 + 60 * u := hnow
      omega
    have he : elapsed_time (10 * u) t.now s.lap_start = 3 := by
      rw [hnow0, hls0, elapsed_time_add _ _ _ (by omega), seconds_eq u 30 hu]
      norm_num
    have h0 : s.lap_times 0 = 3 := hlt 0 (by omega)
    rw [lap_tick_record _ s t hv hp ha (by omega) (by rw [hl0]; decide)
      (by rw [he]; norm_num [min_lap_time]), he,
      log_race_skip _ _ (fun h => by have := h.1; simp only [hl0] at this; exact absurd this (by decide))]
    refine ⟨hv, ?_, ?_, ?_, ?_, ?_, ?_, ?_⟩
    · simp [hl0, hf, h0]
    · simp [hl0, scenario_lap]
    · show t.now = scenario_lap_start t0 u 4
      rw [hnow0]
      simp only [scenario_lap_start, List.getD_cons_succ, List.getD_cons_zero]
      omega
    · simpa using hrs
    · intro i hi
      have hi' : i < s.lap + 1 := hi
      show Function.update s.lap_times s.lap 3 i = scenario_durations.getD i 0
      by_cases hi1 : i = s.lap
      · rw [hi1, Function.update_same, hl0]
        rfl
      · rw [Function.update_noteq hi1]
        exact hlt i (by omega)
    · simpa using hlogd
    · simpa using hlog0
  · -- fifth crossing, 3.5 s after the fourth: lap 3 is recorded and the race is logged
    have hl0 : s.lap = 2 := hl
    have hls0 : s.lap_start = t0 + 60 * u := hls
    have hnow0 : t.now = t0 + 60 * u + 35 * u := by
      have : t.now = t0 + 95 * u := hnow
      omega
    have he : elapsed_time (10 * u) t.now s.lap_start = 7 / 2 := by
      rw [hnow0, hls0, elapsed_time_add _ _ _ (by omega), seconds_eq u 35 hu]
      norm_num
    have h0 : s.lap_times 0 = 3 := hlt 0 (by omega)
    have h1 : s.lap_times 1 = 3 := hlt 1 (by omega)
    rw [lap_tick_record _ s t hv hp ha (by omega) (by rw [hl0]; decide)
      (by rw [he]; norm_num [min_lap_time]), he,
      log_race_append _ _ (by show s.lap + 1 = n_laps; rw [hl0]; rfl) (by exact hlogd)]
    refine ⟨hv, ?_, ?_, ?_, ?_, ?_, ?_, ?_⟩
    · simp [hl0, hf, h0]
      norm_num
    · simp [hl0, scenario_lap]
    · show t.now = scenario_lap_start t0 u 5
      rw [hnow0]
      simp only [scenario_lap_start, List.getD_cons_succ, List.getD_cons_zero]
      omega
    · simpa using hrs
    · intro i hi
      have hi' : i < s.lap + 1 := hi
      show Function.update s.lap_times s.lap (7 / 2) i = scenario_durations.getD i 0
      by_cases hi1 : i = s.lap
      · rw [hi1, Function.update_same, hl0]
        rfl
      · rw [Function.update_noteq hi1]
        exact hlt i (by omega)
    · rfl
    · show (if t.fopen_ok = true then
          s.race_log ++ [race_log_line (Function.update s.lap_times s.lap (7 / 2))]
          else s.race_log) = _
      rw [if_pos hopen, hlog0, race_log_line_eq, hl0]
      simp [Function.update, h0, h1]
      norm_num

theorem lap_run_cons (freq : Nat) (s : capture_state) (t : tick) (ts : List tick) :
    lap_run freq s (t :: ts) = lap_run freq (lap_tick freq s t) ts := rfl

theorem scenario_drop (t0 u k x : Nat) (xs : List Nat)
    (h : (scenario_edges t0 u).drop k = x :: xs) :
    k < 5 ∧ x = (scenario_edges t0 u).getD k 0 ∧ (scenario_edges t0 u).drop (k + 1) = xs := by
  unfold scenario_edges at *
  match k, h with
  | 0, h => cases h; exact ⟨by decide, rfl, rfl⟩
  | 1, h => cases h; exact ⟨by decide, rfl, rfl⟩
  | 2, h => cases h; exact ⟨by decide, rfl, rfl⟩
  | 3, h => cases h; exact ⟨by decide, rfl, rfl⟩
  | 4, h => cases h; exact ⟨by decide, rfl, rfl⟩
  | n + 5, h => simp at h

/-- Running the lap timer from the state reached after `k` crossings of the scenario over
a stream whose rising edges are the next crossings. -/
theorem scenario_run (t0 u : Nat) (ht0 : 0 < t0) (hu : 0 < u) (hmax : t0 + 95 * u < 2 ^ 64)
    (ticks : List tick) :
    ∀ (k : Nat) (s : capture_state) (rest : List Nat),
      scenario_inv t0 u k s →
      (scenario_edges t0 u).drop k = rising_edges s.finish_line_active ticks ++ rest →
      (∀ x ∈ ticks, x.fopen_ok = true) →
      scenario_inv t0 u (k + (rising_edges s.finish_line_active ticks).length)
        (lap_run (10 * u) s ticks) := by
  induction ticks with
  | nil => intro k s rest hinv _ _; exact hinv
  | cons t ts ih =>
    intro k s rest hinv hedges hopen
    have ht : t.fopen_ok = true := hopen t (List.mem_cons_self _ _)
    have hts : ∀ x ∈ ts, x.fopen_ok = true := fun x hx => hopen x (List.mem_cons_of_mem _ hx)
    have hact := lap_tick_active (10 * u) s t hinv.1
    rw [lap_run_cons]
    by_cases hp : t.percent > 20
    · cases ha : s.finish_line_active
      · -- rising edge
        have hre : rising_edges false (t :: ts) = t.now :: rising_edges true ts := by
          simp [rising_edges, hp]
        rw [ha, hre] at hedges
        obtain ⟨hk, hnow, hdrop⟩ := scenario_drop t0 u k _ _ hedges
        have hstep := scenario_edge t0 u k s t ht0 hu hmax hk hinv hp ha hnow ht
        have hact' : (lap_tick (10 * u) s t).finish_line_active = true := by
          rw [hact]; simp [hp]
        have := ih (k + 1) _ rest hstep (by rw [hact']; exact hdrop) hts
        rw [hact'] at this
        rw [hre, List.length_cons]
        have e : k + ((rising_edges true ts).length + 1) =
            k + 1 + (rising_edges true ts).length := by omega
        rw [e]
        exact this
      · have hre : rising_edges true (t :: ts) = rising_edges true ts := by
          simp [rising_edges, hp]
        have hstep := scenario_no_edge t0 u k s t hinv (by simp [ha])
        have hact' : (lap_tick (10 * u) s t).finish_line_active = true := by
          rw [hact]; simp [hp]
        rw [ha, hre] at hedges
        have := ih k _ rest hstep (by rw [hact']; exact hedges) hts
        rw [hact'] at this
        rw [hre]
        exact this
    · have hre : rising_edges s.finish_line_active (t :: ts) = rising_edges false ts := by
        cases s.finish_line_active <;> simp [rising_edges, hp]
      have hstep := scenario_no_edge t0 u k s t hinv (fun h => hp h.1)
      have hact' : (lap_tick (10 * u) s t).finish_line_active = false := by
        rw [hact]; simp [hp]
      rw [hre] at hedges
      have := ih k _ rest hstep (by rw [hact']; exact hedges) hts
      rw [hact'] at this
      rw [hre]
      exact this

/-- C1 as stated fails. For the stream `scenario_ticks 1000`, whose rising edges are the
five crossings counted from the counter value 1000, lap 2 lasts 3 s (the ignored crossing
at 3.4 s does not restart the lap), the fastest-lap index is 0 and the logged line is
3, 3, 3.5, 9.5. For the stream `scenario_ticks 0`, whose first crossing has the counter
value 0, that crossing leaves `lap_start` at 0, the race starts at the second crossing
and only two laps are completed, so nothing is logged. -/
theorem scenario_as_stated_fails :
    (rising_edges false (scenario_ticks 1000) = scenario_edges 1000 1 ∧
      (lap_run 10 valid_start (scenario_ticks 1000)).lap = 3 ∧
      (lap_run 10 valid_start (scenario_ticks 1000)).lap_times 1 = 3 ∧
      (lap_run 10 valid_start (scenario_ticks 1000)).fastest_lap = 0 ∧
      (lap_run 10 valid_start (scenario_ticks 1000)).race_log = [[3, 3, 7 / 2, 19 / 2]] ∧
      (lap_run 10 valid_start (scenario_ticks 1000)).lap_times 1 ≠ 13 / 5 ∧
      (lap_run 10 valid_start (scenario_ticks 1000)).fastest_lap ≠ 1 ∧
      (lap_run 10 valid_start (scenario_ticks 1000)).race_log ≠
        [[3, 13 / 5, 7 / 2, 91 / 10]]) ∧
    (rising_edges false (scenario_ticks 0) = scenario_edges 0 1 ∧
      (lap_run 10 valid_start (scenario_ticks 0)).lap = 2 ∧
      (lap_run 10 valid_start (scenario_ticks 0)).race_log = []) := by
  refine ⟨⟨by decide, ?_, ?_, ?_, ?_, ?_, ?_, ?_⟩, by decide, ?_, ?_⟩ <;>
    with_unfolding_all decide

/-- C1 (amended): from the NoRace state with a valid background, with `race.log`
openable, for a counter at `10 * u` ticks per second and every stream whose rising edges
are the first `k` of the crossings at 0.0, 3.0, 3.4, 6.0 and 9.5 s after a non-zero
counter value `t0`: the first crossing starts the race with `lap` staying 0, the second
records lap 1 (3.0 s), the third is ignored, the fourth records lap 2 (3.0 s), the fifth
records lap 3 (3.5 s); the fastest-lap index is 0 throughout, and the log holds exactly
one line, 3, 3, 3.5, 9.5, once all five crossings have occurred and no line before. -/
theorem lap_timer_scenario (t0 u : Nat) (s0 : capture_state) (ticks : List tick) (k : Nat)
    (ht0 : 0 < t0) (hu : 0 < u) (hmax : t0 + 95 * u < 2 ^ 64)
    (hinit : s0.lap = 0 ∧ s0.lap_start = 0 ∧ s0.race_start = 0 ∧ s0.fastest_lap = 0 ∧
      s0.race_logged = false ∧ s0.finish_line_active = false ∧ s0.race_log = [])
    (hvalid : s0.finish_line_valid = true)
    (hk : k ≤ 5)
    (hedges : rising_edges false ticks = (scenario_edges t0 u).take k)
    (hopen : ∀ x ∈ ticks, x.fopen_ok = true) :
    (lap_run (10 * u) s0 ticks).lap = [0, 0, 1, 1, 2, 3].getD k 0 ∧
    (lap_run (10 * u) s0 ticks).lap_start =
      [0, t0, t0 + 30 * u, t0 + 30 * u, t0 + 60 * u, t0 + 95 * u].getD k 0 ∧
    (lap_run (10 * u) s0 ticks).race_start = (if k = 0 then 0 else t0) ∧
    (lap_run (10 * u) s0 ticks).fastest_lap = 0 ∧
    (∀ i, i < (lap_run (10 * u) s0 ticks).lap →
      (lap_run (10 * u) s0 ticks).lap_times i = [(3 : ℚ), 3, 7 / 2].getD i 0) ∧
    (lap_run (10 * u) s0 ticks).race_log =
      (if k = 5 then [[3, 3, 7 / 2, 19 / 2]] else []) := by
  obtain ⟨i1, i2, i3, i4, i5, i6, i7⟩ := hinit
  have hinv0 : scenario_inv t0 u 0 s0 := by
    refine ⟨hvalid, i4, i1, i2, by simpa using i3, ?_, by simpa using i5, by simpa using i7⟩
    intro i hi
    rw [i1] at hi
    omega
  have hlen : (rising_edges false ticks).length = k := by
    rw [hedges, List.length_take]
    simp [scenario_edges]
    exact hk
  have := scenario_run t0 u ht0 hu hmax ticks 0 s0 ((scenario_edges t0 u).drop k) hinv0
    (by rw [i6, hedges, List.drop_zero, List.take_append_drop]) hopen
  rw [i6, hlen, Nat.zero_add] at this
  obtain ⟨_, hf, hl, hls, hrs, hlt, _, hlog⟩ := this
  refine ⟨?_, ?_, hrs, hf, hlt, ?_⟩
  · rw [hl]
    interval_cases k <;> rfl
  · rw [hls]
    interval_cases k <;> rfl
  · rw [hlog]
    interval_cases k <;> simp

/-- Witness of C1 (amended): the complete stream `scenario_ticks 1000`. -/
theorem lap_timer_scenario_witness :
    (0 < 1000 ∧ 0 < 1 ∧ 1000 + 95 * 1 < 2 ^ 64 ∧
      valid_start.finish_line_valid = true ∧
      rising_edges false (scenario_ticks 1000) = (scenario_edges 1000 1).take 5 ∧
      ∀ x ∈ scenario_ticks 1000, x.fopen_ok = true) ∧
    (lap_run (10 * 1) valid_start (scenario_ticks 1000)).lap = 3 ∧
    (lap_run (10 * 1) valid_start (scenario_ticks 1000)).fastest_lap = 0 ∧
    (lap_run (10 * 1) valid_start (scenario_ticks 1000)).race_log =
      [[3, 3, 7 / 2, 19 / 2]] := by
  have hedges : rising_edges false (scenario_ticks 1000) = (scenario_edges 1000 1).take 5 := by
    decide
  have hopen : ∀ x ∈ scenario_ticks 1000, x.fopen_ok = true := by decide
  have h := lap_timer_scenario 1000 1 valid_start (scenario_ticks 1000) 5 (by decide)
    (by decide) (by decide) ⟨rfl, rfl, rfl, rfl, rfl, rfl, rfl⟩ rfl (by decide) hedges hopen
  exact ⟨⟨by decide, by decide, by decide, rfl, hedges, hopen⟩, h.1, h.2.2.2.1, h.2.2.2.2.2⟩

/-- C5 as stated fails: when `fopen` fails on the first tick at which `lap` equals
`n_laps` (the ninth tick of `unwritable_ticks`), nothing is appended on that tick, nor on
any later one. -/
theorem failed_fopen_loses_race :
    (∀ j, j < 9 → (lap_run 10 valid_start (unwritable_ticks.take j)).lap ≠ n_laps) ∧
    (lap_run 10 valid_start (unwritable_ticks.take 9)).lap = n_laps ∧
    (lap_run 10 valid_start (unwritable_ticks.take 9)).race_log = [] ∧
    (lap_run 10 valid_start unwritable_ticks).race_log = [] := by
  refine ⟨?_, ?_, ?_, ?_⟩ <;> with_unfolding_all decide

/-- C5 (amended): for every tick stream without reset, started before the race is
finished and not logged: nothing is appended while `lap` differs from `n_laps`; the append
happens on the first tick at which `lap` equals `n_laps` provided `race.log` can be opened
on that tick, and the appended line is the `n_laps` lap durations in order followed by
their sum; once `lap` equals `n_laps` no tick appends, changes `lap` or changes the
durations; so with `race.log` openable the log grows by exactly that one line. -/
theorem race_logged_once (freq : Nat) (s0 : capture_state) (ticks : List tick) (t : tick)
    (hlap : s0.lap < n_laps) (hlog : s0.race_logged = false) :
    ((∀ x ∈ ticks, x.fopen_ok = true) →
      (lap_run freq s0 ticks).race_log = s0.race_log ++
        (if (lap_run freq s0 ticks).lap = n_laps
          then [race_log_line (lap_run freq s0 ticks).lap_times] else [])) ∧
    ((lap_run freq s0 ticks).lap ≠ n_laps → (lap_run freq s0 ticks).race_log = s0.race_log) ∧
    ((lap_run freq s0 ticks).lap = n_laps →
      (lap_tick freq (lap_run freq s0 ticks) t).lap = n_laps ∧
      (lap_tick freq (lap_run freq s0 ticks) t).race_log = (lap_run freq s0 ticks).race_log ∧
      (lap_tick freq (lap_run freq s0 ticks) t).lap_times = (lap_run freq s0 ticks).lap_times) ∧
    ((lap_run freq s0 ticks).lap ≠ n_laps →
      (lap_tick freq (lap_run freq s0 ticks) t).race_log =
        if (lap_tick freq (lap_run freq s0 ticks) t).lap = n_laps ∧ t.fopen_ok = true
        then (lap_run freq s0 ticks).race_log ++
          [race_log_line (lap_tick freq (lap_run freq s0 ticks) t).lap_times]
        else (lap_run freq s0 ticks).race_log) ∧
    (∀ lt : Nat → ℚ, race_log_line lt = [lt 0, lt 1, lt 2, lt 0 + lt 1 + lt 2]) := by
  obtain ⟨_, h2, h3⟩ := lap_run_state_inv freq s0.race_log ticks s0 (le_of_lt hlap)
    (by rw [hlog]; simp; omega) (fun _ => rfl)
  have hlog' := lap_tick_log freq (lap_run freq s0 ticks) t
  have hcase := lap_tick_lap_cases freq (lap_run freq s0 ticks) t
  refine ⟨?_, h3, ?_, ?_, race_log_line_eq⟩
  · intro hopen
    exact (lap_run_log_inv freq s0.race_log ticks s0 (le_of_lt hlap)
      (by rw [hlog]; simp; omega) (by rw [if_neg (by omega), List.append_nil]) hopen).2.2
  · intro hfin
    have hl : (lap_run freq s0 ticks).race_logged = true := h2.mpr hfin
    refine ⟨?_, (hlog'.2 (by simp [hl])).2,
      lap_tick_lap_times_of_finished freq _ t (by omega)⟩
    rcases hcase with h | ⟨_, h⟩
    · rw [h, hfin]
    · omega
  · intro hne
    have hl : (lap_run freq s0 ticks).race_logged = false := by
      cases h : (lap_run freq s0 ticks).race_logged
      · rfl
      · exact absurd (h2.mp h) hne
    by_cases hlap' : (lap_tick freq (lap_run freq s0 ticks) t).lap = n_laps
    · rw [(hlog'.1 ⟨hlap', hl⟩).2]
      by_cases hf : t.fopen_ok = true
      · rw [if_pos hf, if_pos ⟨hlap', hf⟩]
      · rw [if_neg hf, if_neg (fun h => hf h.2)]
    · rw [(hlog'.2 (fun h => hlap' h.1)).2, if_neg (fun h => hlap' h.1)]

/-- Witness of C5 (amended): the stream `scenario_ticks 1000` followed by one more
crossing. -/
theorem race_logged_once_witness :
    (valid_start.lap < n_laps ∧ valid_start.race_logged = false ∧
      ∀ x ∈ scenario_ticks 1000, x.fopen_ok = true) ∧
    (lap_run 10 valid_start (scenario_ticks 1000)).race_log = valid_start.race_log ++
      (if (lap_run 10 valid_start (scenario_ticks 1000)).lap = n_laps
        then [race_log_line (lap_run 10 valid_start (scenario_ticks 1000)).lap_times]
        else []) :=
  ⟨⟨by decide, rfl, by decide⟩,
    (race_logged_once 10 valid_start (scenario_ticks 1000) (tick_at 50 2000)
      (by decide) rfl).1 (by decide)⟩

/-! ## Repeated blending is monotonic -/

theorem mix_pixel_lt_256 (ow nw sc : Int) (o n : Nat) : mix_pixel ow nw sc o n < 256 := by
  unfold mix_pixel
  omega

theorem mix_pixel_closer (o n : Nat) (ho : o < 256) (hn : n < 256) :
    |((mix_pixel (1000 - 10) 10 1000 o n : Nat) : Int) - (n : Int)| ≤ |(o : Int) - (n : Int)| := by
  rw [mix_pixel_weight_10 o n ho hn]
  rw [abs_le]
  rcases le_total o n with h | h
  · rw [abs_of_nonpos (by omega)]
    constructor <;> omega
  · rw [abs_of_nonneg (by omega)]
    constructor <;> omega

/-- Result of one blend with weight 10 on images of any size: every byte of the
reference is either blended or, past the loop bound, left as it was. -/
theorem mix_images_weight_10_any (old new : image)
    (hn : old.n_pixels = new.n_pixels) (hc : old.channels = new.channels)
    (hold : ∀ x ∈ old.data, x < 256) :
    ∃ old', mix_images old new 10 = some (old', new) ∧
      old'.n_pixels = old.n_pixels ∧ old'.channels = old.channels ∧
      old'.data.length = old.data.length ∧
      (∀ x ∈ old'.data, x < 256) ∧
      ∀ i, i < old.data.length →
        old'.data.getD i 0 =
          mix_pixel (1000 - 10) 10 1000 (old.data.getD i 0) (new.data.getD i 0) ∨
        old'.data.getD i 0 = old.data.getD i 0 := by
  obtain ⟨old', e, h1, hl, hdata⟩ := mix_images_any old new 10 hn hc
  refine ⟨old', e, ?_, ?_, hl, ?_, ?_⟩
  · rw [h1]
  · rw [h1]
  · intro x hx
    obtain ⟨i, hi, rfl⟩ := List.getElem_of_mem hx
    have := hdata i (by rw [← hl]; exact hi)
    rw [List.getD_eq_getElem _ _ hi] at this
    rw [this]
    split
    · exact mix_pixel_lt_256 _ _ _ _ _
    · exact getD_lt_256 _ hold i
  · intro i hi
    rw [hdata i hi]
    split
    · exact Or.inl rfl
    · exact Or.inr rfl

/-- Result of one blend with weight 10 on well-formed images of fewer than `2^31` bytes. -/
theorem mix_images_weight_10 (old new : image)
    (hn : old.n_pixels = new.n_pixels) (hc : old.channels = new.channels)
    (hlen : old.data.length = old.n_pixels * old.channels)
    (hsize : old.n_pixels * old.channels < 2 ^ 31) :
    ∃ old', mix_images old new 10 = some (old', new) ∧
      old'.n_pixels = old.n_pixels ∧ old'.channels = old.channels ∧
      old'.data.length = old.data.length ∧
      (∀ x ∈ old'.data, x < 256) ∧
      ∀ i, i < old.data.length →
        old'.data.getD i 0 =
          mix_pixel (1000 - 10) 10 1000 (old.data.getD i 0) (new.data.getD i 0) := by
  obtain ⟨old', e, h1, hl, hdata⟩ := mix_images_any old new 10 hn hc
  refine ⟨old', e, ?_, ?_, hl, ?_, ?_⟩
  · rw [h1]
  · rw [h1]
  · intro x hx
    obtain ⟨i, hi, rfl⟩ := List.getElem_of_mem hx
    have := hdata i (by rw [← hl]; exact hi)
    rw [mix_images_count old hsize, if_pos (by rw [← hlen, ← hl]; exact hi)] at this
    rw [List.getD_eq_getElem _ _ hi] at this
    rw [this]
    exact mix_pixel_lt_256 _ _ _ _ _
  · intro i hi
    rw [hdata i hi, mix_images_count old hsize, if_pos (by rw [← hlen]; exact hi)]

/-- Every reference of the blend sequence exists and keeps the shape of the first one. -/
theorem blend_times_some (old new : image)
    (hn : old.n_pixels = new.n_pixels) (hc : old.channels = new.channels)
    (_hlen : old.data.length = old.n_pixels * old.channels)
    (hold : ∀ x ∈ old.data, x < 256) (k : Nat) :
    ∃ rk, blend_times new k old = some rk ∧
      rk.n_pixels = old.n_pixels ∧ rk.channels = old.channels ∧
      rk.data.length = old.data.length ∧ (∀ x ∈ rk.data, x < 256) := by
  induction k with
  | zero => exact ⟨old, rfl, rfl, rfl, rfl, hold⟩
  | succ j ih =>
    obtain ⟨rj, e, h1, h2, h3, h4⟩ := ih
    obtain ⟨r', e', g1, g2, g3, g4, _⟩ := mix_images_weight_10_any rj new (by rw [h1, hn])
      (by rw [h2, hc]) h4
    refine ⟨r', ?_, by rw [g1, h1], by rw [g2, h2], by rw [g3, h3], g4⟩
    show (blend_times new j old).bind _ = _
    rw [e]
    show (mix_images rj new 10).map Prod.fst = _
    rw [e']
    rfl

/-- C11: background blend is monotonic. If `reference_k` is the reference after `k`
consecutive calls of `mix_images` with weight 10 toward the same image, then at every byte
position the distance to the foreground byte does not grow from `reference_k` to
`reference_(k+1)`. -/
theorem blend_monotonic (old new : image) (k : Nat)
    (hn : old.n_pixels = new.n_pixels) (hc : old.channels = new.channels)
    (hlen : old.data.length = old.n_pixels * old.channels)
    (hold : ∀ x ∈ old.data, x < 256) (hnew : ∀ x ∈ new.data, x < 256) :
    ∃ rk rk1, blend_times new k old = some rk ∧ blend_times new (k + 1) old = some rk1 ∧
      ∀ i, i < old.data.length →
        |((rk1.data.getD i 0 : Nat) : Int) - ((new.data.getD i 0 : Nat) : Int)| ≤
          |((rk.data.getD i 0 : Nat) : Int) - ((new.data.getD i 0 : Nat) : Int)| := by
  obtain ⟨rk, e, h1, h2, h3, h4⟩ := blend_times_some old new hn hc hlen hold k
  obtain ⟨r', e', _, _, _, _, g5⟩ := mix_images_weight_10_any rk new (by rw [h1, hn])
      (by rw [h2, hc]) h4
  refine ⟨rk, r', e, ?_, ?_⟩
  · show (blend_times new k old).bind _ = _
    rw [e]
    show (mix_images rk new 10).map Prod.fst = _
    rw [e']
    rfl
  · intro i hi
    rcases g5 i (by rw [h3]; exact hi) with g | g
    · rw [g]
      exact mix_pixel_closer _ _ (getD_lt_256 _ h4 i) (getD_lt_256 _ hnew i)
    · rw [g]

/-- Witness of C11 on four-byte images, for `k = 3`. -/
theorem blend_monotonic_witness :
    ((row_image [0, 255, 100, 7]).n_pixels = (row_image [255, 0, 101, 250]).n_pixels ∧
      (row_image [0, 255, 100, 7]).channels = (row_image [255, 0, 101, 250]).channels ∧
      (row_image [0, 255, 100, 7]).data.length =
        (row_image [0, 255, 100, 7]).n_pixels * (row_image [0, 255, 100, 7]).channels ∧
      (∀ x ∈ (row_image [0, 255, 100, 7]).data, x < 256) ∧
      (∀ x ∈ (row_image [255, 0, 101, 250]).data, x < 256)) ∧
    ∃ rk rk1, blend_times (row_image [255, 0, 101, 250]) 3 (row_image [0, 255, 100, 7]) = some rk ∧
      blend_times (row_image [255, 0, 101, 250]) (3 + 1) (row_image [0, 255, 100, 7]) = some rk1 ∧
      ∀ i, i < (row_image [0, 255, 100, 7]).data.length →
        |((rk1.data.getD i 0 : Nat) : Int) -
            (((row_image [255, 0, 101, 250]).data.getD i 0 : Nat) : Int)| ≤
          |((rk.data.getD i 0 : Nat) : Int) -
            (((row_image [255, 0, 101, 250]).data.getD i 0 : Nat) : Int)| :=
  ⟨⟨rfl, rfl, rfl, by decide, by decide⟩,
    blend_monotonic (row_image [0, 255, 100, 7]) (row_image [255, 0, 101, 250]) 3
      rfl rfl rfl (by decide) (by decide)⟩

/-! ## Insertion sort -/

theorem getD_append_length (l r : List Nat) (b : Nat) : (l ++ b :: r).getD l.length 0 = b := by
  rw [List.getD_eq_getElem?_getD, List.getElem?_append_right (Nat.le_refl _), Nat.sub_self]
  simp

theorem set_append_length (l r : List Nat) (b c : Nat) :
    (l ++ b :: r).set l.length c = l ++ c :: r := by
  simp

theorem shift_loop_spec (x : Nat) :
    ∀ (l1 : List Nat) (h : Nat) (rest : List Nat), l1.Sorted (· ≤ ·) →
      ∃ l1a l1b h', l1 = l1a ++ l1b ∧
        shift_loop x l1.length (l1 ++ h :: rest) =
          (l1a.length, l1a ++ h' :: (l1b ++ rest)) ∧
        (∀ y ∈ l1b, x < y) ∧ (∀ y ∈ l1a, y ≤ x) := by
  intro l1
  induction l1 using List.reverseRecOn with
  | nil =>
    intro h rest _
    exact ⟨[], [], h, rfl, rfl, by simp, by simp⟩
  | append_singleton l b ih =>
    intro h rest hs
    have hs' : l.Sorted (· ≤ ·) ∧ ∀ y ∈ l, y ≤ b := by
      unfold List.Sorted at hs ⊢
      rw [List.pairwise_append] at hs
      exact ⟨hs.1, fun y hy => hs.2.2 y hy b (by simp)⟩
    have hlen : (l ++ [b]).length = l.length + 1 := by simp
    have hget : (l ++ [b] ++ h :: rest).getD l.length 0 = b := by
      rw [List.append_assoc]
      exact getD_append_length l _ b
    rw [hlen]
    by_cases hb : b > x
    · obtain ⟨l1a, l1b, h', e, hsl, h1, h2⟩ := ih b (b :: rest) hs'.1
      refine ⟨l1a, l1b ++ [b], h', by rw [e, List.append_assoc], ?_, ?_, h2⟩
      · show (if (l ++ [b] ++ h :: rest).getD l.length 0 > x then _ else _) = _
        rw [hget, if_pos hb]
        have : (l ++ [b] ++ h :: rest).set (l.length + 1) b = l ++ b :: (b :: rest) := by
          have := set_append_length (l ++ [b]) rest h b
          rw [hlen] at this
          rw [this]
          simp
        rw [this, hsl]
        simp
      · intro y hy
        rcases List.mem_append.mp hy with hy | hy
        · exact h1 y hy
        · simp at hy; omega
    · refine ⟨l ++ [b], [], h, by simp, ?_, by simp, ?_⟩
      · show (if (l ++ [b] ++ h :: rest).getD l.length 0 > x then _ else _) = _
        rw [hget, if_neg hb]
        simp
      · intro y hy
        rcases List.mem_append.mp hy with hy | hy
        · have := hs'.2 y hy
          omega
        · simp at hy; omega

theorem int_of_size_pred (i : Nat) (h1 : 1 ≤ i) (h2 : i ≤ 2 ^ 31) :
    int_of_size (i - 1) = (i : Int) - 1 := by
  unfold int_of_size
  omega

theorem insert_step_spec (l1 : List Nat) (x : Nat) (post : List Nat)
    (hs : l1.Sorted (· ≤ ·)) (h1 : 1 ≤ l1.length) (h2 : l1.length < 2 ^ 31) :
    ∃ l1a l1b, l1 = l1a ++ l1b ∧
      insert_step (l1 ++ x :: post) l1.length = some (l1a ++ x :: (l1b ++ post)) ∧
      (∀ y ∈ l1b, x < y) ∧ (∀ y ∈ l1a, y ≤ x) := by
  obtain ⟨l1a, l1b, h', e, hsl, g1, g2⟩ := shift_loop_spec x l1 x post hs
  refine ⟨l1a, l1b, e, ?_, g1, g2⟩
  have hlen : l1.length < (l1 ++ x :: post).length := by
    rw [List.length_append, List.length_cons]
    omega
  have hj : int_of_size (l1.length - 1) = (l1.length : Int) - 1 :=
    int_of_size_pred _ h1 (by omega)
  have hj0 : (0 : Int) ≤ (l1.length : Int) - 1 := by omega
  have hj1 : (l1.length : Int) - 1 + 1 < 2147483648 := by omega
  have hj2 : ((l1.length : Int) - 1 + 1).toNat = l1.length := by omega
  unfold insert_step
  simp only [if_pos hlen, hj, if_pos hj0, if_pos hj1, hj2, getD_append_length, hsl]
  exact congrArg some (set_append_length l1a _ h' x)

theorem sorted_insert (l1a l1b : List Nat) (x : Nat) (hs : (l1a ++ l1b).Sorted (· ≤ ·))
    (g1 : ∀ y ∈ l1b, x < y) (g2 : ∀ y ∈ l1a, y ≤ x) :
    (l1a ++ x :: l1b).Sorted (· ≤ ·) := by
  unfold List.Sorted at hs ⊢
  rw [List.pairwise_append] at hs ⊢
  refine ⟨hs.1, ?_, ?_⟩
  · rw [List.pairwise_cons]
    exact ⟨fun y hy => le_of_lt (g1 y hy), hs.2.1⟩
  · intro a ha b hb
    rcases List.mem_cons.mp hb with hb | hb
    · rw [hb]; exact g2 a ha
    · exact hs.2.2 a ha b hb

theorem foldlM_snoc (f : List Nat → Nat → Option (List Nat)) (l : List Nat) (i : Nat)
    (a b : List Nat) (e : l.foldlM f a = some b) : (l ++ [i]).foldlM f a = f b i := by
  rw [List.foldlM_append, e]
  show ([i].foldlM f b) = f b i
  rw [List.foldlM_cons]
  cases f b i <;> rfl

theorem insert_step_fold (a S : List Nat) (t : Nat) (h : t + 1 + 1 ≤ a.length)
    (e : (List.range' 1 t).foldlM insert_step a = some (S ++ a.drop (t + 1))) :
    (List.range' 1 (t + 1)).foldlM insert_step a =
      insert_step (S ++ a[t + 1] :: a.drop (t + 2)) (t + 1) := by
  have hd : a.drop (t + 1) = a[t + 1] :: a.drop (t + 2) := List.drop_eq_getElem_cons (by omega)
  rw [List.range'_1_concat, foldlM_snoc insert_step _ _ a _ e, hd, Nat.add_comm 1 t]

/-- After the outer loop has handled the indices `1 .. t`, the first `t + 1` bytes are a
sorted rearrangement of the first `t + 1` original bytes and the rest is untouched. -/
theorem insertion_sort_prefix (a : List Nat) :
    ∀ t, t + 1 ≤ a.length → t < 2 ^ 31 →
      ∃ S, (List.range' 1 t).foldlM insert_step a = some (S ++ a.drop (t + 1)) ∧
        S.Sorted (· ≤ ·) ∧ S.Perm (a.take (t + 1)) := by
  intro t
  induction t with
  | zero =>
    intro h _
    refine ⟨a.take 1, ?_, ?_, List.Perm.refl _⟩
    · rw [List.take_append_drop 1 a]
      rfl
    · cases a with
      | nil => simp
      | cons b l => simp
  | succ t ih =>
    intro h hb
    obtain ⟨S, e, hs, hp⟩ := ih (by omega) (by omega)
    have hlen : S.length = t + 1 := by
      rw [hp.length_eq, List.length_take]; omega
    obtain ⟨l1a, l1b, e1, e2, g1, g2⟩ := insert_step_spec S a[t + 1] (a.drop (t + 2)) hs
      (by omega) (by omega)
    rw [hlen] at e2
    have hsorted : (l1a ++ a[t + 1] :: l1b).Sorted (· ≤ ·) :=
      sorted_insert l1a l1b _ (e1 ▸ hs) g1 g2
    have hperm : (l1a ++ a[t + 1] :: l1b).Perm (a.take (t + 1 + 1)) := by
      have ht : a.take (t + 1 + 1) = a.take (t + 1) ++ [a[t + 1]] := by
        rw [← List.take_concat_get a (t + 1) (by omega), List.concat_eq_append]
      rw [ht]
      refine (List.perm_middle).trans ?_
      refine List.Perm.trans ?_ (List.perm_append_singleton _ _).symm
      exact List.Perm.cons _ (e1 ▸ hp)
    refine ⟨l1a ++ a[t + 1] :: l1b, ?_, hsorted, hperm⟩
    rw [insert_step_fold a S t h e, e2]
    simp

/-- The sort of an array of at most `2^31` bytes returns, and the array it returns is a
sorted rearrangement of the original one. -/
theorem insertion_sort_sorts (a : List Nat) (n : Nat) (hn : a.length = n)
    (hsize : n ≤ 2 ^ 31) :
    ∃ s, insertion_sort_u8 a n = some s ∧ s.Sorted (· ≤ ·) ∧ s.Perm a := by
  unfold insertion_sort_u8
  cases n with
  | zero =>
    have : a = [] := List.length_eq_zero.mp hn
    subst this
    exact ⟨[], rfl, List.sorted_nil, List.Perm.refl _⟩
  | succ t =>
    obtain ⟨S, e, hs, hp⟩ := insertion_sort_prefix a t (by omega) (by omega)
    rw [List.drop_of_length_le (by omega), List.append_nil] at e
    rw [List.take_of_length_le (by omega)] at hp
    exact ⟨S, by rw [Nat.add_sub_cancel]; exact e, hs, hp⟩

/-- A fold in the option monad fails as soon as one of its steps fails on every state. -/
theorem foldlM_none (f : List Nat → Nat → Option (List Nat)) (x : Nat)
    (hx : ∀ b, f b x = none) :
    ∀ (l : List Nat) (a : List Nat), x ∈ l → l.foldlM f a = none := by
  intro l
  induction l with
  | nil => intro a h; cases h
  | cons y ys ih =>
    intro a h
    rw [List.foldlM_cons]
    cases hy : f a y with
    | none => rfl
    | some b =>
      show ys.foldlM f b = none
      rcases List.mem_cons.mp h with h1 | h1
      · rw [← h1, hx a] at hy
        cases hy
      · exact ih b h1

/-- The iteration of the sort for `i = 2^31` has no result: `j` is `INT_MAX` and the
index `j + 1` overflows. -/
theorem insert_step_int_max (a : List Nat) : insert_step a 2147483648 = none := by
  have hj : int_of_size (2147483648 - 1) = 2147483647 := by decide
  have h0 : (0 : Int) ≤ 2147483647 := by decide
  have h1 : ¬ ((2147483647 : Int) + 1 < 2147483648) := by decide
  unfold insert_step
  simp only [hj, if_pos h0, if_neg h1]
  split_ifs <;> rfl

/-- The iteration of the sort for `i = 2^31 + 1` has no result: `j` is `-2^31`, the inner
loop is skipped and the store `a[j + 1] = x` has the index `-2147483647`. -/
theorem insert_step_negative (a : List Nat) : insert_step a 2147483649 = none := by
  have hj : int_of_size (2147483649 - 1) = -2147483648 := by decide
  have h0 : ¬ ((0 : Int) ≤ -2147483648) := by decide
  have h1 : ¬ ((-2147483648 : Int) + 1 = 0) := by decide
  unfold insert_step
  simp only [hj, if_neg h0, if_neg h1]
  split_ifs <;> rfl

/-- The sort of more than `2^31` bytes has no result. -/
theorem insertion_sort_overflow (a : List Nat) (n : Nat) (hn : 2 ^ 31 + 1 ≤ n) :
    insertion_sort_u8 a n = none := by
  unfold insertion_sort_u8
  apply foldlM_none insert_step 2147483648 insert_step_int_max
  rw [List.mem_range'_1]
  omega

/-- C20 as stated fails: on an array of `2^31 + 2` bytes, `2^31 + 1` ones followed by a
zero, the call does not return a sorted array. At `i = 2^31` the index `j` is `INT_MAX`
and `j + 1` overflows; and whatever value that sum is given, at `i = 2^31 + 1` the
conversion of `i - 1` to `int` gives `j = -2^31`, the inner loop is skipped and the
store `a[j + 1] = x` goes to `a[-2147483647]`, outside the array. -/
theorem insertion_sort_int_index_wraps :
    (List.replicate 2147483649 1 ++ [0]).length = 2147483650 ∧
    insertion_sort_u8 (List.replicate 2147483649 1 ++ [0]) 2147483650 = none ∧
    (∀ a : List Nat, insert_step a 2147483649 = none) := by
  refine ⟨?_, insertion_sort_overflow _ _ (by norm_num), insert_step_negative⟩
  rw [List.length_append, List.length_replicate]
  rfl

/-- C20 (amended): for every byte array `a` of length `n` with `n ≤ 2^31`, so that the
index `int j = i - 1` and the sum `j + 1` never leave the range of `int`,
`insertion_sort_u8(a, n)` returns and leaves `a` sorted in non-decreasing order and a
permutation of its original contents. -/
theorem insertion_sort_u8_sorts (a : List Nat) (n : Nat) (hn : a.length = n)
    (hsize : n ≤ 2 ^ 31) :
    ∃ s, insertion_sort_u8 a n = some s ∧ s.Sorted (· ≤ ·) ∧ s.Perm a :=
  insertion_sort_sorts a n hn hsize

/-- Witness of C20 (amended): the array of `test_insertion_sort_u8` (main.c 322). -/
theorem insertion_sort_u8_sorts_witness :
    ([33, 12, 9, 3, 42, 88].length = 6 ∧ 6 ≤ 2 ^ 31) ∧
    (∃ s, insertion_sort_u8 [33, 12, 9, 3, 42, 88] 6 = some s ∧ s.Sorted (· ≤ ·) ∧
      s.Perm [33, 12, 9, 3, 42, 88]) ∧
    insertion_sort_u8 [33, 12, 9, 3, 42, 88] 6 = some [3, 9, 12, 33, 42, 88] :=
  ⟨⟨rfl, by norm_num⟩, insertion_sort_u8_sorts [33, 12, 9, 3, 42, 88] 6 rfl (by norm_num),
    by decide⟩

/-! ## Median filter -/

theorem getD_set_eq (l : List Nat) (i v : Nat) (h : i < l.length) : (l.set i v).getD i 0 = v := by
  rw [List.getD_eq_getElem?_getD, List.getElem?_set, if_pos rfl, if_pos h]
  rfl

theorem getD_set_ne (l : List Nat) (i j v : Nat) (h : i ≠ j) :
    (l.set i v).getD j 0 = l.getD j 0 := by
  rw [List.getD_eq_getElem?_getD, List.getElem?_set, if_neg h, List.getD_eq_getElem?_getD]

theorem wrap_int_nat (x : Nat) (h : x < 2 ^ 31) : wrap_int (x : Int) = (x : Int) :=
  wrap_int_eq _ (Int.natCast_nonneg x) (by exact_mod_cast h)

/-- A `memcpy` that stays inside the destination returns, and changes the bytes of its
range only. -/
theorem copy_bytes_spec (src dst : List Nat) (off len : Int) (h0 : 0 ≤ off) (h1 : 0 ≤ len)
    (h2 : off + len ≤ (dst.length : Int)) :
    ∃ d, copy_bytes src dst off len = some d ∧ d.length = dst.length ∧
      ∀ k, k < dst.length →
        d.getD k 0 =
          if off ≤ (k : Int) ∧ (k : Int) < off + len then src.getD k 0 else dst.getD k 0 := by
  unfold copy_bytes
  by_cases hl : len = 0
  · refine ⟨dst, by simp only [if_pos hl], rfl, fun k _ => ?_⟩
    rw [if_neg (by omega)]
  · have hc : 0 ≤ off ∧ 0 < len ∧ off + len ≤ (dst.length : Int) := ⟨h0, by omega, h2⟩
    refine ⟨(List.range dst.length).map fun (k : Nat) =>
        if off ≤ (k : Int) ∧ (k : Int) < off + len then src.getD k 0 else dst.getD k 0,
      by simp only [if_neg hl, if_pos hc], by rw [List.length_map, List.length_range],
      fun k hk => ?_⟩
    rw [List.getD_eq_getElem?_getD, List.getElem?_map, List.getElem?_range hk]
    rfl

theorem loop_count_bound (D c : Int) (t : Nat) (hc : 0 < c)
    (ht : t < ((D + c - 1) / c).toNat) : (t : Int) * c < D := by
  have h1 : (t : Int) + 1 ≤ (D + c - 1) / c := by omega
  have h2 := (Int.le_ediv_iff_mul_le hc).mp h1
  have h3 : ((t : Int) + 1) * c = (t : Int) * c + c := by ring
  rw [h3] at h2
  omega

theorem loop_count_exit (D c : Int) (hc : 0 < c) (h : 0 < ((D + c - 1) / c).toNat) :
    (((D + c - 1) / c).toNat : Int) * c < D + c := by
  have h0 : 0 ≤ (D + c - 1) / c := by omega
  rw [Int.toNat_of_nonneg h0]
  have := Int.ediv_mul_le (D + c - 1) (show c ≠ 0 by omega)
  omega

/-- Inside the range of `int`, with the borders inside the image, the call of
`median_channel` returns: the two `memcpy` are followed by the stores of the filter loop
at `filter_indices`. -/
theorem median_channel_run (a b : image) (r channel : Nat)
    (h : a.n_pixels = b.n_pixels ∧ b.channels ≠ 0)
    (hwin : (2 * r + 1) * (2 * r + 1) < 2 ^ 31)
    (hpad : r * a.stride + r * b.channels + channel ≤ a.n_pixels * b.channels)
    (hsize : a.n_pixels * b.channels + b.channels ≤ 2 ^ 31)
    (hlb : b.data.length = a.n_pixels * b.channels) :
    ∃ b2, b2.length = b.data.length ∧
      (∀ k, k < b.data.length →
        b2.getD k 0 =
          if k < r * a.stride + r * b.channels + channel ∨
              a.n_pixels * b.channels ≤ k + (r * a.stride + r * b.channels + channel)
          then a.data.getD k 0 else b.data.getD k 0) ∧
      median_channel a b r channel =
        some ({ a with channels := b.channels },
          { b with data := ((List.range
              ((((a.n_pixels * b.channels : Nat) : Int) -
                ((r * a.stride + r * b.channels + channel : Nat) : Int) -
                ((r * a.stride + r * b.channels + channel : Nat) : Int) +
                (b.channels : Int) - 1) / (b.channels : Int)).toNat).foldl
            (fun (d : List Nat) (t : Nat) =>
              d.set (r * a.stride + r * b.channels + channel + t * b.channels)
                (median_value { a with channels := b.channels } r
                  (r * a.stride + r * b.channels + channel + t * b.channels))) b2) }) := by
  have hch : 0 < b.channels := Nat.pos_of_ne_zero h.2
  unfold median_channel
  simp only [if_pos h]
  generalize r * a.stride + r * b.channels + channel = P at hpad ⊢
  generalize a.n_pixels * b.channels = T at hpad hsize hlb ⊢
  have hwn : wrap_int (((2 * r + 1) * (2 * r + 1) : Nat) : Int) =
      (((2 * r + 1) * (2 * r + 1) : Nat) : Int) := wrap_int_nat _ hwin
  have hwp : wrap_int ((P : Nat) : Int) = (P : Int) := wrap_int_nat _ (by omega)
  have hwi : wrap_int (((T : Nat) : Int) - (P : Int)) = (T : Int) - (P : Int) :=
    wrap_int_eq _ (by omega) (by omega)
  obtain ⟨b1, e1, l1, d1⟩ := copy_bytes_spec a.data b.data 0 (P : Int) (le_refl _)
    (Int.natCast_nonneg _) (by omega)
  obtain ⟨b2, e2, l2, d2⟩ := copy_bytes_spec a.data b1 ((T : Int) - (P : Int)) (P : Int)
    (by omega) (Int.natCast_nonneg _) (by omega)
  refine ⟨b2, l2.trans l1, fun k hk => ?_, ?_⟩
  · rw [d2 k (by rw [l1]; exact hk), d1 k hk]
    by_cases h1 : k < P
    · rw [if_pos (Or.inl h1), if_pos (⟨by omega, by omega⟩ : (0 : Int) ≤ k ∧ (k : Int) < 0 + P)]
      split_ifs <;> rfl
    · by_cases h2 : T ≤ k + P
      · rw [if_pos (Or.inr h2),
          if_pos (⟨by omega, by omega⟩ : (T : Int) - P ≤ k ∧ (k : Int) < (T : Int) - P + P)]
      · rw [if_neg (by omega), if_neg (by omega), if_neg (by omega)]
  simp only [hwn, hwp, hwi, if_true, e1, e2, Option.some_bind, Int.toNat_ofNat]
  have hc' : (0 : Int) < (b.channels : Int) := by exact_mod_cast hch
  have g1 : ∀ t < (((T : Int) - (P : Int) - (P : Int) + (b.channels : Int) - 1) /
      (b.channels : Int)).toNat, P + t * b.channels < b2.length := by
    intro t ht
    have := loop_count_bound _ _ t hc' ht
    rw [l2, l1, hlb]
    have e : ((t * b.channels : Nat) : Int) = (t : Int) * (b.channels : Int) := by push_cast; rfl
    omega
  have g2 : 0 < (((T : Int) - (P : Int) - (P : Int) + (b.channels : Int) - 1) /
      (b.channels : Int)).toNat →
      (P : Int) + ((((T : Int) - (P : Int) - (P : Int) + (b.channels : Int) - 1) /
        (b.channels : Int)).toNat : Int) * (b.channels : Int) < 2147483648 := by
    intro hpos
    have := loop_count_exit _ _ hc' hpos
    omega
  rw [if_pos ⟨g1, g2⟩]

/-- Effect of the filter loop on the output bytes: the bytes at the visited indices
`pad, pad + c, ...` receive the computed value, every other byte is left alone. -/
theorem set_loop (v : Nat → Nat) (pad c : Nat) (hc : 0 < c) (d : List Nat) :
    ∀ count : Nat,
      ((List.range count).foldl
          (fun (d : List Nat) (t : Nat) => d.set (pad + t * c) (v (pad + t * c))) d).length =
        d.length ∧
      (∀ t, t < count → pad + t * c < d.length →
        ((List.range count).foldl
          (fun (d : List Nat) (t : Nat) => d.set (pad + t * c) (v (pad + t * c))) d).getD
            (pad + t * c) 0 = v (pad + t * c)) ∧
      (∀ i, (∀ t, t < count → i ≠ pad + t * c) →
        ((List.range count).foldl
          (fun (d : List Nat) (t : Nat) => d.set (pad + t * c) (v (pad + t * c))) d).getD i 0 =
            d.getD i 0) := by
  intro count
  induction count with
  | zero =>
    refine ⟨rfl, ?_, ?_⟩
    · intro t ht; omega
    · intro i _; rfl
  | succ n ih =>
    obtain ⟨h1, h2, h3⟩ := ih
    rw [List.range_succ, List.foldl_append, List.foldl_cons, List.foldl_nil]
    refine ⟨by rw [List.length_set, h1], ?_, ?_⟩
    · intro t ht hlt
      by_cases htn : t = n
      · subst htn
        exact getD_set_eq _ _ _ (by rw [h1]; exact hlt)
      · have hne : pad + n * c ≠ pad + t * c := by
          intro h
          have : n * c = t * c := by omega
          exact htn (Nat.eq_of_mul_eq_mul_right hc this).symm
        rw [getD_set_ne _ _ _ _ hne]
        exact h2 t (by omega) hlt
    · intro i hi
      rw [getD_set_ne _ _ _ _ (fun h => hi n (Nat.lt_succ_self n) h.symm)]
      exact h3 i (fun t ht => hi t (Nat.lt_succ_of_lt ht))

theorem image_channels_eta (a : image) (c : Nat) (h : a.channels = c) :
    ({ a with channels := c } : image) = a := by
  cases a
  simp only at h
  subst h
  rfl

/-- Output of `median_channel` on one-channel images, byte by byte, with
`pad = r * stride + r`, inside the range of `int` and with the borders inside the image:
the bytes at `pad ≤ k < n_pixels - pad` hold the window median, all the others are copied
from the source. -/
theorem median_channel_gray (a b : image) (r : Nat)
    (hn : a.n_pixels = b.n_pixels) (hca : a.channels = 1) (hcb : b.channels = 1)
    (hlb : b.data.length = a.n_pixels) (hsize : a.n_pixels < 2 ^ 31)
    (hwin : (2 * r + 1) * (2 * r + 1) < 2 ^ 31) (hpad : r * a.stride + r ≤ a.n_pixels) :
    ∃ b', median_channel a b r 0 = some (a, b') ∧
      b' = { b with data := b'.data } ∧
      b'.data.length = b.data.length ∧
      ∀ k, k < b.data.length →
        b'.data.getD k 0 =
          if r * a.stride + r ≤ k ∧ k + (r * a.stride + r) < a.n_pixels
          then median_value a r k else a.data.getD k 0 := by
  have ha1 : ({ a with channels := 1 } : image) = a := image_channels_eta a 1 hca
  obtain ⟨b2, l2, d2, e⟩ := median_channel_run a b r 0 ⟨hn, by rw [hcb]; decide⟩ hwin
    (by rw [hcb]; omega) (by rw [hcb]; omega) (by rw [hcb]; omega)
  simp only [hcb, ha1, Nat.mul_one, Nat.add_zero, Nat.cast_one] at e d2
  generalize r * a.stride + r = pad at e d2 hpad ⊢
  have hcount : (((a.n_pixels : Int) - (pad : Int) - (pad : Int) + 1 - 1) / 1).toNat =
      a.n_pixels - pad - pad := by omega
  rw [hcount] at e
  obtain ⟨g1, g2, g3⟩ := set_loop (median_value a r) pad 1 (by decide) b2
    (a.n_pixels - pad - pad)
  simp only [Nat.mul_one] at g1 g2 g3
  refine ⟨_, e, ?_, ?_, ?_⟩
  · simp [hcb]
  · dsimp only
    rw [g1, l2]
  · intro k hk
    dsimp only
    by_cases hmid : pad ≤ k ∧ k + pad < a.n_pixels
    · rw [if_pos hmid]
      have := g2 (k - pad) (by omega) (by rw [l2]; omega)
      rw [show pad + (k - pad) = k by omega] at this
      exact this
    · rw [if_neg hmid]
      have := g3 k (by intro t ht; omega)
      rw [this, d2 k hk, if_pos (by omega)]

theorem flatMap_cons_perm {β : Type} (l : List Nat) (g : Nat → β) (h : Nat → List β) :
    (l.flatMap fun y => g y :: h y).Perm (l.map g ++ l.flatMap h) := by
  induction l with
  | nil => simp
  | cons y ys ih =>
    simp only [List.flatMap_cons, List.map_cons, List.cons_append]
    refine List.Perm.cons _ ?_
    refine (List.Perm.append_left (h y) ih).trans ?_
    exact List.perm_append_comm_assoc (h y) (ys.map g) (ys.flatMap h)

theorem flatMap_map_swap {β : Type} (l1 l2 : List Nat) (f : Nat → Nat → β) :
    (l1.flatMap fun k => l2.map fun y => f k y).Perm
      (l2.flatMap fun y => l1.map fun k => f k y) := by
  induction l1 with
  | nil =>
    have : (l2.flatMap fun _ => ([] : List β)) = [] := by
      induction l2 with
      | nil => rfl
      | cons y ys ih => simp
    simp [this]
  | cons k ks ih =>
    simp only [List.flatMap_cons, List.map_cons]
    refine List.Perm.trans ?_ (flatMap_cons_perm l2 (f k) (fun y => ks.map fun k => f k y)).symm
    exact List.Perm.append_left _ ih

theorem length_flatMap_const {β : Type} (l : List Nat) (f : Nat → List β) (c : Nat)
    (h : ∀ x, (f x).length = c) : (l.flatMap f).length = l.length * c := by
  induction l with
  | nil => simp
  | cons x xs ih =>
    rw [List.flatMap_cons, List.length_append, ih, h x, List.length_cons, Nat.succ_mul]
    omega

theorem median_window_length (a : image) (r i : Nat) :
    (median_window a r i).length = (2 * r + 1) * (2 * r + 1) := by
  unfold median_window
  rw [length_flatMap_const _ _ (2 * r + 1) (fun x => by simp), List.length_range]

/-- Byte of the window for the loop counters `kk`, `yy` at a byte index `k` that has `pad`
bytes before it and, with `pad` more, stays in the range of `int`. -/
theorem window_entry (a : image) (r k kk yy : Nat)
    (hc : a.channels = 1) (hs : a.stride = a.width)
    (hlo : r * a.width + r ≤ k) (hhi : k + (r * a.width + r) < 2 ^ 31)
    (hkk : kk < 2 * r + 1) (hyy : yy < 2 * r + 1) :
    read_at a.data
        (wrap_int ((k : Int) + ((kk : Int) - (r : Int)) * (a.channels : Int) +
          ((yy : Int) - (r : Int)) * (a.stride : Int))) =
      a.data.getD (k - (r * a.width + r) + yy * a.width + kk) 0 := by
  have h1 : yy * a.width ≤ 2 * r * a.width := Nat.mul_le_mul_right _ (by omega)
  have h2 : 2 * r * a.width = r * a.width + r * a.width := by
    rw [Nat.mul_assoc, Nat.two_mul]
  have e : (k : Int) + ((kk : Int) - (r : Int)) * (a.channels : Int) +
      ((yy : Int) - (r : Int)) * (a.stride : Int) =
      ((k - (r * a.width + r) + yy * a.width + kk : Nat) : Int) := by
    rw [hc, hs, Nat.cast_add, Nat.cast_add, Nat.cast_sub hlo]
    push_cast
    ring
  rw [e, wrap_int_nat _ (by omega)]
  unfold read_at
  rw [if_neg (by omega), Int.toNat_ofNat]

theorem median_window_line (a : image) (r k : Nat)
    (hc : a.channels = 1) (hs : a.stride = a.width)
    (hlo : r * a.width + r ≤ k) (hhi : k + (r * a.width + r) < 2 ^ 31) :
    (median_window a r k).Perm (line_window a r k) := by
  have h1 : median_window a r k =
      (List.range (2 * r + 1)).flatMap fun (kk : Nat) =>
        (List.range (2 * r + 1)).map fun (yy : Nat) =>
          a.data.getD (k - (r * a.width + r) + yy * a.width + kk) 0 := by
    unfold median_window
    apply List.flatMap_congr
    intro kk hkk
    apply List.map_congr_left
    intro yy hyy
    rw [List.mem_range] at hkk hyy
    exact window_entry a r k kk yy hc hs hlo hhi hkk hyy
  rw [h1]
  exact flatMap_map_swap _ _
    (fun kk yy => a.data.getD (k - (r * a.width + r) + yy * a.width + kk) 0)

/-- At an interior pixel the window over the long array is the square neighbourhood. -/
theorem line_window_interior (a : image) (r row col : Nat) (hrow : r ≤ row) (hcol : r ≤ col) :
    line_window a r (row * a.width + col) = neighbourhood a r row col := by
  unfold line_window neighbourhood
  apply List.flatMap_congr
  intro dy _
  apply List.map_congr_left
  intro dx _
  obtain ⟨row', rfl⟩ := Nat.exists_eq_add_of_le hrow
  obtain ⟨col', rfl⟩ := Nat.exists_eq_add_of_le hcol
  congr 1
  rw [Nat.add_sub_cancel_left, Nat.add_sub_cancel_left]
  have : (r + row') * a.width + (r + col') - (r * a.width + r) = row' * a.width + col' := by
    rw [Nat.add_mul]
    omega
  rw [this, Nat.add_mul]
  omega

/-- The value stored by the filter loop is the middle byte of every sorted arrangement of
the window. -/
theorem median_value_sorted (a : image) (r k : Nat)
    (hwin : (2 * r + 1) * (2 * r + 1) < 2 ^ 31) (l : List Nat)
    (hl : l.Perm (median_window a r k)) (hsorted : l.Sorted (· ≤ ·)) :
    median_value a r k = l.getD ((2 * r + 1) * (2 * r + 1) / 2) 0 := by
  obtain ⟨s, e, s1, s2⟩ := insertion_sort_sorts (median_window a r k)
    ((2 * r + 1) * (2 * r + 1)) (median_window_length a r _) (by omega)
  unfold median_value
  rw [e]
  show s.getD _ 0 = _
  rw [List.eq_of_perm_of_sorted (s2.trans hl.symm) s1 hsorted]

/-- On a window whose reads all fall inside a constant image the median is that constant. -/
theorem median_value_const (a : image) (r k v : Nat)
    (hc : a.channels = 1) (hs : a.stride = a.width) (hconst : ∀ x ∈ a.data, x = v)
    (hwin : (2 * r + 1) * (2 * r + 1) < 2 ^ 31)
    (hlo : r * a.width + r ≤ k) (hhi : k + (r * a.width + r) < a.data.length)
    (hsize : a.data.length < 2 ^ 31) :
    median_value a r k = v := by
  obtain ⟨s, e, _, s2⟩ := insertion_sort_sorts (median_window a r k)
    ((2 * r + 1) * (2 * r + 1)) (median_window_length a r _) (by omega)
  have hwinv : ∀ x ∈ median_window a r k, x = v := by
    intro x hx
    have hx2 := (median_window_line a r k hc hs hlo (by omega)).mem_iff.mp hx
    unfold line_window at hx2
    rw [List.mem_flatMap] at hx2
    obtain ⟨dy, hdy, hx2⟩ := hx2
    rw [List.mem_map] at hx2
    obtain ⟨dx, hdx, rfl⟩ := hx2
    rw [List.mem_range] at hdy hdx
    have h1 : dy * a.width ≤ 2 * r * a.width := Nat.mul_le_mul_right _ (by omega)
    have h2 : 2 * r * a.width = r * a.width + r * a.width := by
      rw [Nat.mul_assoc, Nat.two_mul]
    rw [List.getD_eq_getElem _ _ (by omega)]
    exact hconst _ (List.getElem_mem _)
  unfold median_value
  rw [e]
  show s.getD _ 0 = v
  have hlen : s.length = (2 * r + 1) * (2 * r + 1) := by
    rw [s2.length_eq, median_window_length]
  have hpos : 0 < (2 * r + 1) * (2 * r + 1) := Nat.mul_pos (by omega) (by omega)
  rw [List.getD_eq_getElem _ _ (by rw [hlen]; exact Nat.div_lt_self hpos (by decide))]
  exact hwinv _ (s2.mem_iff.mp (List.getElem_mem _))

/-- Filtering a constant one-channel image returns the same bytes. -/
theorem median_channel_const (a b : image) (r v : Nat)
    (hca : a.channels = 1) (hcb : b.channels = 1) (hs : a.stride = a.width)
    (hnb : a.n_pixels = b.n_pixels)
    (hla : a.data.length = a.n_pixels) (hlb : b.data.length = a.n_pixels)
    (hconst : ∀ x ∈ a.data, x = v) (hsize : a.n_pixels < 2 ^ 31)
    (hwin : (2 * r + 1) * (2 * r + 1) < 2 ^ 31) (hpad : r * a.width + r ≤ a.n_pixels) :
    ∃ b', median_channel a b r 0 = some (a, b') ∧ b' = { b with data := b'.data } ∧
      b'.data = a.data := by
  obtain ⟨b', e, hshape, hlen, hdata⟩ := median_channel_gray a b r hnb hca hcb hlb hsize hwin
    (by rw [hs]; exact hpad)
  refine ⟨b', e, hshape, ?_⟩
  apply List.ext_getElem (by rw [hlen, hlb, hla])
  intro k h1 h2
  have := hdata k (by rw [← hlen]; exact h1)
  rw [List.getD_eq_getElem _ _ h1] at this
  rw [this, hs]
  split_ifs with hmid
  · rw [median_value_const a r k v hca hs hconst hwin hmid.1 (by rw [hla]; exact hmid.2)
      (by rw [hla]; exact hsize)]
    exact (hconst _ (List.getElem_mem h2)).symm
  · exact List.getD_eq_getElem _ _ h2

/-- A window of `2^31` bytes or more does not fit the `int` size `n` of the array
`win[n]`: the call has no result. -/
theorem median_channel_window_overflow (a b : image) (r channel : Nat)
    (h : 2 ^ 31 ≤ (2 * r + 1) * (2 * r + 1)) : median_channel a b r channel = none := by
  have hne : ¬ wrap_int (((2 * r + 1) * (2 * r + 1) : Nat) : Int) =
      (((2 * r + 1) * (2 * r + 1) : Nat) : Int) := by
    have h1 := (wrap_int_range (((2 * r + 1) * (2 * r + 1) : Nat) : Int)).2
    have h2 : (2 : Int) ^ 31 ≤ (((2 * r + 1) * (2 * r + 1) : Nat) : Int) := by exact_mod_cast h
    omega
  unfold median_channel
  simp only [if_neg hne]
  split_ifs <;> rfl

/-- C17: for a one-channel image and an interior pixel `(row, col)`, with
`r ≤ row < height - r` and `r ≤ col < width - r`, `median_channel` stores at that pixel
the true median of the square neighbourhood: byte `(2r+1)^2 / 2` of every sorted
arrangement of the neighbourhood bytes, in whatever order they are gathered. -/
theorem median_interior_pixel (a b : image) (r row col : Nat)
    (hca : a.channels = 1) (hcb : b.channels = 1) (hs : a.stride = a.width)
    (hpix : a.n_pixels = a.height * a.width) (hnb : a.n_pixels = b.n_pixels)
    (hlb : b.data.length = a.n_pixels) (hsize : a.n_pixels < 2 ^ 31)
    (hrow : r ≤ row) (hrow2 : row + r < a.height)
    (hcol : r ≤ col) (hcol2 : col + r < a.width) :
    ∃ b', median_channel a b r 0 = some (a, b') ∧
      ∀ l : List Nat, l.Perm (neighbourhood a r row col) → l.Sorted (· ≤ ·) →
        b'.data.getD (row * a.width + col) 0 = l.getD ((2 * r + 1) * (2 * r + 1) / 2) 0 := by
  have hw : (2 * r + 1) ≤ a.width := by omega
  have hh : (2 * r + 1) ≤ a.height := by omega
  have hn : (2 * r + 1) * (2 * r + 1) ≤ a.n_pixels := by
    rw [hpix]; exact Nat.mul_le_mul hh hw
  have h1 : row * a.width + a.width ≤ (a.height - r) * a.width := by
    have : (row + 1) * a.width ≤ (a.height - r) * a.width :=
      Nat.mul_le_mul_right _ (by omega)
    rw [Nat.succ_mul] at this
    exact this
  have h2 : (a.height - r) * a.width + r * a.width = a.height * a.width := by
    rw [← Nat.add_mul, Nat.sub_add_cancel (by omega)]
  have h3 : r * a.width ≤ row * a.width := Nat.mul_le_mul_right _ hrow
  obtain ⟨b', e, _, _, hdata⟩ := median_channel_gray a b r hnb hca hcb hlb hsize (by omega)
    (by rw [hs, hpix]; omega)
  refine ⟨b', e, ?_⟩
  intro l hl hsorted
  rw [hdata (row * a.width + col) (by rw [hlb, hpix]; omega), hs,
    if_pos ⟨by omega, by rw [hpix]; omega⟩]
  have hperm : (median_window a r (row * a.width + col)).Perm (neighbourhood a r row col) := by
    rw [← line_window_interior a r row col hrow hcol]
    exact median_window_line a r _ hca hs (by omega) (by rw [hpix] at hsize; omega)
  exact median_value_sorted a r _ (by omega) l (hl.trans hperm.symm) hsorted

/-- Witness of C17: pixel `(1, 1)` of a 4 x 4 image with radius 1. -/
theorem median_interior_pixel_witness :
    ((gray_image 4 4 [1, 2, 3, 4, 5, 6, 7, 8, 9, 10, 11, 12, 13, 14, 15, 16]).channels = 1 ∧
      (gray_image 4 4 (List.replicate 16 0)).channels = 1 ∧
      (gray_image 4 4 [1, 2, 3, 4, 5, 6, 7, 8, 9, 10, 11, 12, 13, 14, 15, 16]).n_pixels < 2 ^ 31 ∧
      1 ≤ 1 ∧ 1 + 1 < (gray_image 4 4
        [1, 2, 3, 4, 5, 6, 7, 8, 9, 10, 11, 12, 13, 14, 15, 16]).height) ∧
    ∃ b', median_channel (gray_image 4 4 [1, 2, 3, 4, 5, 6, 7, 8, 9, 10, 11, 12, 13, 14, 15, 16])
        (gray_image 4 4 (List.replicate 16 0)) 1 0 =
        some (gray_image 4 4 [1, 2, 3, 4, 5, 6, 7, 8, 9, 10, 11, 12, 13, 14, 15, 16], b') ∧
      ∀ l : List Nat,
        l.Perm (neighbourhood
          (gray_image 4 4 [1, 2, 3, 4, 5, 6, 7, 8, 9, 10, 11, 12, 13, 14, 15, 16]) 1 1 1) →
        l.Sorted (· ≤ ·) →
        b'.data.getD (1 * (gray_image 4 4
            [1, 2, 3, 4, 5, 6, 7, 8, 9, 10, 11, 12, 13, 14, 15, 16]).width + 1) 0 =
          l.getD ((2 * 1 + 1) * (2 * 1 + 1) / 2) 0 :=
  ⟨⟨rfl, rfl, by decide, by decide, by decide⟩,
    median_interior_pixel (gray_image 4 4 [1, 2, 3, 4, 5, 6, 7, 8, 9, 10, 11, 12, 13, 14, 15, 16])
      (gray_image 4 4 (List.replicate 16 0)) 1 1 1 rfl rfl rfl rfl rfl rfl (by decide)
      (by decide) (by decide) (by decide) (by decide)⟩

/-- C18 as stated fails: pixel `(1, 3)` of a 4 x 4 image lies in the last column, within
one column of the right edge, and holds 255; with radius 1 it is filtered (its window
wraps onto the neighbouring rows) and the output holds 0. -/
theorem median_filters_side_border :
    (median_channel (gray_image 4 4 [0, 0, 0, 0, 0, 0, 0, 255, 0, 0, 0, 0, 0, 0, 0, 0])
        (gray_image 4 4 (List.replicate 16 0)) 1 0).map
      (fun p => p.2.data.getD (1 * 4 + 3) 0) = some 0 ∧
    (gray_image 4 4 [0, 0, 0, 0, 0, 0, 0, 255, 0, 0, 0, 0, 0, 0, 0, 0]).data.getD (1 * 4 + 3) 0
      = 255 := by
  constructor <;> decide

/-- C18 (amended): for a one-channel image of fewer than `2^31` pixels, source and
output buffers of `n_pixels` bytes, and a radius `r` with `(2r+1)^2 < 2^31` and
`pad = r * width + r ≤ n_pixels`, the first `pad` bytes and the
last `pad` bytes of the output are bit-identical to the source; these cover every pixel
within `r` rows of the top or bottom edge. Every other byte, which includes the pixels
within `r` columns of the left or right edge in the rows between, is filtered: it receives
the median of the `(2r+1)^2` source bytes at the offsets `dx + dy * width` in the image
seen as one long array, a window that wraps onto the neighbouring rows. -/
theorem median_pad_copied (a b : image) (r : Nat)
    (hca : a.channels = 1) (hcb : b.channels = 1) (hs : a.stride = a.width)
    (hpix : a.n_pixels = a.height * a.width) (hnb : a.n_pixels = b.n_pixels)
    (_hla : a.data.length = a.n_pixels) (hlb : b.data.length = a.n_pixels)
    (hsize : a.n_pixels < 2 ^ 31)
    (hwin : (2 * r + 1) * (2 * r + 1) < 2 ^ 31) (hpad : r * a.width + r ≤ a.n_pixels) :
    ∃ b', median_channel a b r 0 = some (a, b') ∧
      (∀ k, k < a.n_pixels → (k < r * a.width + r ∨ a.n_pixels ≤ k + (r * a.width + r)) →
        b'.data.getD k 0 = a.data.getD k 0) ∧
      (∀ row col, row < a.height → col < a.width → (row < r ∨ a.height ≤ row + r) →
        b'.data.getD (row * a.width + col) 0 = a.data.getD (row * a.width + col) 0) ∧
      (∀ k, r * a.width + r ≤ k → k + (r * a.width + r) < a.n_pixels →
        ∀ l : List Nat, l.Perm (line_window a r k) → l.Sorted (· ≤ ·) →
          b'.data.getD k 0 = l.getD ((2 * r + 1) * (2 * r + 1) / 2) 0) := by
  obtain ⟨b', e, _, _, hdata⟩ := median_channel_gray a b r hnb hca hcb hlb hsize hwin
    (by rw [hs]; exact hpad)
  have hidx : ∀ k, k < a.n_pixels →
      (k < r * a.width + r ∨ a.n_pixels ≤ k + (r * a.width + r)) →
      b'.data.getD k 0 = a.data.getD k 0 := by
    intro k hk hpad
    rw [hdata k (by rw [hlb]; exact hk), hs, if_neg (by omega)]
  refine ⟨b', e, hidx, ?_, ?_⟩
  · intro row col hrow hcol hedge
    have hlt : row * a.width + col < a.n_pixels := by
      have : (row + 1) * a.width ≤ a.height * a.width := Nat.mul_le_mul_right _ (by omega)
      rw [Nat.succ_mul] at this
      rw [hpix]; omega
    refine hidx _ hlt ?_
    rcases hedge with h | h
    · left
      have : (row + 1) * a.width ≤ r * a.width := Nat.mul_le_mul_right _ (by omega)
      rw [Nat.succ_mul] at this
      omega
    · right
      have : a.height * a.width ≤ (row + r) * a.width := Nat.mul_le_mul_right _ h
      rw [Nat.add_mul] at this
      rw [hpix]; omega
  · intro k hlo hhi l hl hsorted
    rw [hdata k (by rw [hlb]; omega), hs, if_pos ⟨hlo, hhi⟩]
    exact median_value_sorted a r k hwin l
      (hl.trans (median_window_line a r k hca hs hlo (by omega)).symm) hsorted

/-- Witness of C18 (amended): byte 2 (top row) of a 4 x 4 image with radius 1 is copied,
and byte 7 (row 1, last column) receives the median 0 of its window. -/
theorem median_pad_copied_witness :
    ((gray_image 4 4 [0, 0, 0, 0, 0, 0, 0, 255, 0, 0, 0, 0, 0, 0, 0, 0]).channels = 1 ∧
      (gray_image 4 4 (List.replicate 16 7)).channels = 1 ∧
      (gray_image 4 4 [0, 0, 0, 0, 0, 0, 0, 255, 0, 0, 0, 0, 0, 0, 0, 0]).n_pixels < 2 ^ 31 ∧
      (2 * 1 + 1) * (2 * 1 + 1) < 2 ^ 31 ∧
      1 * (gray_image 4 4 [0, 0, 0, 0, 0, 0, 0, 255, 0, 0, 0, 0, 0, 0, 0, 0]).width + 1 ≤
        (gray_image 4 4 [0, 0, 0, 0, 0, 0, 0, 255, 0, 0, 0, 0, 0, 0, 0, 0]).n_pixels ∧
      2 < (gray_image 4 4 [0, 0, 0, 0, 0, 0, 0, 255, 0, 0, 0, 0, 0, 0, 0, 0]).n_pixels ∧
      2 < 1 * (gray_image 4 4 [0, 0, 0, 0, 0, 0, 0, 255, 0, 0, 0, 0, 0, 0, 0, 0]).width + 1) ∧
    ∃ b', median_channel (gray_image 4 4 [0, 0, 0, 0, 0, 0, 0, 255, 0, 0, 0, 0, 0, 0, 0, 0])
        (gray_image 4 4 (List.replicate 16 7)) 1 0 =
        some (gray_image 4 4 [0, 0, 0, 0, 0, 0, 0, 255, 0, 0, 0, 0, 0, 0, 0, 0], b') ∧
      b'.data.getD 2 0 =
        (gray_image 4 4 [0, 0, 0, 0, 0, 0, 0, 255, 0, 0, 0, 0, 0, 0, 0, 0]).data.getD 2 0 ∧
      b'.data.getD 7 0 = 0 := by
  obtain ⟨b', e, h, _, h3⟩ := median_pad_copied
    (gray_image 4 4 [0, 0, 0, 0, 0, 0, 0, 255, 0, 0, 0, 0, 0, 0, 0, 0])
    (gray_image 4 4 (List.replicate 16 7)) 1 rfl rfl rfl rfl rfl rfl rfl (by decide)
    (by decide) (by decide)
  refine ⟨⟨rfl, rfl, by decide, by decide, by decide, by decide, by decide⟩, b', e,
    h 2 (by decide) (Or.inl (by decide)), ?_⟩
  exact h3 7 (by decide) (by decide) [0, 0, 0, 0, 0, 0, 0, 0, 255] (by decide) (by decide)

/-- C19 as stated fails: a constant image of 46341 rows of one pixel holds `2r + 1` rows
for `r = 23170`, but the window size `(2r+1)^2 = 2147488281` does not fit an `int`: `n`
wraps to a negative number, the array `win[n]` has no valid size and the call has no
result. -/
theorem median_window_size_wraps :
    (gray_image 1 46341 (List.replicate 46341 7)).channels = 1 ∧
    (∀ x ∈ (gray_image 1 46341 (List.replicate 46341 7)).data, x = 7) ∧
    2 * 23170 + 1 ≤ (gray_image 1 46341 (List.replicate 46341 7)).height ∧
    wrap_int ((2 * 23170 + 1) * (2 * 23170 + 1)) = -2147479015 ∧
    median_channel (gray_image 1 46341 (List.replicate 46341 7))
      (gray_image 1 46341 (List.replicate 46341 0)) 23170 0 = none := by
  refine ⟨rfl, fun x hx => List.eq_of_mem_replicate hx, ?_, by decide,
    median_channel_window_overflow _ _ _ _ (by norm_num)⟩
  show 2 * 23170 + 1 ≤ 46341
  norm_num

/-- C19 (amended): the median filter is idempotent on a constant image inside the range
of `int`. For a one-channel image of fewer than `2^31` pixels, at least one column wide,
whose bytes all equal `v`, and a radius `r` with at least `2r + 1` rows and
`(2r+1)^2 < 2^31`, the output equals the input at every position, and filtering the
output again returns the same bytes. -/
theorem median_idempotent_on_constant (a b : image) (r v : Nat)
    (hca : a.channels = 1) (hcb : b.channels = 1)
    (hs : a.stride = a.width) (hsb : b.stride = b.width) (hwb : b.width = a.width)
    (hpix : a.n_pixels = a.height * a.width) (hnb : a.n_pixels = b.n_pixels)
    (hla : a.data.length = a.n_pixels) (hlb : b.data.length = a.n_pixels)
    (hconst : ∀ x ∈ a.data, x = v) (hrows : 2 * r + 1 ≤ a.height) (hcols : 0 < a.width)
    (hsize : a.n_pixels < 2 ^ 31) (hwin : (2 * r + 1) * (2 * r + 1) < 2 ^ 31) :
    ∃ b', median_channel a b r 0 = some (a, b') ∧ b'.data = a.data ∧
      ∃ a', median_channel b' a r 0 = some (b', a') ∧ a'.data = b'.data := by
  have hpad : r * a.width + r ≤ a.n_pixels := by
    have h1 : (2 * r + 1) * a.width ≤ a.height * a.width := Nat.mul_le_mul_right _ hrows
    have h2 : (2 * r + 1) * a.width = r * a.width + r * a.width + a.width := by ring
    have h3 : r * 1 ≤ r * a.width := Nat.mul_le_mul_left _ hcols
    rw [hpix]
    omega
  obtain ⟨b', e, hshape, hd⟩ := median_channel_const a b r v hca hcb hs hnb hla hlb hconst
    hsize hwin hpad
  have hcb' : b'.channels = 1 := by rw [hshape]; exact hcb
  have hnb' : b'.n_pixels = a.n_pixels := by rw [hshape]; exact hnb.symm
  have hsb' : b'.stride = b'.width := by rw [hshape]; exact hsb
  have hwb' : b'.width = a.width := by rw [hshape]; exact hwb
  obtain ⟨a', e', _, hd'⟩ := median_channel_const b' a r v hcb' hca hsb' hnb'
    (by rw [hd, hla, hnb']) (by rw [hla, hnb']) (by rw [hd]; exact hconst)
    (by rw [hnb']; exact hsize) hwin (by rw [hwb', hnb']; exact hpad)
  exact ⟨b', e, hd, a', e', hd'⟩

/-- Witness of C19 (amended): a 3 x 3 image of sevens with radius 1. -/
theorem median_idempotent_on_constant_witness :
    ((gray_image 3 3 (List.replicate 9 7)).channels = 1 ∧
      (gray_image 3 3 (List.replicate 9 0)).channels = 1 ∧
      (∀ x ∈ (gray_image 3 3 (List.replicate 9 7)).data, x = 7) ∧
      2 * 1 + 1 ≤ (gray_image 3 3 (List.replicate 9 7)).height ∧
      0 < (gray_image 3 3 (List.replicate 9 7)).width ∧
      (gray_image 3 3 (List.replicate 9 7)).n_pixels < 2 ^ 31 ∧
      (2 * 1 + 1) * (2 * 1 + 1) < 2 ^ 31) ∧
    ∃ b', median_channel (gray_image 3 3 (List.replicate 9 7))
        (gray_image 3 3 (List.replicate 9 0)) 1 0 =
        some (gray_image 3 3 (List.replicate 9 7), b') ∧
      b'.data = (gray_image 3 3 (List.replicate 9 7)).data ∧
      ∃ a', median_channel b' (gray_image 3 3 (List.replicate 9 7)) 1 0 = some (b', a') ∧
        a'.data = b'.data :=
  ⟨⟨rfl, rfl, by decide, by decide, by decide, by decide, by decide⟩,
    median_idempotent_on_constant (gray_image 3 3 (List.replicate 9 7))
      (gray_image 3 3 (List.replicate 9 0)) 1 7 rfl rfl rfl rfl rfl rfl rfl rfl rfl (by decide)
      (by decide) (by decide) (by decide) (by decide)⟩

/-! ## The background model -/

theorem n_usable_frames_eq : n_usable_frames = 40 := by decide

theorem copy_bytes_all (src dst : List Nat) (h : src.length = dst.length) :
    copy_bytes src dst 0 (dst.length : Int) = some src := by
  obtain ⟨d, e, hl, hd⟩ := copy_bytes_spec src dst 0 (dst.length : Int) (le_refl _)
    (Int.natCast_nonneg _) (by omega)
  rw [e]
  congr 1
  apply List.ext_getElem (by rw [hl, h])
  intro k h1 h2
  have := hd k (by rw [← hl]; exact h1)
  rw [if_pos (by omega), List.getD_eq_getElem _ _ h1, List.getD_eq_getElem _ _ h2] at this
  exact this

/-- Function `copy_image` on two images with the dimensions of the region of interest. -/
theorem copy_image_roi (n : Nat) (hn2 : n < 2 ^ 31) (src dst : image) (hs : roi_image n src)
    (hd : roi_image n dst) :
    copy_image src dst = some { dst with data := src.data } := by
  obtain ⟨hs1, hs2, hs3⟩ := hs
  obtain ⟨hd1, hd2, hd3⟩ := hd
  have hw : wrap_int ((src.n_pixels : Int) * (src.channels : Int)) = (dst.data.length : Int) := by
    rw [hs1, hs2, hd3, Nat.cast_one, mul_one]
    exact wrap_int_nat n hn2
  unfold copy_image
  simp only [if_pos (And.intro (hs1.trans hd1.symm) (hs2.trans hd2.symm)), hw,
    copy_bytes_all _ _ (hs3.trans hd3.symm), Option.map_some']

/-- Function `mix_images` with weight 10 on two images with the dimensions of the region of
interest. -/
theorem mix_images_roi (n : Nat) (old new : image) (ho : roi_image n old)
    (hn : roi_image n new) :
    ∃ old', mix_images old new 10 = some (old', new) ∧ roi_image n old' := by
  obtain ⟨ho1, ho2, ho3⟩ := ho
  obtain ⟨hn1, hn2, hn3⟩ := hn
  obtain ⟨old', e, h1, hl, _⟩ := mix_images_any old new 10 (by rw [ho1, hn1])
    (by rw [ho2, hn2])
  have h2 : old'.channels = old.channels := by rw [h1]
  have h3 : old'.data.length = old.data.length := hl
  replace h1 : old'.n_pixels = old.n_pixels := by rw [h1]
  exact ⟨old', e, by rw [h1, ho1], by rw [h2, ho2], by rw [h3, ho3]⟩

theorem schedule_idle (fl : image) (now : Nat) (s : capture_state)
    (h : s.need_bg_frames = 0) : background_schedule fl now s = some s := by
  unfold background_schedule
  simp [h]

theorem schedule_skip (fl : image) (now : Nat) (s : capture_state)
    (h : 40 < s.need_bg_frames) :
    background_schedule fl now s =
      some { s with last_bg_mix := now, need_bg_frames := s.need_bg_frames - 1 } := by
  unfold background_schedule
  have h0 : s.need_bg_frames ≠ 0 := by omega
  have h1 : ¬ s.need_bg_frames = 40 := by omega
  have h2 : ¬ s.need_bg_frames < 40 := by omega
  have h3 : ¬ s.need_bg_frames - 1 = 0 := by omega
  simp [h0, h1, h2, h3, n_usable_frames_eq]

theorem schedule_snapshot (n : Nat) (hn2 : n < 2 ^ 31) (fl : image) (now : Nat)
    (s : capture_state) (hs : roi_image n s.bg_finish_line) (hf : roi_image n fl)
    (h : s.need_bg_frames = 40) :
    background_schedule fl now s =
      some { s with last_bg_mix := now, bg_finish_line := { s.bg_finish_line with data := fl.data },
                    valid_image := true, need_bg_frames := 39 } := by
  unfold background_schedule
  simp [h, n_usable_frames_eq, copy_image_roi n hn2 fl s.bg_finish_line hf hs]

theorem schedule_blend (fl bg : image) (now : Nat) (s : capture_state)
    (h : s.need_bg_frames < 40) (h0 : s.need_bg_frames ≠ 0)
    (hlast : ¬ (s.need_bg_frames = 1 ∧ s.finish_line_valid = false))
    (hmix : mix_images s.bg_finish_line fl 10 = some (bg, fl)) :
    background_schedule fl now s =
      some { s with last_bg_mix := now, bg_finish_line := bg,
                    need_bg_frames := s.need_bg_frames - 1 } := by
  unfold background_schedule
  have h1 : ¬ s.need_bg_frames = 40 := by omega
  have h3 : ¬ (s.need_bg_frames - 1 = 0 ∧ s.finish_line_valid = false) := by
    intro ⟨a, b⟩
    exact hlast ⟨by omega, b⟩
  simp [h0, h1, h, n_usable_frames_eq, hmix]
  intro a b
  exact absurd ⟨a, b⟩ h3

theorem schedule_finish (n : Nat) (hn2 : n < 2 ^ 31) (fl bg : image) (now : Nat)
    (s : capture_state) (hi : roi_image n s.initial_bg_finish_line) (hbg : roi_image n bg)
    (h : s.need_bg_frames = 1) (hv : s.finish_line_valid = false)
    (hmix : mix_images s.bg_finish_line fl 10 = some (bg, fl)) :
    background_schedule fl now s =
      some { s with last_bg_mix := now, bg_finish_line := bg, need_bg_frames := 0,
                    finish_line_valid := true,
                    initial_bg_finish_line := { s.initial_bg_finish_line with data := bg.data } } := by
  unfold background_schedule
  simp [h, hv, n_usable_frames_eq, hmix,
    copy_image_roi n hn2 bg s.initial_bg_finish_line hbg hi]

theorem rearm_same_lap_fields (freq now : Nat) (s : capture_state) :
    same_lap_fields s (rearm_background freq now s) := by
  unfold rearm_background same_lap_fields
  split_ifs <;> simp

theorem rearm_fields (freq now : Nat) (s : capture_state) :
    (rearm_background freq now s).bg_finish_line = s.bg_finish_line ∧
    (rearm_background freq now s).initial_bg_finish_line = s.initial_bg_finish_line ∧
    (rearm_background freq now s).finish_line_valid = s.finish_line_valid ∧
    (rearm_background freq now s).last_bg_mix = s.last_bg_mix ∧
    (rearm_background freq now s).valid_image = s.valid_image := by
  unfold rearm_background
  split_ifs <;> simp

/-- The warm-up schedule on a state with well-shaped images returns, keeps the images
well shaped, leaves the lap timer alone and relates the background variables as
`schedule_result`. -/
theorem background_schedule_spec (n : Nat) (hn2 : n < 2 ^ 31) (fl : image) (now : Nat)
    (s : capture_state) (hs : background_shaped n s) (hf : roi_image n fl) :
    ∃ t, background_schedule fl now s = some t ∧ background_shaped n t ∧
      same_lap_fields s t ∧ schedule_result s.need_bg_frames fl now s t := by
  obtain ⟨hbg, hini⟩ := hs
  rcases lt_trichotomy s.need_bg_frames 40 with hlt | heq | hgt
  · by_cases h0 : s.need_bg_frames = 0
    · refine ⟨s, schedule_idle fl now s h0, ⟨hbg, hini⟩, ?_, ?_⟩
      · simp [same_lap_fields]
      · unfold schedule_result
        refine ⟨fun _ => ⟨rfl, h0, rfl, rfl, rfl, rfl⟩, fun h => absurd h0 h,
          fun h => by omega, fun _ => rfl, fun _ h => absurd h0 h, fun h => by omega,
          fun h => ⟨h, rfl⟩, fun _ h => by omega, fun h _ => ⟨h, rfl⟩⟩
    · obtain ⟨bg, hmix, hbg2⟩ := mix_images_roi n s.bg_finish_line fl hbg hf
      by_cases hlast : s.need_bg_frames = 1 ∧ s.finish_line_valid = false
      · refine ⟨_, schedule_finish n hn2 fl bg now s hini hbg2 hlast.1 hlast.2 hmix,
          ⟨hbg2, ?_⟩, ?_, ?_⟩
        · exact ⟨hini.1, hini.2.1, hbg2.2.2⟩
        · simp [same_lap_fields]
        · unfold schedule_result
          refine ⟨fun h => absurd h h0, fun _ => ⟨by simp [hlast.1], rfl⟩,
            fun h => by omega, fun _ => rfl, fun _ _ => hmix, fun h => by omega,
            fun h => ?_, fun _ _ => ⟨rfl, rfl⟩, fun _ h => absurd hlast.1 h⟩
          rw [hlast.2] at h
          cases h
      · refine ⟨_, schedule_blend fl bg now s hlt h0 hlast hmix, ⟨hbg2, hini⟩, ?_, ?_⟩
        · simp [same_lap_fields]
        · unfold schedule_result
          refine ⟨fun h => absurd h h0, fun _ => ⟨rfl, rfl⟩,
            fun h => by omega, fun _ => rfl, fun _ _ => hmix, fun h => by omega,
            fun h => ⟨h, rfl⟩, fun hv h => absurd ⟨h, hv⟩ hlast, fun h _ => ⟨h, rfl⟩⟩
  · refine ⟨_, schedule_snapshot n hn2 fl now s hbg hf heq, ⟨⟨hbg.1, hbg.2.1, hf.2.2⟩, hini⟩,
      ?_, ?_⟩
    · simp [same_lap_fields]
    · unfold schedule_result
      refine ⟨fun h => by omega, fun _ => ⟨by simp [heq], rfl⟩,
        fun _ => ⟨rfl, rfl⟩, fun h => absurd heq h, fun h => by omega, fun h => by omega,
        fun h => ⟨h, rfl⟩, fun _ h => by omega, fun h _ => ⟨h, rfl⟩⟩
  · refine ⟨_, schedule_skip fl now s hgt, ⟨hbg, hini⟩, ?_, ?_⟩
    · simp [same_lap_fields]
    · unfold schedule_result
      refine ⟨fun h => by omega, fun _ => ⟨rfl, rfl⟩,
        fun h => by omega, fun _ => rfl, fun h => by omega, fun _ => rfl,
        fun h => ⟨h, rfl⟩, fun _ h => by omega, fun h _ => ⟨h, rfl⟩⟩

theorem schedule_result_congr (c : Int) (fl : image) (now : Nat)
    (s t s1 t1 : capture_state) (hs : same_background s s1) (ht : same_background t t1)
    (h : schedule_result c fl now s t) : schedule_result c fl now s1 t1 := by
  obtain ⟨a1, a2, a3, a4, a5, a6⟩ := hs
  obtain ⟨b1, b2, b3, b4, b5, b6⟩ := ht
  unfold schedule_result at h ⊢
  rw [a1, a2, a3, a5, a6, b1, b2, b3, b4, b5, b6]
  exact h

theorem handle_reset_same_background (s : capture_state) (r : Bool) :
    same_background s (handle_reset { s with reset_race := r }) := by
  unfold handle_reset same_background
  split_ifs <;> simp

theorem update_lap_time_same_background (freq now : Nat) (s : capture_state) :
    same_background s (update_lap_time freq now s) := by
  unfold update_lap_time same_background
  split_ifs <;> simp

theorem log_race_same_background (ok : Bool) (s : capture_state) :
    same_background s (log_race ok s) := by
  unfold log_race same_background
  split_ifs <;> simp

theorem finish_line_check_same_background (p : Int) (now : Nat) (s : capture_state) :
    same_background s (finish_line_check p now s) := by
  rcases finish_line_check_eq p now s with h | h | h | h | ⟨_, fl, h⟩ <;>
    rw [h] <;> simp [same_background]

theorem same_background_trans (s t u : capture_state) (h1 : same_background s t)
    (h2 : same_background t u) : same_background s u := by
  exact ⟨h2.1.trans h1.1, h2.2.1.trans h1.2.1, h2.2.2.1.trans h1.2.2.1,
    h2.2.2.2.1.trans h1.2.2.2.1, h2.2.2.2.2.1.trans h1.2.2.2.2.1,
    h2.2.2.2.2.2.trans h1.2.2.2.2.2⟩

/-- The lap timer writes no background variable. -/
theorem lap_tick_same_background (freq : Nat) (s : capture_state) (t : tick) :
    same_background s (lap_tick freq s t) := by
  unfold lap_tick
  apply same_background_trans _ _ _ _ (log_race_same_background _ _)
  split_ifs
  · exact same_background_trans _ _ _ (update_lap_time_same_background _ _ _)
      (finish_line_check_same_background _ _ _)
  · exact update_lap_time_same_background _ _ _

theorem background_shaped_congr (n : Nat) (s t : capture_state) (h : same_background s t)
    (hs : background_shaped n s) : background_shaped n t := by
  obtain ⟨a1, a2, _⟩ := h
  unfold background_shaped at hs ⊢
  rw [a1, a2]
  exact hs

theorem frame_counter_reset (freq : Nat) (s : capture_state) (f : frame) (r : Bool) :
    (rearm_background freq f.now (handle_reset { s with reset_race := r })).need_bg_frames =
      frame_counter freq s f := by
  obtain ⟨_, _, _, a4, a5, _⟩ := handle_reset_same_background s r
  unfold frame_counter rearm_background
  rw [a5, a4]
  split_ifs <;> simp [a4]

theorem rearm_same_background (freq now : Nat) (s s1 : capture_state)
    (h : same_background s s1) :
    (rearm_background freq now s1).bg_finish_line = s.bg_finish_line ∧
    (rearm_background freq now s1).initial_bg_finish_line = s.initial_bg_finish_line ∧
    (rearm_background freq now s1).finish_line_valid = s.finish_line_valid ∧
    (rearm_background freq now s1).last_bg_mix = s.last_bg_mix ∧
    (rearm_background freq now s1).valid_image = s.valid_image := by
  obtain ⟨a1, a2, a3, _, a5, a6⟩ := h
  obtain ⟨b1, b2, b3, b5, b6⟩ := rearm_fields freq now s1
  exact ⟨b1.trans a1, b2.trans a2, b3.trans a3, b5.trans a5, b6.trans a6⟩

theorem percent_diff_some (n : Nat) (a b c : image) (thr : Int) (hn : 0 < n)
    (hn2 : n < 2 ^ 31) (ha : roi_image n a) (hb : roi_image n b) :
    ∃ p, percent_diff_images a b c thr = some p := by
  have h := percent_diff_value a b c thr (by rw [ha.1, hb.1]) ha.2.1 hb.2.1
    (by rw [ha.1]; exact hn) (by rw [ha.1]; exact hn2)
  cases hp : percent_diff_images a b c thr with
  | none => rw [hp] at h; cases h
  | some p => exact ⟨p, rfl⟩

/-- One iteration of the capture loop on well-shaped images: it returns, it is the lap
timer applied to the state `t` left by the warm-up schedule, and the background
variables of `t` relate to those before the iteration as `schedule_result`. -/
theorem capture_frame_spec (n freq : Nat) (s : capture_state) (f : frame) (hn : 0 < n)
    (hn2 : n < 2 ^ 31) (hs : background_shaped n s) (hf : frame_shaped n f) :
    ∃ t p, capture_frame freq s f =
        some (lap_tick freq t { percent := p, now := f.now, fopen_ok := f.fopen_ok }) ∧
      background_shaped n t ∧
      same_lap_fields (handle_reset { s with reset_race := s.reset_race || f.reset_request }) t ∧
      schedule_result (frame_counter freq s f) f.finish_line f.now s t := by
  have hb := handle_reset_same_background s (s.reset_race || f.reset_request)
  have hr := rearm_same_background freq f.now s _ hb
  have hshape : background_shaped n (rearm_background freq f.now
      (handle_reset { s with reset_race := s.reset_race || f.reset_request })) := by
    unfold background_shaped
    rw [hr.1, hr.2.1]
    exact hs
  obtain ⟨t, e, hts, htl, htr⟩ :=
    background_schedule_spec n hn2 f.finish_line f.now _ hshape hf.1
  rw [frame_counter_reset] at htr
  have hrel : schedule_result (frame_counter freq s f) f.finish_line f.now s t := by
    obtain ⟨r1, r2, r3, r5, r6⟩ := hr
    unfold schedule_result at htr ⊢
    rw [r1, r2, r3, r5, r6] at htr
    exact htr
  have hl : same_lap_fields (handle_reset { s with reset_race := s.reset_race || f.reset_request }) t := by
    obtain ⟨a1, a2, a3, a4, a5, a6, a7, a8, a9⟩ := rearm_same_lap_fields freq f.now
      (handle_reset { s with reset_race := s.reset_race || f.reset_request })
    obtain ⟨b1, b2, b3, b4, b5, b6, b7, b8, b9⟩ := htl
    exact ⟨b1.trans a1, b2.trans a2, b3.trans a3, b4.trans a4, b5.trans a5, b6.trans a6,
      b7.trans a7, b8.trans a8, b9.trans a9⟩
  cases hv : t.finish_line_valid
  · refine ⟨t, 0, ?_, hts, hl, hrel⟩
    unfold capture_frame
    simp only [e, Option.some_bind, hv]
    rfl
  · obtain ⟨p, hp⟩ := percent_diff_some n f.finish_line t.bg_finish_line f.tmp_finish_line
      motion_threshold hn hn2 hf.1 hts.1
    refine ⟨t, p.1, ?_, hts, hl, hrel⟩
    unfold capture_frame
    simp only [e, Option.some_bind, hv, hp]
    rfl

/-- Background variables after one iteration of the capture loop. -/
theorem capture_frame_background (n freq : Nat) (s : capture_state) (f : frame) (hn : 0 < n)
    (hn2 : n < 2 ^ 31) (hs : background_shaped n s) (hf : frame_shaped n f) :
    ∃ s', capture_frame freq s f = some s' ∧ background_shaped n s' ∧
      schedule_result (frame_counter freq s f) f.finish_line f.now s s' := by
  obtain ⟨t, p, e, hts, _, hrel⟩ := capture_frame_spec n freq s f hn hn2 hs hf
  have hb := lap_tick_same_background freq t { percent := p, now := f.now, fopen_ok := f.fopen_ok }
  refine ⟨_, e, background_shaped_congr n _ _ hb hts, ?_⟩
  exact schedule_result_congr _ _ _ s t s _ ⟨rfl, rfl, rfl, rfl, rfl, rfl⟩ hb hrel

theorem frame_counter_paced (freq : Nat) (s : capture_state) (f : frame)
    (h : u64_sub f.now s.last_bg_mix ≤ bg_mix_count freq) :
    frame_counter freq s f = s.need_bg_frames := by
  unfold frame_counter rearm_background
  rw [if_neg (by omega)]

theorem frame_counter_rearm (freq : Nat) (s : capture_state) (f : frame)
    (h : u64_sub f.now s.last_bg_mix > bg_mix_count freq) :
    frame_counter freq s f = s.need_bg_frames + 1 := by
  unfold frame_counter rearm_background
  rw [if_pos h]

theorem capture_run_append (freq : Nat) (fs gs : List frame) :
    ∀ s : capture_state, capture_run freq s (fs ++ gs) =
      (capture_run freq s fs).bind fun s1 => capture_run freq s1 gs := by
  induction fs with
  | nil => intro s; rfl
  | cons f rest ih =>
    intro s
    show (capture_frame freq s f).bind _ = ((capture_frame freq s f).bind _).bind _
    cases capture_frame freq s f with
    | none => rfl
    | some s1 => exact ih s1

theorem paced_append (freq : Nat) (fs gs : List frame) :
    ∀ prev : Nat, paced freq prev (fs ++ gs) ↔
      (paced freq prev fs ∧ paced freq (last_now prev fs) gs) := by
  induction fs with
  | nil => intro prev; simp [paced, last_now]
  | cons f rest ih =>
    intro prev
    show (_ ∧ paced freq f.now (rest ++ gs)) ↔ ((_ ∧ paced freq f.now rest) ∧ _)
    rw [ih f.now, and_assoc]
    rfl

/-- Counter and flags while the warm-up counter runs down without idle re-arm. -/
theorem warmup_prefix (n freq : Nat) (hn : 0 < n) (hn2 : n < 2 ^ 31) (fs : List frame) :
    ∀ s : capture_state, background_shaped n s → s.finish_line_valid = false →
      0 < s.need_bg_frames → (∀ f ∈ fs, frame_shaped n f) → paced freq s.last_bg_mix fs →
      (fs.length : Int) ≤ s.need_bg_frames →
      ∃ s', capture_run freq s fs = some s' ∧ background_shaped n s' ∧
        s'.need_bg_frames = s.need_bg_frames - fs.length ∧
        s'.finish_line_valid = decide ((fs.length : Int) = s.need_bg_frames) ∧
        s'.last_bg_mix = last_now s.last_bg_mix fs := by
  induction fs with
  | nil =>
    intro s hs hv hc _ _ _
    refine ⟨s, rfl, hs, by simp, ?_, rfl⟩
    rw [hv]
    simp
    omega
  | cons f rest ih =>
    intro s hs hv hc hfs hp hlen
    obtain ⟨hp1, hp2⟩ := hp
    obtain ⟨s1, e1, hs1, hrel⟩ := capture_frame_background n freq s f hn hn2 hs
      (hfs f (List.mem_cons_self _ _))
    rw [frame_counter_paced freq s f hp1] at hrel
    obtain ⟨_, r2, _, _, _, _, _, r8, r9⟩ := hrel
    obtain ⟨r2a, r2b⟩ := r2 (by omega)
    have hrun : capture_run freq s (f :: rest) = capture_run freq s1 rest := by
      show (capture_frame freq s f).bind _ = _
      rw [e1]
      rfl
    rw [hrun]
    simp only [List.length_cons, Nat.cast_add, Nat.cast_one] at hlen ⊢
    by_cases h1 : s.need_bg_frames = 1
    · have hr : rest = [] := by
        apply List.eq_nil_of_length_eq_zero
        omega
      subst hr
      refine ⟨s1, rfl, hs1, by rw [r2a]; simp, ?_, r2b⟩
      rw [(r8 hv h1).1]
      simp [h1]
    · obtain ⟨s', e', hs', a1, a2, a3⟩ := ih s1 hs1 (r9 hv h1).1 (by omega)
        (fun g hg => hfs g (List.mem_cons_of_mem _ hg)) (by rw [r2b]; exact hp2) (by omega)
      refine ⟨s', e', hs', by rw [a1, r2a]; omega, ?_, by rw [a3, r2b]; rfl⟩
      rw [a2, r2a]
      apply decide_eq_decide.mpr
      constructor <;> intro h <;> omega

/-- Frames processed with a counter above the usable threshold leave the reference, the
initial reference and both flags alone. -/
theorem skip_run_reference (n freq : Nat) (hn : 0 < n) (hn2 : n < 2 ^ 31) (fs : List frame) :
    ∀ s s' : capture_state, background_shaped n s → (∀ f ∈ fs, frame_shaped n f) →
      paced freq s.last_bg_mix fs → 40 + (fs.length : Int) ≤ s.need_bg_frames →
      capture_run freq s fs = some s' →
      s'.bg_finish_line = s.bg_finish_line ∧ s'.valid_image = s.valid_image ∧
        s'.initial_bg_finish_line = s.initial_bg_finish_line := by
  induction fs with
  | nil =>
    intro s s' _ _ _ _ e
    cases e
    exact ⟨rfl, rfl, rfl⟩
  | cons f rest ih =>
    intro s s' hs hfs hp hlen e
    obtain ⟨hp1, hp2⟩ := hp
    obtain ⟨s1, e1, hs1, hrel⟩ := capture_frame_background n freq s f hn hn2 hs
      (hfs f (List.mem_cons_self _ _))
    rw [frame_counter_paced freq s f hp1] at hrel
    simp only [List.length_cons, Nat.cast_add, Nat.cast_one] at hlen
    obtain ⟨_, r2, _, r4, _, r6, r7, _, r9⟩ := hrel
    obtain ⟨r2a, r2b⟩ := r2 (by omega)
    have hrun : capture_run freq s (f :: rest) = capture_run freq s1 rest := by
      show (capture_frame freq s f).bind _ = _
      rw [e1]
      rfl
    rw [hrun] at e
    obtain ⟨a1, a2, a3⟩ := ih s1 s' hs1 (fun g hg => hfs g (List.mem_cons_of_mem _ hg))
      (by rw [r2b]; exact hp2) (by omega) e
    refine ⟨by rw [a1, r6 (by omega)], by rw [a2, r4 (by omega)], ?_⟩
    rw [a3]
    cases hv : s.finish_line_valid
    · exact (r9 hv (by omega)).2
    · exact (r7 hv).2

/-- Frames processed with a non-zero counter below the usable threshold blend their
regions of interest into the reference, in order. -/
theorem blend_run_reference (n freq : Nat) (hn : 0 < n) (hn2 : n < 2 ^ 31) (fs : List frame) :
    ∀ s s' : capture_state, background_shaped n s → (∀ f ∈ fs, frame_shaped n f) →
      paced freq s.last_bg_mix fs → (fs.length : Int) ≤ s.need_bg_frames →
      s.need_bg_frames < 40 → capture_run freq s fs = some s' →
      blend_list (fs.map fun f => f.finish_line) s.bg_finish_line = some s'.bg_finish_line ∧
        s'.valid_image = s.valid_image := by
  induction fs with
  | nil =>
    intro s s' _ _ _ _ _ e
    cases e
    exact ⟨rfl, rfl⟩
  | cons f rest ih =>
    intro s s' hs hfs hp hlen hlt e
    obtain ⟨hp1, hp2⟩ := hp
    obtain ⟨s1, e1, hs1, hrel⟩ := capture_frame_background n freq s f hn hn2 hs
      (hfs f (List.mem_cons_self _ _))
    rw [frame_counter_paced freq s f hp1] at hrel
    simp only [List.length_cons, Nat.cast_add, Nat.cast_one] at hlen
    obtain ⟨_, r2, _, r4, r5, _, _, _, _⟩ := hrel
    obtain ⟨r2a, r2b⟩ := r2 (by omega)
    have hrun : capture_run freq s (f :: rest) = capture_run freq s1 rest := by
      show (capture_frame freq s f).bind _ = _
      rw [e1]
      rfl
    rw [hrun] at e
    obtain ⟨a1, a2⟩ := ih s1 s' hs1 (fun g hg => hfs g (List.mem_cons_of_mem _ hg))
      (by rw [r2b]; exact hp2) (by omega) (by omega) e
    refine ⟨?_, by rw [a2, r4 (by omega)]⟩
    show (mix_images s.bg_finish_line f.finish_line 10).bind _ = _
    rw [r5 hlt (by omega)]
    exact a1

/-- C12: the warm-up schedule of one frame. With `c` the warm-up counter after the idle
re-arm of the frame and usable threshold `40 = 60 - 60/3`: if `c = 40` the reference
becomes an exact copy of the filtered region of interest; if `c < 40` (and `c ≠ 0`) the
reference is the result of one `mix_images` toward it with weight 10; if `c > 40` the
reference is unchanged; whenever `c ≠ 0` the counter becomes `c - 1` and the last-blend
timestamp becomes `now`; when `c = 0` the reference, the counter and the timestamp are
unchanged. -/
theorem warmup_schedule_step (n freq : Nat) (s : capture_state) (f : frame) (hn : 0 < n)
    (hn2 : n < 2 ^ 31) (hs : background_shaped n s) (hf : frame_shaped n f) :
    n_usable_frames = 60 - 60 / 3 ∧ n_usable_frames = 40 ∧
    ∃ s', capture_frame freq s f = some s' ∧
      (frame_counter freq s f = 40 →
        s'.bg_finish_line = { s.bg_finish_line with data := f.finish_line.data }) ∧
      (frame_counter freq s f < 40 → frame_counter freq s f ≠ 0 →
        mix_images s.bg_finish_line f.finish_line 10 = some (s'.bg_finish_line, f.finish_line)) ∧
      (40 < frame_counter freq s f → s'.bg_finish_line = s.bg_finish_line) ∧
      (frame_counter freq s f ≠ 0 →
        s'.need_bg_frames = frame_counter freq s f - 1 ∧ s'.last_bg_mix = f.now) ∧
      (frame_counter freq s f = 0 →
        s'.bg_finish_line = s.bg_finish_line ∧ s'.need_bg_frames = frame_counter freq s f ∧
        s'.last_bg_mix = s.last_bg_mix) := by
  obtain ⟨s', e, _, r1, r2, r3, _, r5, r6, _⟩ := capture_frame_background n freq s f hn hn2 hs hf
  refine ⟨by decide, by decide, s', e, fun h => (r3 h).1, r5, r6, r2, fun h => ?_⟩
  obtain ⟨a1, a2, a3, _⟩ := r1 h
  exact ⟨a1, by rw [a2, h], a3⟩

/-- Witness of C12: a snapshot frame (counter 40) on four-byte images. -/
theorem warmup_schedule_step_witness :
    (0 < 4 ∧ 4 < 2 ^ 31 ∧ background_shaped 4 (warmup_state 40) ∧
      frame_shaped 4 (row_frame 5 [1, 2, 3, 4])) ∧
    ∃ s', capture_frame 10 (warmup_state 40) (row_frame 5 [1, 2, 3, 4]) = some s' ∧
      s'.bg_finish_line.data = [1, 2, 3, 4] ∧ s'.need_bg_frames = 39 ∧ s'.last_bg_mix = 5 := by
  have hs : background_shaped 4 (warmup_state 40) := ⟨⟨rfl, rfl, rfl⟩, ⟨rfl, rfl, rfl⟩⟩
  have hf : frame_shaped 4 (row_frame 5 [1, 2, 3, 4]) := ⟨⟨rfl, rfl, rfl⟩, ⟨rfl, rfl, rfl⟩⟩
  have hc : frame_counter 10 (warmup_state 40) (row_frame 5 [1, 2, 3, 4]) = 40 := by decide
  obtain ⟨_, _, s', e, h1, _, _, h4, _⟩ :=
    warmup_schedule_step 4 10 (warmup_state 40) (row_frame 5 [1, 2, 3, 4]) (by decide)
      (by decide) hs hf
  refine ⟨⟨by decide, by decide, hs, hf⟩, s', e, ?_, ?_, (h4 (by rw [hc]; decide)).2⟩
  · rw [h1 hc]
    rfl
  · rw [(h4 (by rw [hc]; decide)).1, hc]
    rfl

/-- Once `finish_line_valid` and `valid_image` are set, every later frame keeps them set
and leaves the initial reference alone. -/
theorem valid_run (n freq : Nat) (hn : 0 < n) (hn2 : n < 2 ^ 31) (fs : List frame) :
    ∀ s : capture_state, background_shaped n s → (∀ f ∈ fs, frame_shaped n f) →
      ∃ s', capture_run freq s fs = some s' ∧ background_shaped n s' ∧
        (s.finish_line_valid = true → s'.finish_line_valid = true ∧
          s'.initial_bg_finish_line = s.initial_bg_finish_line) ∧
        (s.valid_image = true → s'.valid_image = true) := by
  induction fs with
  | nil => intro s hs _; exact ⟨s, rfl, hs, fun h => ⟨h, rfl⟩, fun h => h⟩
  | cons f rest ih =>
    intro s hs hfs
    obtain ⟨s1, e1, hs1, hrel⟩ := capture_frame_background n freq s f hn hn2 hs
      (hfs f (List.mem_cons_self _ _))
    obtain ⟨_, _, r3, r4, _, _, r7, _, _⟩ := hrel
    obtain ⟨s', e', hs', a1, a2⟩ := ih s1 hs1 (fun g hg => hfs g (List.mem_cons_of_mem _ hg))
    refine ⟨s', ?_, hs', fun h => ?_, fun h => a2 ?_⟩
    · show (capture_frame freq s f).bind _ = _
      rw [e1]
      exact e'
    · obtain ⟨b1, b2⟩ := r7 h
      obtain ⟨c1, c2⟩ := a1 b1
      exact ⟨c1, c2.trans b2⟩
    · by_cases hc : frame_counter freq s f = 40
      · exact (r3 hc).2
      · rw [r4 hc]; exact h

/-- C14: invariant of the capture loop. The frame on which the warm-up counter reaches
zero with the background-valid flag unset sets the flag and copies the reference into the
initial reference; from any state in which the flag is set, every sequence of later
frames (whatever their timestamps, so with or without idle re-arm, blending or not, with
or without reset requests) is processed, keeps the flag set and leaves the initial
reference image as it was. -/
theorem background_valid_persists (n freq : Nat) (s : capture_state) (fs : List frame)
    (f : frame) (hn : 0 < n) (hn2 : n < 2 ^ 31) (hs : background_shaped n s)
    (hfs : ∀ g ∈ fs, frame_shaped n g) (hf : frame_shaped n f) :
    (s.finish_line_valid = false →
      ∃ s1, capture_frame freq s f = some s1 ∧
        (frame_counter freq s f = 1 →
          s1.need_bg_frames = 0 ∧ s1.finish_line_valid = true ∧
          s1.initial_bg_finish_line.data = s1.bg_finish_line.data)) ∧
    (s.finish_line_valid = true →
      ∃ s', capture_run freq s fs = some s' ∧ s'.finish_line_valid = true ∧
        s'.initial_bg_finish_line = s.initial_bg_finish_line) := by
  constructor
  · intro hv
    obtain ⟨s1, e1, _, _, r2, _, _, _, _, _, r8, _⟩ :=
      capture_frame_background n freq s f hn hn2 hs hf
    refine ⟨s1, e1, fun h1 => ?_⟩
    obtain ⟨a, b⟩ := r8 hv h1
    exact ⟨by rw [(r2 (by omega)).1, h1]; rfl, a, by rw [b]⟩
  · intro hv
    obtain ⟨s', e, _, h, _⟩ := valid_run n freq hn hn2 fs s hs hfs
    exact ⟨s', e, h hv⟩

/-- Witness of C14: the last warm-up frame, and from a valid state a frame on which the
idle re-arm fires followed by a frame that requests a reset. -/
theorem background_valid_persists_witness :
    (0 < 4 ∧ 4 < 2 ^ 31 ∧ background_shaped 4 (warmup_state 0) ∧
      frame_shaped 4 (row_frame 5 [1, 2, 3, 4])) ∧
    (∃ s1, capture_frame 10 (warmup_state 1) (row_frame 5 [1, 2, 3, 4]) = some s1 ∧
      s1.finish_line_valid = true ∧ s1.initial_bg_finish_line.data = s1.bg_finish_line.data) ∧
    ∃ s', capture_run 10 { warmup_state 0 with finish_line_valid := true }
        [row_frame 700 [1, 2, 3, 4], { row_frame 701 [1, 2, 3, 4] with reset_request := true }] =
        some s' ∧
      s'.finish_line_valid = true ∧ s'.initial_bg_finish_line = row_image [0, 0, 0, 0] := by
  have hs : ∀ c v, background_shaped 4 { warmup_state c with finish_line_valid := v } :=
    fun _ _ => ⟨⟨rfl, rfl, rfl⟩, ⟨rfl, rfl, rfl⟩⟩
  have hf : ∀ t r, frame_shaped 4 { row_frame t [1, 2, 3, 4] with reset_request := r } :=
    fun _ _ => ⟨⟨rfl, rfl, rfl⟩, ⟨rfl, rfl, rfl⟩⟩
  refine ⟨⟨by decide, by decide, hs 0 false, hf 5 false⟩, ?_, ?_⟩
  · obtain ⟨s1, e, h⟩ := (background_valid_persists 4 10 (warmup_state 1) []
      (row_frame 5 [1, 2, 3, 4]) (by decide) (by decide) (hs 1 false) (by simp) (hf 5 false)).1 rfl
    exact ⟨s1, e, (h (by decide)).2⟩
  · obtain ⟨s', e, h⟩ := (background_valid_persists 4 10
      { warmup_state 0 with finish_line_valid := true }
      [row_frame 700 [1, 2, 3, 4], { row_frame 701 [1, 2, 3, 4] with reset_request := true }]
      (row_frame 5 [1, 2, 3, 4]) (by decide) (by decide) (hs 0 true)
      (by
        intro g hg
        simp only [List.mem_cons, List.mem_singleton, List.not_mem_nil, or_false] at hg
        rcases hg with rfl | rfl
        · exact hf 700 false
        · exact hf 701 true) (hf 5 false)).2 rfl
    exact ⟨s', e, h⟩

/-- C15: idle re-arm. The idle interval is 60 seconds of counter ticks. On a frame where
`now - last_bg_mix` exceeds it, the counter tested by the schedule is the old counter plus
one; on a frame where it does not, it is the old counter. From a completed warm-up
(counter 0), a frame on which the re-arm fires is processed with exactly one blend of the
reference toward the region of interest, sets the last-blend timestamp to `now` and leaves
the counter at 0. -/
theorem idle_rearm (n freq : Nat) (s : capture_state) (f : frame) (hn : 0 < n)
    (hn2 : n < 2 ^ 31) (hs : background_shaped n s) (hf : frame_shaped n f) :
    bg_mix_count freq = 60 * freq % 2 ^ 64 ∧
    (u64_sub f.now s.last_bg_mix > bg_mix_count freq →
      frame_counter freq s f = s.need_bg_frames + 1) ∧
    (¬ u64_sub f.now s.last_bg_mix > bg_mix_count freq →
      frame_counter freq s f = s.need_bg_frames) ∧
    ∃ s', capture_frame freq s f = some s' ∧
      (frame_counter freq s f ≠ 0 → s'.need_bg_frames = frame_counter freq s f - 1) ∧
      (s.need_bg_frames = 0 → u64_sub f.now s.last_bg_mix > bg_mix_count freq →
        mix_images s.bg_finish_line f.finish_line 10 =
          some (s'.bg_finish_line, f.finish_line) ∧
        s'.last_bg_mix = f.now ∧ s'.need_bg_frames = 0) := by
  obtain ⟨s', e, _, _, r2, _, _, r5, _⟩ := capture_frame_background n freq s f hn hn2 hs hf
  refine ⟨rfl, frame_counter_rearm freq s f,
    fun h => frame_counter_paced freq s f (by omega), s', e, fun h => (r2 h).1, ?_⟩
  intro h0 hfire
  have hc : frame_counter freq s f = 1 := by
    rw [frame_counter_rearm freq s f hfire, h0]
    rfl
  obtain ⟨a, b⟩ := r2 (by omega)
  exact ⟨r5 (by omega) (by omega), b, by rw [a, hc]; rfl⟩

/-- Witness of C15: 70 seconds after the last blend, from a completed warm-up. -/
theorem idle_rearm_witness :
    (0 < 4 ∧ 4 < 2 ^ 31 ∧ background_shaped 4 (warmup_state 0) ∧
      frame_shaped 4 (row_frame 700 [250, 20, 30, 0])) ∧
    frame_counter 10 (warmup_state 0) (row_frame 700 [250, 20, 30, 0]) = 1 ∧
    ∃ s', capture_frame 10 (warmup_state 0) (row_frame 700 [250, 20, 30, 0]) = some s' ∧
      mix_images (row_image [10, 20, 30, 40]) (row_image [250, 20, 30, 0]) 10 =
        some (s'.bg_finish_line, row_image [250, 20, 30, 0]) ∧
      s'.last_bg_mix = 700 ∧ s'.need_bg_frames = 0 := by
  have hs : background_shaped 4 (warmup_state 0) := ⟨⟨rfl, rfl, rfl⟩, ⟨rfl, rfl, rfl⟩⟩
  have hf : frame_shaped 4 (row_frame 700 [250, 20, 30, 0]) := ⟨⟨rfl, rfl, rfl⟩, ⟨rfl, rfl, rfl⟩⟩
  obtain ⟨_, h1, _, s', e, _, h⟩ :=
    idle_rearm 4 10 (warmup_state 0) (row_frame 700 [250, 20, 30, 0]) (by decide) (by decide)
      hs hf
  exact ⟨⟨by decide, by decide, hs, hf⟩, h1 (by decide), s', e, h rfl (by decide)⟩

theorem capture_init_shaped (g : Nat → ℚ) : background_shaped 16384 (capture_init g) := by
  refine ⟨⟨rfl, rfl, ?_⟩, ⟨rfl, rfl, ?_⟩⟩
  · show (List.replicate (256 * 64 * 1) 0).length = 16384
    rw [List.length_replicate]
  · show (List.replicate (256 * 64 * 1) 0).length = 16384
    rw [List.length_replicate]

theorem paced_split (freq : Nat) (fs : List frame) (k : Nat) (hk : k < fs.length) (prev : Nat)
    (hp : paced freq prev fs) :
    paced freq prev (fs.take k) ∧
    u64_sub (fs.get ⟨k, hk⟩).now (last_now prev (fs.take k)) ≤ bg_mix_count freq ∧
    paced freq (fs.get ⟨k, hk⟩).now (fs.drop (k + 1)) := by
  have h : fs = fs.take k ++ fs.get ⟨k, hk⟩ :: fs.drop (k + 1) := by
    rw [List.get_eq_getElem, ← List.drop_eq_getElem_cons hk, List.take_append_drop]
  rw [h, paced_append] at hp
  exact ⟨hp.1, hp.2.1, hp.2.2⟩

theorem paced_take (freq : Nat) (fs : List frame) (k prev : Nat) (hp : paced freq prev fs) :
    paced freq prev (fs.take k) := by
  rw [← List.take_append_drop k fs, paced_append] at hp
  exact hp.1

theorem capture_run_snoc (freq : Nat) (fs : List frame) (s s1 s2 : capture_state) (f : frame)
    (h1 : capture_run freq s fs = some s1) (h2 : capture_frame freq s1 f = some s2) :
    capture_run freq s (fs ++ [f]) = some s2 := by
  rw [capture_run_append, h1]
  show (capture_frame freq s1 f).bind _ = _
  rw [h2]
  rfl

/-- State before frame `k` (counted from 0) of a warm-up that runs without idle re-arm, and
what that frame does to it. -/
theorem warmup_frame (n freq : Nat) (hn : 0 < n) (hn2 : n < 2 ^ 31) (s : capture_state)
    (fs : List frame) (k : Nat) (hk : k < fs.length) (hs : background_shaped n s)
    (hv : s.finish_line_valid = false) (hlen : (fs.length : Int) ≤ s.need_bg_frames)
    (hfs : ∀ f ∈ fs, frame_shaped n f) (hp : paced freq s.last_bg_mix fs) :
    ∃ sk sk1, capture_run freq s (fs.take k) = some sk ∧
      capture_frame freq sk (fs.get ⟨k, hk⟩) = some sk1 ∧
      capture_run freq s (fs.take (k + 1)) = some sk1 ∧
      background_shaped n sk ∧ background_shaped n sk1 ∧
      sk.finish_line_valid = false ∧
      sk.need_bg_frames = s.need_bg_frames - k ∧
      frame_counter freq sk (fs.get ⟨k, hk⟩) = s.need_bg_frames - k ∧
      schedule_result (s.need_bg_frames - k) (fs.get ⟨k, hk⟩).finish_line
        (fs.get ⟨k, hk⟩).now sk sk1 := by
  obtain ⟨p1, p2, _⟩ := paced_split freq fs k hk s.last_bg_mix hp
  have hlk : (fs.take k).length = k := by
    rw [List.length_take]
    omega
  obtain ⟨sk, e, hsk, a1, a2, a3⟩ := warmup_prefix n freq hn hn2 (fs.take k) s hs hv
    (by omega) (fun f hf => hfs f (List.mem_of_mem_take hf)) p1 (by rw [hlk]; omega)
  rw [hlk] at a1 a2
  have hvk : sk.finish_line_valid = false := by
    rw [a2]
    apply decide_eq_false
    omega
  obtain ⟨sk1, e1, hsk1, hrel⟩ := capture_frame_background n freq sk (fs.get ⟨k, hk⟩) hn hn2
    hsk (hfs _ (List.get_mem fs k hk))
  have hc : frame_counter freq sk (fs.get ⟨k, hk⟩) = s.need_bg_frames - k := by
    rw [frame_counter_paced freq sk _ (by rw [a3]; exact p2), a1]
  rw [hc] at hrel
  refine ⟨sk, sk1, e, e1, ?_, hsk, hsk1, hvk, a1, hc, hrel⟩
  rw [List.take_succ, List.getElem?_eq_getElem hk]
  exact capture_run_snoc freq _ s sk sk1 _ e e1

theorem roi_frame_shaped (now v : Nat) : frame_shaped 16384 (roi_frame now v) := by
  refine ⟨⟨rfl, rfl, ?_⟩, ⟨rfl, rfl, ?_⟩⟩
  · show (List.replicate 16384 v).length = 16384
    rw [List.length_replicate]
  · show (List.replicate (256 * 64 * 1) 0).length = 16384
    rw [List.length_replicate]

theorem last_now_append (fs gs : List frame) :
    ∀ prev : Nat, last_now prev (fs ++ gs) = last_now (last_now prev fs) gs := by
  induction fs with
  | nil => intro prev; rfl
  | cons f rest ih => intro prev; exact ih f.now

theorem still_frames_succ (k : Nat) :
    still_frames (k + 1) = still_frames k ++ [roi_frame (k + 1) 0] := by
  unfold still_frames
  rw [List.range_succ, List.map_append]
  rfl

theorem last_now_still (k : Nat) : last_now 0 (still_frames k) = k := by
  induction k with
  | zero => rfl
  | succ j _ =>
    rw [still_frames_succ, last_now_append]
    rfl

theorem paced_still (k : Nat) (hk : k < 2 ^ 63) : paced 10 0 (still_frames k) := by
  induction k with
  | zero => exact trivial
  | succ j ih =>
    rw [still_frames_succ, paced_append, last_now_still]
    refine ⟨ih (by omega), ?_, trivial⟩
    show u64_sub (j + 1) j ≤ bg_mix_count 10
    unfold u64_sub bg_mix_count
    omega

theorem still_frames_length (k : Nat) : (still_frames k).length = k := by
  unfold still_frames
  rw [List.length_map, List.length_range]

theorem still_frames_shaped (k : Nat) : ∀ f ∈ still_frames k, frame_shaped 16384 f := by
  intro f hf
  unfold still_frames at hf
  rw [List.mem_map] at hf
  obtain ⟨t, _, rfl⟩ := hf
  exact roi_frame_shaped _ _

theorem mix_pixel_last_differs (x : Nat) :
    mix_pixel (1000 - 10) 10 1000 x 0 ≠ mix_pixel (1000 - 10) 10 1000 x 255 := by
  unfold mix_pixel
  rw [Int.tdiv_eq_ediv (by omega) (by omega), Int.tdiv_eq_ediv (by omega) (by omega)]
  have h1 : ((1000 - 10) * (x : Int) + 10 * ((0 : Nat) : Int)) / 1000 + 2 ≤
      ((1000 - 10) * (x : Int) + 10 * ((255 : Nat) : Int)) / 1000 := by omega
  have h2 : ((1000 - 10) * (x : Int) + 10 * ((255 : Nat) : Int)) / 1000 ≤
      ((1000 - 10) * (x : Int) + 10 * ((0 : Nat) : Int)) / 1000 + 3 := by omega
  generalize ((1000 - 10) * (x : Int) + 10 * ((0 : Nat) : Int)) / 1000 = q1 at h1 h2 ⊢
  generalize ((1000 - 10) * (x : Int) + 10 * ((255 : Nat) : Int)) / 1000 = q2 at h1 h2 ⊢
  omega

theorem capture_init_need (g : Nat → ℚ) : (capture_init g).need_bg_frames = 60 := rfl

/-- The exchange flag after a run of the capture loop: it is set exactly when it was set
before the run or one of the frames of the run took the snapshot branch of the warm-up
schedule. -/
theorem valid_image_run (n freq : Nat) (hn : 0 < n) (hn2 : n < 2 ^ 31) (fs : List frame) :
    ∀ s : capture_state, background_shaped n s → (∀ f ∈ fs, frame_shaped n f) →
      ∃ s', capture_run freq s fs = some s' ∧
        (s'.valid_image = true ↔
          s.valid_image = true ∨
          ∃ k sk f, fs[k]? = some f ∧ capture_run freq s (fs.take k) = some sk ∧
            frame_counter freq sk f = 40) := by
  induction fs with
  | nil =>
    intro s _ _
    refine ⟨s, rfl, ⟨fun h => Or.inl h, fun h => ?_⟩⟩
    rcases h with h | ⟨k, sk, f, hk, _⟩
    · exact h
    · simp at hk
  | cons f rest ih =>
    intro s hs hfs
    obtain ⟨s1, e1, hs1, hrel⟩ := capture_frame_background n freq s f hn hn2 hs
      (hfs f (List.mem_cons_self _ _))
    obtain ⟨_, _, r3, r4, _⟩ := hrel
    obtain ⟨s', e', hiff⟩ := ih s1 hs1 (fun x hx => hfs x (List.mem_cons_of_mem _ hx))
    have hrun : ∀ l, capture_run freq s (f :: l) = capture_run freq s1 l := by
      intro l
      show (capture_frame freq s f).bind _ = _
      rw [e1]
      rfl
    refine ⟨s', by rw [hrun]; exact e', ?_⟩
    rw [hiff]
    constructor
    · rintro (h | ⟨k, sk, x, hk, hr, hc⟩)
      · by_cases hc : frame_counter freq s f = 40
        · exact Or.inr ⟨0, s, f, List.getElem?_cons_zero, rfl, hc⟩
        · rw [r4 hc] at h
          exact Or.inl h
      · refine Or.inr ⟨k + 1, sk, x, ?_, ?_, hc⟩
        · rw [List.getElem?_cons_succ]
          exact hk
        · rw [List.take_succ_cons, hrun]
          exact hr
    · rintro (h | ⟨k, sk, x, hk, hr, hc⟩)
      · left
        by_cases hc : frame_counter freq s f = 40
        · exact (r3 hc).2
        · rw [r4 hc]
          exact h
      · cases k with
        | zero =>
          rw [List.getElem?_cons_zero] at hk
          cases hk
          rw [List.take_zero] at hr
          cases hr
          exact Or.inl (r3 hc).2
        | succ j =>
          rw [List.getElem?_cons_succ] at hk
          rw [List.take_succ_cons, hrun] at hr
          exact Or.inr ⟨j, sk, x, hk, hr, hc⟩

/-- C16: the exchange flag `valid_image`. It is false when the capture loop starts. A
frame whose schedule takes the snapshot branch (counter 40) copies the region of interest
into the reference and sets the flag; every other frame leaves the flag as it was. Hence,
in every run of the capture loop from its initial state, the flag is set after the run
exactly when one of the frames of the run performed a snapshot: it is false after every
frame before the first snapshot, true after the snapshot frame and true after every later
frame. -/
theorem valid_image_flag (freq : Nat) (g : Nat → ℚ) (fs : List frame)
    (hfs : ∀ x ∈ fs, frame_shaped 16384 x) :
    (capture_init g).valid_image = false ∧
    (∃ s', capture_run freq (capture_init g) fs = some s' ∧
      (s'.valid_image = true ↔
        ∃ k sk f, fs[k]? = some f ∧
          capture_run freq (capture_init g) (fs.take k) = some sk ∧
          frame_counter freq sk f = 40)) ∧
    (∀ k sk f, fs[k]? = some f →
      capture_run freq (capture_init g) (fs.take k) = some sk →
      ∃ sk1, capture_frame freq sk f = some sk1 ∧
        capture_run freq (capture_init g) (fs.take (k + 1)) = some sk1 ∧
        (frame_counter freq sk f = 40 →
          sk1.valid_image = true ∧
          sk1.bg_finish_line = { sk.bg_finish_line with data := f.finish_line.data }) ∧
        (frame_counter freq sk f ≠ 40 → sk1.valid_image = sk.valid_image)) := by
  refine ⟨rfl, ?_, ?_⟩
  · obtain ⟨s', e, hiff⟩ := valid_image_run 16384 freq (by decide) (by decide) fs
      (capture_init g) (capture_init_shaped g) hfs
    refine ⟨s', e, hiff.trans ⟨fun h => ?_, fun h => Or.inr h⟩⟩
    rcases h with h | h
    · cases h
    · exact h
  · intro k sk f hk hr
    obtain ⟨s0, e0, hs0, _⟩ := valid_run 16384 freq (by decide) (by decide) (fs.take k)
      (capture_init g) (capture_init_shaped g)
      (fun x hx => hfs x (List.mem_of_mem_take hx))
    rw [hr] at e0
    cases e0
    obtain ⟨sk1, e1, _, hrel⟩ := capture_frame_background 16384 freq sk f (by decide)
      (by decide) hs0 (hfs f (List.getElem?_mem hk))
    obtain ⟨_, _, r3, r4, _⟩ := hrel
    refine ⟨sk1, e1, ?_, fun h => ⟨(r3 h).2, (r3 h).1⟩, r4⟩
    rw [List.take_succ, hk]
    exact capture_run_snoc freq _ _ sk sk1 f hr e1

/-- Witness of C16: the first 21 frames of a capture of a black scene. Frame 21 is the
snapshot frame, so the flag is set after the run. -/
theorem valid_image_flag_witness :
    (∀ x ∈ still_frames 21, frame_shaped 16384 x) ∧
    (capture_init (fun _ => 0)).valid_image = false ∧
    ∃ s', capture_run 10 (capture_init (fun _ => 0)) (still_frames 21) = some s' ∧
      s'.valid_image = true := by
  obtain ⟨h0, ⟨s', e, hiff⟩, _⟩ :=
    valid_image_flag 10 (fun _ => 0) (still_frames 21) (still_frames_shaped 21)
  refine ⟨still_frames_shaped 21, h0, s', e, hiff.mpr ?_⟩
  obtain ⟨sk, sk1, a1, _, _, _, _, _, _, a8, _⟩ := warmup_frame 16384 10 (by decide) (by decide)
    (capture_init (fun _ => 0)) (still_frames 21) 20 (by rw [still_frames_length]; decide)
    (capture_init_shaped _) rfl (by rw [still_frames_length, capture_init_need]; decide)
    (still_frames_shaped 21) (paced_still 21 (by decide))
  refine ⟨20, sk, (still_frames 21).get ⟨20, by rw [still_frames_length]; decide⟩, ?_, a1, ?_⟩
  · rw [List.get_eq_getElem, List.getElem?_eq_getElem]
  · rw [a8, capture_init_need]
    rfl

/-- The sixtieth frame of a warm-up without idle re-arm blends its region of interest into
the reference. -/
theorem warmup_last (freq : Nat) (g : Nat → ℚ) (fs : List frame) (f : frame)
    (hlen : fs.length = 59) (hfs : ∀ x ∈ fs, frame_shaped 16384 x)
    (hf : frame_shaped 16384 f) (hp : paced freq 0 (fs ++ [f])) :
    ∃ s59 s60, capture_run freq (capture_init g) fs = some s59 ∧
      capture_run freq (capture_init g) (fs ++ [f]) = some s60 ∧
      background_shaped 16384 s59 ∧
      mix_images s59.bg_finish_line f.finish_line 10 =
        some (s60.bg_finish_line, f.finish_line) := by
  rw [paced_append] at hp
  obtain ⟨hp1, hp2, _⟩ := hp
  obtain ⟨s59, e, hs, a1, _, a3⟩ := warmup_prefix 16384 freq (by decide) (by decide) fs
    (capture_init g) (capture_init_shaped g) rfl (by rw [capture_init_need]; decide) hfs hp1
    (by rw [hlen, capture_init_need]; decide)
  obtain ⟨s60, e1, _, hrel⟩ := capture_frame_background 16384 freq s59 f (by decide)
    (by decide) hs hf
  have hneed : s59.need_bg_frames = 1 := by
    rw [a1, hlen, capture_init_need]
    rfl
  rw [frame_counter_paced freq s59 f (by rw [a3]; exact hp2), hneed] at hrel
  obtain ⟨_, _, _, _, r5, _⟩ := hrel
  exact ⟨s59, s60, e, capture_run_snoc freq fs _ s59 s60 f e e1, hs,
    r5 (by decide) (by decide)⟩

/-- C13 as stated fails: the sixtieth frame of the initial warm-up, one of the last third,
is not discarded. Two captures that agree on the first 59 frames (a black scene) and
differ in the sixtieth (black against white) end the warm-up with different references. -/
theorem last_third_is_blended :
    ∃ sA sB,
      capture_run 10 (capture_init fun _ => 0) (still_frames 59 ++ [roi_frame 60 0]) = some sA ∧
      capture_run 10 (capture_init fun _ => 0) (still_frames 59 ++ [roi_frame 60 255]) =
        some sB ∧
      sA.bg_finish_line.data.getD 0 0 ≠ sB.bg_finish_line.data.getD 0 0 := by
  have hp : ∀ v, paced 10 0 (still_frames 59 ++ [roi_frame 60 v]) := by
    intro v
    rw [paced_append, last_now_still]
    refine ⟨paced_still 59 (by decide), ?_, trivial⟩
    show u64_sub 60 59 ≤ bg_mix_count 10
    decide
  obtain ⟨s59, sA, e, eA, hs, mA⟩ := warmup_last 10 (fun _ => 0) (still_frames 59)
    (roi_frame 60 0) (still_frames_length 59) (still_frames_shaped 59) (roi_frame_shaped _ _)
    (hp 0)
  obtain ⟨s59', sB, e', eB, _, mB⟩ := warmup_last 10 (fun _ => 0) (still_frames 59)
    (roi_frame 60 255) (still_frames_length 59) (still_frames_shaped 59)
    (roi_frame_shaped _ _) (hp 255)
  rw [e] at e'
  cases e'
  refine ⟨sA, sB, eA, eB, ?_⟩
  obtain ⟨h1, h2, h3⟩ := hs.1
  obtain ⟨oA, fA, _, _, _, _, dA⟩ := mix_images_weight_10 s59.bg_finish_line
    (roi_frame 60 0).finish_line (by rw [h1]; rfl) (by rw [h2]; rfl) (by rw [h3, h1, h2])
    (by rw [h1, h2]; norm_num)
  obtain ⟨oB, fB, _, _, _, _, dB⟩ := mix_images_weight_10 s59.bg_finish_line
    (roi_frame 60 255).finish_line (by rw [h1]; rfl) (by rw [h2]; rfl) (by rw [h3, h1, h2])
    (by rw [h1, h2]; norm_num)
  rw [mA] at fA
  rw [mB] at fB
  cases fA
  cases fB
  rw [dA 0 (by rw [h3]; decide), dB 0 (by rw [h3]; decide)]
  exact mix_pixel_last_differs _

/-- C13 (amended): in the initial warm-up of 60 frames without idle re-arm, the first
third of the frames (frames 1 to 20) is discarded: after each of them the reference is
still the initial one; the reference at the end of the warm-up is built from the
remaining 40 frames alone, a snapshot of frame 21 followed by one blend per frame 22 to
60. -/
theorem warmup_discards_first_third (freq : Nat) (g : Nat → ℚ) (fs : List frame)
    (hlen : fs.length = 60) (hfs : ∀ f ∈ fs, frame_shaped 16384 f) (hp : paced freq 0 fs) :
    (∀ k, k ≤ 20 → ∃ sk, capture_run freq (capture_init g) (fs.take k) = some sk ∧
      sk.bg_finish_line = (capture_init g).bg_finish_line) ∧
    (fs.drop 20).length = 40 ∧
    ∃ s60, capture_run freq (capture_init g) fs = some s60 ∧
      build_reference ((fs.drop 20).map fun f => f.finish_line)
        (capture_init g).bg_finish_line = some s60.bg_finish_line := by
  have hinit := capture_init_shaped g
  have hneed := capture_init_need g
  have hskip : ∀ k, k ≤ 20 → ∃ sk, capture_run freq (capture_init g) (fs.take k) = some sk ∧
      sk.bg_finish_line = (capture_init g).bg_finish_line ∧ background_shaped 16384 sk ∧
      sk.need_bg_frames = 60 - k ∧ sk.finish_line_valid = false ∧
      sk.last_bg_mix = last_now 0 (fs.take k) := by
    intro k hk
    have hlk : (fs.take k).length = k := by
      rw [List.length_take]
      omega
    have hmem : ∀ f ∈ fs.take k, frame_shaped 16384 f :=
      fun f hf => hfs f (List.mem_of_mem_take hf)
    have hpk : paced freq (capture_init g).last_bg_mix (fs.take k) := paced_take freq fs k 0 hp
    obtain ⟨sk, e, hsk, a1, a2, a3⟩ := warmup_prefix 16384 freq (by decide) (by decide)
      (fs.take k) (capture_init g) hinit rfl (by rw [hneed]; decide) hmem hpk
      (by rw [hlk, hneed]; omega)
    obtain ⟨b1, _, _⟩ := skip_run_reference 16384 freq (by decide) (by decide) (fs.take k)
      (capture_init g) sk hinit hmem hpk (by rw [hlk, hneed]; omega) e
    refine ⟨sk, e, b1, hsk, by rw [a1, hlk, hneed], ?_, a3⟩
    rw [a2, hlk, hneed]
    apply decide_eq_false
    omega
  refine ⟨fun k hk => ?_, by rw [List.length_drop, hlen], ?_⟩
  · obtain ⟨sk, e, b, _⟩ := hskip k hk
    exact ⟨sk, e, b⟩
  · obtain ⟨s20, e20, b20, hs20, n20, v20, l20⟩ := hskip 20 (le_refl _)
    have h20 : 20 < fs.length := by omega
    have hd : fs.drop 20 = fs.get ⟨20, h20⟩ :: fs.drop 21 := by
      rw [List.get_eq_getElem, ← List.drop_eq_getElem_cons h20]
    obtain ⟨_, p2, p3⟩ := paced_split freq fs 20 h20 0 hp
    obtain ⟨s21, e21, hs21, hrel⟩ := capture_frame_background 16384 freq s20
      (fs.get ⟨20, h20⟩) (by decide) (by decide) hs20 (hfs _ (List.get_mem fs 20 h20))
    rw [frame_counter_paced freq s20 _ (by rw [l20]; exact p2), n20] at hrel
    obtain ⟨_, r2, r3, _, _, _, _, _, r9⟩ := hrel
    obtain ⟨r2a, r2b⟩ := r2 (by decide)
    have hmem : ∀ f ∈ fs.drop 21, frame_shaped 16384 f :=
      fun f hf => hfs f (List.mem_of_mem_drop hf)
    have hl : (fs.drop 21).length = 39 := by rw [List.length_drop, hlen]
    have hn21 : s21.need_bg_frames = 39 := by rw [r2a]; rfl
    obtain ⟨s60, e60, _, _⟩ := warmup_prefix 16384 freq (by decide) (by decide) (fs.drop 21)
      s21 hs21 (r9 v20 (by decide)).1 (by rw [hn21]; decide) hmem (by rw [r2b]; exact p3)
      (by rw [hl, hn21]; decide)
    obtain ⟨c1, _⟩ := blend_run_reference 16384 freq (by decide) (by decide) (fs.drop 21)
      s21 s60 hs21 hmem (by rw [r2b]; exact p3) (by rw [hl, hn21]; decide)
      (by rw [hn21]; decide) e60
    refine ⟨s60, ?_, ?_⟩
    · rw [← List.take_append_drop 20 fs, capture_run_append, e20, hd]
      show (capture_frame freq s20 _).bind _ = _
      rw [e21]
      exact e60
    · rw [hd]
      show (copy_image _ _).bind _ = _
      rw [copy_image_roi 16384 (by norm_num) _ _ (hfs _ (List.get_mem fs 20 h20)).1 hinit.1]
      rw [(r3 (by decide)).1, b20] at c1
      exact c1

/-- Witness of C13 (amended): sixty frames of a black scene, one per counter tick. -/
theorem warmup_discards_first_third_witness :
    ((still_frames 60).length = 60 ∧ (∀ f ∈ still_frames 60, frame_shaped 16384 f) ∧
      paced 10 0 (still_frames 60)) ∧
    (∀ k, k ≤ 20 → ∃ sk,
      capture_run 10 (capture_init fun _ => 0) ((still_frames 60).take k) = some sk ∧
      sk.bg_finish_line = (capture_init fun _ => 0).bg_finish_line) ∧
    ((still_frames 60).drop 20).length = 40 ∧
    ∃ s60, capture_run 10 (capture_init fun _ => 0) (still_frames 60) = some s60 ∧
      build_reference (((still_frames 60).drop 20).map fun f => f.finish_line)
        (capture_init fun _ => 0).bg_finish_line = some s60.bg_finish_line :=
  ⟨⟨still_frames_length 60, still_frames_shaped 60, paced_still 60 (by decide)⟩,
    warmup_discards_first_third 10 (fun _ => 0) (still_frames 60) (still_frames_length 60)
      (still_frames_shaped 60) (paced_still 60 (by decide))⟩

/-- C27: from a fresh start and with no idle re-arm on any frame, frame `k + 1` of the
first 60 frames (`k` counted from 0) is processed with warm-up counter `60 - k`: the
first 20 frames leave the reference unchanged, the 21st replaces it by a copy of its
region of interest, and frames 22 to 60 each blend theirs into it with weight 10; the
background-valid flag is false after each of the first 59 frames and true after the
60th, when the initial reference holds the bytes of the reference and the counter is 0. -/
theorem warmup_sixty_frames (freq : Nat) (g : Nat → ℚ) (fs : List frame)
    (hlen : fs.length = 60) (hfs : ∀ f ∈ fs, frame_shaped 16384 f) (hp : paced freq 0 fs)
    (k : Nat) (hk : k < fs.length) :
    ∃ sk sk1, capture_run freq (capture_init g) (fs.take k) = some sk ∧
      capture_frame freq sk (fs.get ⟨k, hk⟩) = some sk1 ∧
      capture_run freq (capture_init g) (fs.take (k + 1)) = some sk1 ∧
      frame_counter freq sk (fs.get ⟨k, hk⟩) = 60 - k ∧
      (k < 20 → sk1.bg_finish_line = sk.bg_finish_line) ∧
      (k = 20 → sk1.bg_finish_line =
        { sk.bg_finish_line with data := (fs.get ⟨k, hk⟩).finish_line.data }) ∧
      (20 < k → mix_images sk.bg_finish_line (fs.get ⟨k, hk⟩).finish_line 10 =
        some (sk1.bg_finish_line, (fs.get ⟨k, hk⟩).finish_line)) ∧
      sk1.finish_line_valid = decide (k = 59) ∧
      (k = 59 → capture_run freq (capture_init g) fs = some sk1 ∧
        sk1.initial_bg_finish_line.data = sk1.bg_finish_line.data ∧
        sk1.need_bg_frames = 0) := by
  obtain ⟨sk, sk1, e, e1, e2, _, _, hv, _, hc, hrel⟩ := warmup_frame 16384 freq (by decide)
    (by decide) (capture_init g) fs k hk (capture_init_shaped g) rfl
    (by rw [hlen, capture_init_need]; decide) hfs hp
  rw [capture_init_need] at hc hrel
  obtain ⟨_, r2, r3, _, r5, r6, _, r8, r9⟩ := hrel
  refine ⟨sk, sk1, e, e1, e2, hc, fun h => r6 (by omega), fun h => (r3 (by omega)).1,
    fun h => r5 (by omega) (by omega), ?_, fun h => ⟨?_, ?_, ?_⟩⟩
  · by_cases h : k = 59
    · rw [(r8 hv (by omega)).1]
      simp [h]
    · rw [(r9 hv (by omega)).1]
      simp [h]
  · rw [h, List.take_of_length_le (by omega)] at e2
    exact e2
  · rw [(r8 hv (by omega)).2]
  · rw [(r2 (by omega)).1]
    omega

/-- Witness of C27: frame 21 of sixty frames of a black scene. -/
theorem warmup_sixty_frames_witness :
    ((still_frames 60).length = 60 ∧ (∀ f ∈ still_frames 60, frame_shaped 16384 f) ∧
      paced 10 0 (still_frames 60) ∧ 20 < (still_frames 60).length) ∧
    ∃ sk sk1, capture_run 10 (capture_init fun _ => 0) ((still_frames 60).take 20) = some sk ∧
      capture_run 10 (capture_init fun _ => 0) ((still_frames 60).take 21) = some sk1 ∧
      sk1.finish_line_valid = false := by
  have h20 : 20 < (still_frames 60).length := by rw [still_frames_length]; decide
  obtain ⟨sk, sk1, e, _, e2, _, _, _, _, hv, _⟩ :=
    warmup_sixty_frames 10 (fun _ => 0) (still_frames 60) (still_frames_length 60)
      (still_frames_shaped 60) (paced_still 60 (by decide)) 20 h20
  exact ⟨⟨still_frames_length 60, still_frames_shaped 60, paced_still 60 (by decide), h20⟩,
    sk, sk1, e, e2, by rw [hv]; decide⟩

theorem frame_counter_cases (freq : Nat) (s : capture_state) (f : frame) :
    frame_counter freq s f = s.need_bg_frames ∨
      frame_counter freq s f = s.need_bg_frames + 1 := by
  by_cases h : u64_sub f.now s.last_bg_mix > bg_mix_count freq
  · exact Or.inr (frame_counter_rearm freq s f h)
  · exact Or.inl (frame_counter_paced freq s f (by omega))

theorem handle_reset_no_race (s : capture_state) (r : Bool)
    (h : s.lap = 0 ∧ s.lap_start = 0 ∧ s.race_start = 0) :
    (handle_reset { s with reset_race := r }).lap = 0 ∧
    (handle_reset { s with reset_race := r }).lap_start = 0 ∧
    (handle_reset { s with reset_race := r }).race_start = 0 := by
  unfold handle_reset
  split_ifs
  · exact ⟨rfl, rfl, rfl⟩
  · exact h

theorem lap_tick_no_race (freq : Nat) (s : capture_state) (t : tick)
    (hv : s.finish_line_valid = false)
    (h : s.lap = 0 ∧ s.lap_start = 0 ∧ s.race_start = 0) :
    (lap_tick freq s t).lap = 0 ∧ (lap_tick freq s t).lap_start = 0 ∧
      (lap_tick freq s t).race_start = 0 := by
  rw [lap_tick_invalid freq s t hv, update_lap_time_idle freq t.now s (by omega),
    log_race_skip t.fopen_ok s (fun hh => by rw [h.1] at hh; exact absurd hh.1 (by decide))]
  exact h

/-- One iteration of the capture loop keeps `background_inv`. -/
theorem background_inv_frame (n freq : Nat) (s : capture_state) (f : frame) (hn : 0 < n)
    (hn2 : n < 2 ^ 31) (hs : background_shaped n s) (hf : frame_shaped n f)
    (hinv : background_inv s) :
    ∃ s', capture_frame freq s f = some s' ∧ background_shaped n s' ∧ background_inv s' := by
  obtain ⟨t, p, e, hts, hl, hrel⟩ := capture_frame_spec n freq s f hn hn2 hs hf
  obtain ⟨b1, b2, b3, b4, b5, b6⟩ :=
    lap_tick_same_background freq t { percent := p, now := f.now, fopen_ok := f.fopen_ok }
  refine ⟨_, e, background_shaped_congr n _ _ ⟨b1, b2, b3, b4, b5, b6⟩ hts, ?_⟩
  obtain ⟨i1, i2, i3, i4⟩ := hinv
  obtain ⟨r1, r2, r3, r4, _, _, r7, r8, r9⟩ := hrel
  have hc := frame_counter_cases freq s f
  -- the state `t` left by the schedule satisfies the invariant
  have t1 : 0 ≤ t.need_bg_frames := by
    by_cases h0 : frame_counter freq s f = 0
    · rw [(r1 h0).2.1]
    · rw [(r2 h0).1]; omega
  have t2 : t.need_bg_frames < 40 → t.valid_image = true := by
    intro h
    by_cases h40 : frame_counter freq s f = 40
    · exact (r3 h40).2
    · rw [r4 h40]
      apply i2
      by_cases h0 : frame_counter freq s f = 0
      · omega
      · rw [(r2 h0).1] at h; omega
  have t3 : t.finish_line_valid = true → t.valid_image = true := by
    intro h
    by_cases h40 : frame_counter freq s f = 40
    · exact (r3 h40).2
    · rw [r4 h40]
      cases hv : s.finish_line_valid
      · by_cases h1 : frame_counter freq s f = 1
        · exact i2 (by omega)
        · rw [(r9 hv h1).1] at h; cases h
      · exact i3 hv
  have t4 : t.finish_line_valid = false →
      0 < t.need_bg_frames ∧ t.lap = 0 ∧ t.lap_start = 0 ∧ t.race_start = 0 := by
    intro h
    have hv : s.finish_line_valid = false := by
      cases hv : s.finish_line_valid
      · rfl
      · rw [(r7 hv).1] at h; cases h
    obtain ⟨j1, j2⟩ := i4 hv
    have h1 : frame_counter freq s f ≠ 1 := by
      intro h1
      rw [(r8 hv h1).1] at h
      cases h
    obtain ⟨_, l2, l3, _, l5, _⟩ := hl
    obtain ⟨k1, k2, k3⟩ := handle_reset_no_race s (s.reset_race || f.reset_request) j2
    exact ⟨by rw [(r2 (by omega)).1]; omega, by rw [l5, k1], by rw [l3, k2], by rw [l2, k3]⟩
  refine ⟨by rw [b4]; exact t1, by rw [b4, b6]; exact t2, by rw [b3, b6]; exact t3, ?_⟩
  rw [b3, b4]
  intro h
  obtain ⟨u1, u2⟩ := t4 h
  exact ⟨u1, lap_tick_no_race freq t _ h u2⟩

theorem background_inv_run (n freq : Nat) (hn : 0 < n) (hn2 : n < 2 ^ 31) (fs : List frame) :
    ∀ s : capture_state, background_shaped n s → background_inv s →
      (∀ f ∈ fs, frame_shaped n f) →
      ∃ s', capture_run freq s fs = some s' ∧ background_shaped n s' ∧ background_inv s' := by
  induction fs with
  | nil => intro s hs hi _; exact ⟨s, rfl, hs, hi⟩
  | cons f rest ih =>
    intro s hs hi hfs
    obtain ⟨s1, e1, hs1, hi1⟩ := background_inv_frame n freq s f hn hn2 hs
      (hfs f (List.mem_cons_self _ _)) hi
    obtain ⟨s', e', hs', hi'⟩ := ih s1 hs1 hi1 (fun g hg => hfs g (List.mem_cons_of_mem _ hg))
    refine ⟨s', ?_, hs', hi'⟩
    show (capture_frame freq s f).bind _ = _
    rw [e1]
    exact e'

theorem capture_init_inv (g : Nat → ℚ) : background_inv (capture_init g) := by
  refine ⟨?_, fun h => ?_, fun h => ?_, fun _ => ⟨?_, rfl, rfl, rfl⟩⟩
  · rw [capture_init_need]; decide
  · rw [capture_init_need] at h; omega
  · cases h
  · rw [capture_init_need]; decide

/-- C30: invariant of the capture loop. For every sequence of frames from a fresh start,
whatever their timestamps (so for every pattern of idle re-arm firings) and reset
requests, the loop processes the sequence and afterwards: the background-valid flag,
which gates the motion score, is set only if `valid_image` is set, that is only after a
snapshot; and while the flag is unset (the warm-up counter has not yet reached zero) the
counter is positive and `lap`, `lap_start` and `race_start` are 0. -/
theorem motion_gated_by_snapshot (freq : Nat) (g : Nat → ℚ) (fs : List frame)
    (hfs : ∀ f ∈ fs, frame_shaped 16384 f) :
    ∃ s', capture_run freq (capture_init g) fs = some s' ∧
      (s'.finish_line_valid = true → s'.valid_image = true) ∧
      (s'.finish_line_valid = false →
        0 < s'.need_bg_frames ∧ s'.lap = 0 ∧ s'.lap_start = 0 ∧ s'.race_start = 0) := by
  obtain ⟨s', e, _, _, _, i3, i4⟩ := background_inv_run 16384 freq (by decide) (by decide) fs
    (capture_init g) (capture_init_shaped g) (capture_init_inv g) hfs
  exact ⟨s', e, i3, i4⟩

/-- Witness of C30: three frames of a black scene. -/
theorem motion_gated_by_snapshot_witness :
    (∀ f ∈ still_frames 3, frame_shaped 16384 f) ∧
    ∃ s', capture_run 10 (capture_init fun _ => 0) (still_frames 3) = some s' ∧
      (s'.finish_line_valid = true → s'.valid_image = true) ∧
      (s'.finish_line_valid = false →
        0 < s'.need_bg_frames ∧ s'.lap = 0 ∧ s'.lap_start = 0 ∧ s'.race_start = 0) :=
  ⟨still_frames_shaped 3,
    motion_gated_by_snapshot 10 (fun _ => 0) (still_frames 3) (still_frames_shaped 3)⟩

theorem handle_reset_lap_inv (s : capture_state) (r : Bool) (h : lap_inv s) :
    lap_inv (handle_reset { s with reset_race := r }) := by
  unfold handle_reset
  split_ifs
  · refine ⟨Nat.zero_le _, ?_, fun h1 => ?_⟩
    · show (0 : Nat) < n_laps
      decide
    · exact absurd h1 (Nat.not_succ_le_zero 0)
  · exact h

theorem update_lap_time_lap_inv (freq now : Nat) (s : capture_state) (h : lap_inv s) :
    lap_inv (update_lap_time freq now s) := by
  by_cases hc : 0 < s.lap_start ∧ s.lap < n_laps
  · rw [update_lap_time_running freq now s hc.1 hc.2]
    obtain ⟨h1, h2, h3⟩ := h
    refine ⟨h1, h2, fun hl => ?_⟩
    obtain ⟨a, b, c⟩ := h3 hl
    have hf : s.fastest_lap ≠ s.lap := Nat.ne_of_lt a
    refine ⟨a, fun j hj => ?_, fun j hj => ?_⟩
    · show Function.update s.lap_times s.lap _ s.fastest_lap ≤
        Function.update s.lap_times s.lap _ j
      rw [Function.update_noteq hf, Function.update_noteq (Nat.ne_of_lt hj)]
      exact b j hj
    · show Function.update s.lap_times s.lap _ s.fastest_lap <
        Function.update s.lap_times s.lap _ j
      rw [Function.update_noteq hf, Function.update_noteq (Nat.ne_of_lt (Nat.lt_trans hj a))]
      exact c j hj
  · rw [update_lap_time_idle freq now s hc]
    exact h

theorem log_race_lap_inv (ok : Bool) (s : capture_state) (h : lap_inv s) :
    lap_inv (log_race ok s) := by
  by_cases hc : s.lap = n_laps ∧ s.race_logged = false
  · rw [log_race_append ok s hc.1 hc.2]
    exact h
  · rw [log_race_skip ok s hc]
    exact h

theorem finish_line_check_lap_inv (p : Int) (now : Nat) (s : capture_state)
    (h : lap_inv s) : lap_inv (finish_line_check p now s) := by
  by_cases hp : p > 20
  · cases ha : s.finish_line_active
    · by_cases hlap : s.lap < n_laps
      · by_cases hrun : 0 < s.lap_start
        · by_cases ht : min_lap_time < s.lap_times s.lap
          · rw [finish_line_check_record _ _ _ hp ha hlap hrun ht]
            obtain ⟨h1, h2, h3⟩ := h
            by_cases hc : s.lap = 0 ∨ s.lap_times s.lap < s.lap_times s.fastest_lap
            · simp only [if_pos hc]
              refine ⟨hlap, hlap, fun _ => ⟨Nat.lt_succ_self _,
                fun j (hj : j < s.lap + 1) => ?_, fun j (hj : j < s.lap) => ?_⟩⟩
              · show s.lap_times s.lap ≤ s.lap_times j
                rcases Nat.lt_succ_iff_lt_or_eq.mp hj with hj1 | hj1
                · rcases hc with h0 | hlt
                  · omega
                  · exact le_of_lt (lt_of_lt_of_le hlt ((h3 (by omega)).2.1 j hj1))
                · rw [hj1]
              · show s.lap_times s.lap < s.lap_times j
                rcases hc with h0 | hlt
                · omega
                · exact lt_of_lt_of_le hlt ((h3 (by omega)).2.1 j hj)
            · simp only [if_neg hc]
              have hl1 : 1 ≤ s.lap := by
                rcases Nat.eq_zero_or_pos s.lap with h0 | h0
                · exact absurd (Or.inl h0) hc
                · exact h0
              obtain ⟨a, b, c⟩ := h3 hl1
              refine ⟨hlap, h2, fun _ => ⟨Nat.lt_succ_of_lt a,
                fun j (hj : j < s.lap + 1) => ?_, c⟩⟩
              show s.lap_times s.fastest_lap ≤ s.lap_times j
              rcases Nat.lt_succ_iff_lt_or_eq.mp hj with hj1 | hj1
              · exact b j hj1
              · rw [hj1]
                exact not_lt.mp (fun hlt => hc (Or.inr hlt))
          · rw [finish_line_check_ignore _ _ _ hp ha hlap hrun ht]
            exact h
        · rw [finish_line_check_start _ _ _ hp ha hlap (by omega)]
          exact h
      · rw [finish_line_check_done _ _ _ hp ha hlap]
        exact h
    · rw [finish_line_check_held _ _ _ hp ha]
      exact h
  · rw [finish_line_check_low _ _ _ hp]
    exact h

theorem lap_tick_lap_inv (freq : Nat) (s : capture_state) (t : tick) (h : lap_inv s) :
    lap_inv (lap_tick freq s t) := by
  unfold lap_tick
  apply log_race_lap_inv
  split_ifs
  · exact finish_line_check_lap_inv _ _ _ (update_lap_time_lap_inv _ _ _ h)
  · exact update_lap_time_lap_inv _ _ _ h

/-- Only the entries `0 .. n_laps - 1` of `lap_times` are ever written. -/
theorem lap_tick_lap_times_bound (freq : Nat) (s : capture_state) (t : tick) (i : Nat)
    (hi : n_laps ≤ i) : (lap_tick freq s t).lap_times i = s.lap_times i := by
  by_cases hl : s.lap < n_laps
  · have hne : i ≠ s.lap := by omega
    cases hv : s.finish_line_valid
    · rw [lap_tick_invalid freq s t hv, log_race_lap_times]
      exact update_lap_time_completed freq t.now s i hne
    · rw [lap_tick_valid freq s t hv, log_race_lap_times, finish_line_check_lap_times]
      exact update_lap_time_completed freq t.now s i hne
  · rw [lap_tick_lap_times_of_finished freq s t hl]

theorem race_run_lap_inv (freq : Nat) (steps : List (Bool × tick)) :
    ∀ s : capture_state, lap_inv s →
      lap_inv (race_run freq s steps) ∧
      ∀ i, n_laps ≤ i → (race_run freq s steps).lap_times i = s.lap_times i := by
  induction steps with
  | nil => intro s h; exact ⟨h, fun _ _ => rfl⟩
  | cons rt rest ih =>
    intro s h
    have h1 := lap_tick_lap_inv freq _ rt.2 (handle_reset_lap_inv s (s.reset_race || rt.1) h)
    obtain ⟨a, b⟩ := ih _ h1
    refine ⟨a, fun i hi => ?_⟩
    have e := b i hi
    rw [lap_tick_lap_times_bound freq _ rt.2 i hi] at e
    rw [show race_run freq s (rt :: rest) = race_run freq (lap_tick freq
      (handle_reset { s with reset_race := s.reset_race || rt.1 }) rt.2) rest from rfl, e]
    unfold handle_reset
    split_ifs <;> rfl

theorem lap_inv_congr (s t : capture_state) (h : same_lap_fields s t) (hs : lap_inv s) :
    lap_inv t := by
  obtain ⟨a1, _, _, a4, a5, _⟩ := h
  unfold lap_inv at hs ⊢
  rw [a1, a4, a5]
  exact hs

theorem capture_run_lap_inv (n freq : Nat) (hn : 0 < n) (hn2 : n < 2 ^ 31) (fs : List frame) :
    ∀ s : capture_state, background_shaped n s → lap_inv s → (∀ f ∈ fs, frame_shaped n f) →
      ∃ s', capture_run freq s fs = some s' ∧ background_shaped n s' ∧ lap_inv s' := by
  induction fs with
  | nil => intro s hs hi _; exact ⟨s, rfl, hs, hi⟩
  | cons f rest ih =>
    intro s hs hi hfs
    obtain ⟨t, p, e, hts, hl, _⟩ := capture_frame_spec n freq s f hn hn2 hs
      (hfs f (List.mem_cons_self _ _))
    have h1 : lap_inv t := lap_inv_congr _ t hl
      (handle_reset_lap_inv s (s.reset_race || f.reset_request) hi)
    have h2 := lap_tick_lap_inv freq t
      { percent := p, now := f.now, fopen_ok := f.fopen_ok } h1
    have h3 := background_shaped_congr n _ _ (lap_tick_same_background freq t
      { percent := p, now := f.now, fopen_ok := f.fopen_ok }) hts
    obtain ⟨s', e', hs', hi'⟩ := ih _ h3 h2 (fun g hg => hfs g (List.mem_cons_of_mem _ hg))
    refine ⟨s', ?_, hs', hi'⟩
    show (capture_frame freq s f).bind _ = _
    rw [e]
    exact e'

/-- C29: invariant of the lap state machine. From any state that satisfies it (the state
on entry to the capture loop does), after every sequence of ticks with or without reset
requests: `lap ≤ 3` and the fastest-lap index is below 3; no entry of `lap_times` at
index 3 or above is ever written; and whenever `lap ≥ 1` the fastest-lap index is below
`lap`, holds the minimum of the recorded durations `lap_times[0 .. lap-1]`, and every
smaller index holds a strictly larger duration. The same holds after every sequence of
frames of the capture loop. -/
theorem lap_state_invariant (freq : Nat) (g : Nat → ℚ) (s : capture_state)
    (steps : List (Bool × tick)) (fs : List frame) (h : lap_inv s)
    (hfs : ∀ f ∈ fs, frame_shaped 16384 f) :
    n_laps = 3 ∧ lap_inv (capture_init g) ∧
    ((race_run freq s steps).lap ≤ 3 ∧ (race_run freq s steps).fastest_lap < 3 ∧
      (∀ i, 3 ≤ i → (race_run freq s steps).lap_times i = s.lap_times i) ∧
      (1 ≤ (race_run freq s steps).lap →
        (race_run freq s steps).fastest_lap < (race_run freq s steps).lap ∧
        (∀ j, j < (race_run freq s steps).lap →
          (race_run freq s steps).lap_times (race_run freq s steps).fastest_lap ≤
            (race_run freq s steps).lap_times j) ∧
        (∀ j, j < (race_run freq s steps).fastest_lap →
          (race_run freq s steps).lap_times (race_run freq s steps).fastest_lap <
            (race_run freq s steps).lap_times j))) ∧
    ∃ s', capture_run freq (capture_init g) fs = some s' ∧ lap_inv s' := by
  have h0 : lap_inv (capture_init g) :=
    ⟨Nat.zero_le _, by show (0 : Nat) < n_laps; decide, fun h1 => absurd h1 (Nat.not_succ_le_zero 0)⟩
  obtain ⟨⟨a1, a2, a3⟩, b⟩ := race_run_lap_inv freq steps s h
  obtain ⟨s', e, _, hi⟩ := capture_run_lap_inv 16384 freq (by decide) (by decide) fs
    (capture_init g) (capture_init_shaped g) h0 hfs
  exact ⟨rfl, h0, ⟨a1, a2, b, a3⟩, s', e, hi⟩

/-- Witness of C29: from a race with one recorded lap, a crossing that records lap 2
followed by a tick with a reset request. -/
theorem lap_state_invariant_witness :
    (lap_inv running_state ∧ ∀ f ∈ still_frames 2, frame_shaped 16384 f) ∧
    (race_run 10 running_state
      [(false, { percent := 50, now := 1060, fopen_ok := true }),
       (true, { percent := 0, now := 1061, fopen_ok := true })]).lap ≤ 3 := by
  have h : lap_inv running_state := by
    refine ⟨by decide, by decide, fun _ => ⟨by decide, fun j hj => ?_, fun j hj => ?_⟩⟩
    · have hj0 : j = 0 := by
        have : j < 1 := hj
        omega
      rw [hj0]
      exact le_refl _
    · exact absurd hj (Nat.not_lt_zero j)
  exact ⟨⟨h, still_frames_shaped 2⟩,
    (lap_state_invariant 10 (fun _ => 0) running_state
      [(false, { percent := 50, now := 1060, fopen_ok := true }),
       (true, { percent := 0, now := 1061, fopen_ok := true })] (still_frames 2) h
      (still_frames_shaped 2)).2.2.1.1⟩

theorem clamp255_eq (n : Int) :
    clamp255 n = if n < 0 then 0 else if 255 < n then 255 else n := rfl

theorem clamp255_range (n : Int) : 0 ≤ clamp255 n ∧ clamp255 n ≤ 255 := by
  rw [clamp255_eq]
  split_ifs <;> omega

theorem clamp255_id_iff (n : Int) : clamp255 n = n ↔ (0 ≤ n ∧ n ≤ 255) := by
  rw [clamp255_eq]
  split_ifs <;> omega

theorem vp_eq (V : Int) : vp V = V + V / 4 + V / 8 + V / 32 := by
  unfold vp
  simp only [Int.shiftRight_eq_div_pow]
  norm_num

theorem up_eq (U : Int) : up U = U + U / 2 + U / 4 + U / 64 := by
  unfold up
  simp only [Int.shiftRight_eq_div_pow]
  norm_num

theorem uvp_eq (U V : Int) :
    uvp U V = -(U / 4 + U / 16 + U / 32) - (V / 2 + V / 8 + V / 16 + V / 32) := by
  unfold uvp
  simp only [Int.shiftRight_eq_div_pow]
  norm_num

theorem vp_bounds (V : Int) (h1 : -128 ≤ V) (h2 : V ≤ 127) :
    -4000 < 1000 * vp V - 1402 * V ∧ 1000 * vp V - 1402 * V < 4000 := by
  rw [vp_eq]
  omega

theorem up_bounds (U : Int) (h1 : -128 ≤ U) (h2 : U ≤ 127) :
    -4000 < 1000 * up U - 1772 * U ∧ 1000 * up U - 1772 * U < 4000 := by
  rw [up_eq]
  omega

theorem uvp_u_bounds (U : Int) (h1 : -128 ≤ U) (h2 : U ≤ 127) :
    -50000 ≤ 344136 * U - 1000000 * (U / 4 + U / 16 + U / 32) ∧
    344136 * U - 1000000 * (U / 4 + U / 16 + U / 32) ≤ 2710000 := by
  omega

theorem uvp_v_bounds (V : Int) (h1 : -128 ≤ V) (h2 : V ≤ 127) :
    -590000 ≤ 714136 * V - 1000000 * (V / 2 + V / 8 + V / 16 + V / 32) ∧
    714136 * V - 1000000 * (V / 2 + V / 8 + V / 16 + V / 32) ≤ 3740000 := by
  omega

theorem uvp_bounds (U V : Int) (h1 : -128 ≤ U) (h2 : U ≤ 127) (h3 : -128 ≤ V) (h4 : V ≤ 127) :
    -7000000 < 1000000 * uvp U V + 344136 * U + 714136 * V ∧
    1000000 * uvp U V + 344136 * U + 714136 * V < 7000000 := by
  rw [uvp_eq]
  have hu := uvp_u_bounds U h1 h2
  have hv := uvp_v_bounds V h3 h4
  generalize U / 4 + U / 16 + U / 32 = a at hu ⊢
  generalize V / 2 + V / 8 + V / 16 + V / 32 = b at hv ⊢
  omega

/-- C28: the shift-based chroma offsets of `yuyv2rgba` stay close to the BT.601
coefficients. For all integers `U`, `V` in `[-128, 127]`, with `>>` the arithmetic
shift: `|vp - 1.402 V| < 4`, `|up - 1.772 U| < 4` and
`|uvp + 0.344136 U + 0.714136 V| < 7`. -/
theorem chroma_offsets_approximate (U V : Int) (hU1 : -128 ≤ U) (hU2 : U ≤ 127)
    (hV1 : -128 ≤ V) (hV2 : V ≤ 127) :
    |((vp V : Int) : ℚ) - 1.402 * (V : ℚ)| < 4 ∧
    |((up U : Int) : ℚ) - 1.772 * (U : ℚ)| < 4 ∧
    |((uvp U V : Int) : ℚ) + 0.344136 * (U : ℚ) + 0.714136 * (V : ℚ)| < 7 := by
  obtain ⟨a1, a2⟩ := vp_bounds V hV1 hV2
  obtain ⟨b1, b2⟩ := up_bounds U hU1 hU2
  obtain ⟨c1, c2⟩ := uvp_bounds U V hU1 hU2 hV1 hV2
  have a1q : ((-4000 : Int) : ℚ) < ((1000 * vp V - 1402 * V : Int) : ℚ) := by exact_mod_cast a1
  have a2q : ((1000 * vp V - 1402 * V : Int) : ℚ) < ((4000 : Int) : ℚ) := by exact_mod_cast a2
  have b1q : ((-4000 : Int) : ℚ) < ((1000 * up U - 1772 * U : Int) : ℚ) := by exact_mod_cast b1
  have b2q : ((1000 * up U - 1772 * U : Int) : ℚ) < ((4000 : Int) : ℚ) := by exact_mod_cast b2
  have c1q : ((-7000000 : Int) : ℚ) <
      ((1000000 * uvp U V + 344136 * U + 714136 * V : Int) : ℚ) := by exact_mod_cast c1
  have c2q : ((1000000 * uvp U V + 344136 * U + 714136 * V : Int) : ℚ) <
      ((7000000 : Int) : ℚ) := by exact_mod_cast c2
  push_cast at a1q a2q b1q b2q c1q c2q
  refine ⟨abs_lt.mpr ⟨?_, ?_⟩, abs_lt.mpr ⟨?_, ?_⟩, abs_lt.mpr ⟨?_, ?_⟩⟩ <;> norm_num <;> linarith

/-- Witness of C28: the extreme chroma values `U = 127`, `V = -128`. -/
theorem chroma_offsets_approximate_witness :
    ((-128 : Int) ≤ 127 ∧ (127 : Int) ≤ 127 ∧ (-128 : Int) ≤ -128 ∧ (-128 : Int) ≤ 127) ∧
    |((vp (-128) : Int) : ℚ) - 1.402 * ((-128 : Int) : ℚ)| < 4 ∧
    |((up 127 : Int) : ℚ) - 1.772 * ((127 : Int) : ℚ)| < 4 ∧
    |((uvp 127 (-128) : Int) : ℚ) + 0.344136 * ((127 : Int) : ℚ) +
      0.714136 * ((-128 : Int) : ℚ)| < 7 :=
  ⟨by decide, chroma_offsets_approximate 127 (-128) (by decide) (by decide) (by decide)
    (by decide)⟩

theorem store_u8_clamp255 (x : Int) : store_u8 (clamp255 x) = (clamp255 x).toNat := by
  have h := clamp255_range x
  unfold store_u8
  rw [Int.emod_eq_of_lt h.1 (by omega)]

/-- The loop of `yuyv2y` after `c` iterations. -/
theorem yuyv2y_loop (yuyv out : List Nat) (c : Nat) (hy : 2 * c ≤ yuyv.length + 1)
    (ho : c ≤ out.length) :
    ∃ o, (List.range c).foldlM (yuyv2y_body yuyv) out = some o ∧ o.length = out.length ∧
      ∀ j, o.getD j 0 = if j < c then yuyv.getD (2 * j) 0 else out.getD j 0 := by
  induction c with
  | zero => exact ⟨out, rfl, rfl, fun j => by simp⟩
  | succ k ih =>
    obtain ⟨o, e, hl, hd⟩ := ih (by omega) (by omega)
    refine ⟨o.set k (yuyv.getD (2 * k) 0), ?_, by rw [List.length_set, hl], fun j => ?_⟩
    · rw [List.range_succ, List.foldlM_append, e]
      show (yuyv2y_body yuyv o k).bind _ = _
      unfold yuyv2y_body
      rw [if_pos ⟨by omega, by omega⟩]
      rfl
    · by_cases hj : j = k
      · subst hj
        rw [getD_set_eq _ _ _ (by omega), if_pos (Nat.lt_succ_self _)]
      · rw [getD_set_ne _ _ _ _ (fun h => hj h.symm), hd]
        by_cases hlt : j < k
        · rw [if_pos hlt, if_pos (by omega)]
        · rw [if_neg hlt, if_neg (by omega)]

theorem getD_replicate_lt (N v k : Nat) (h : k < N) : (List.replicate N v).getD k 0 = v := by
  rw [List.getD_eq_getElem?_getD, List.getElem?_replicate, if_pos h]
  rfl

/-- C21 as stated fails: for `n_pixels = 2^30` the `int` product `n_pixels * 2` of
main.c 634 wraps to `-2^31`, the condition `i < yuyv_max` is false at `i = 0` and no byte
is written: on a packed buffer of `2^31` bytes, all 7, the output buffer keeps its zeros,
so `out[0]` differs from `yuyv[0]`. -/
theorem yuyv2y_bound_wraps :
    (List.replicate 2147483648 7).length = 2 * 1073741824 ∧
    1073741824 ≤ (List.replicate 1073741824 0).length ∧
    yuyv2y (List.replicate 2147483648 7) (List.replicate 1073741824 0)
        ((1073741824 : Nat) : Int) = some (List.replicate 1073741824 0) ∧
    (List.replicate 1073741824 0).getD 0 0 ≠ (List.replicate 2147483648 7).getD (2 * 0) 0 := by
  refine ⟨?_, ?_, ?_, ?_⟩
  · rw [List.length_replicate]
  · rw [List.length_replicate]
  · have hc : ((wrap_int (((1073741824 : Nat) : Int) * 2) + 1) / 2).toNat = 0 := by decide
    unfold yuyv2y
    simp only [hc, List.range_zero, List.foldlM_nil]
    rfl
  · rw [getD_replicate_lt _ _ _ (by norm_num), getD_replicate_lt _ _ _ (by norm_num)]
    decide

/-- C21 (amended): `yuyv2y` is the projection onto the luma bytes for fewer than `2^30`
pixels, so that the `int` product `n_pixels * 2` does not overflow. For every packed
buffer of `2 * n_pixels` bytes and every output buffer of at least `n_pixels` bytes the
call performs no access outside the buffers (in particular no read at index
`2 * n_pixels` or beyond), writes `out[j] = yuyv[2 * j]` for every `j < n_pixels`, and
leaves every other output byte as it was. -/
theorem yuyv2y_luma (yuyv out : List Nat) (n : Nat) (hsize : n < 2 ^ 30)
    (hy : yuyv.length = 2 * n) (ho : n ≤ out.length) :
    ∃ o, yuyv2y yuyv out (n : Int) = some o ∧ o.length = out.length ∧
      (∀ j, j < n → o.getD j 0 = yuyv.getD (2 * j) 0) ∧
      (∀ j, n ≤ j → o.getD j 0 = out.getD j 0) := by
  obtain ⟨o, e, hl, hd⟩ := yuyv2y_loop yuyv out n (by omega) ho
  refine ⟨o, ?_, hl, fun j hj => by rw [hd, if_pos hj], fun j hj => by rw [hd, if_neg (by omega)]⟩
  unfold yuyv2y
  have hw : wrap_int ((n : Int) * 2) = (n : Int) * 2 := wrap_int_eq _ (by omega) (by omega)
  have hc : ((((n : Int) * 2 + 1) / 2).toNat) = n := by omega
  simp only [hw, hc]
  exact e

/-- Witness of C21 (amended): three pixels. -/
theorem yuyv2y_luma_witness :
    (3 < 2 ^ 30 ∧ [10, 128, 20, 129, 30, 130].length = 2 * 3 ∧ 3 ≤ [0, 0, 0, 7].length) ∧
    yuyv2y [10, 128, 20, 129, 30, 130] [0, 0, 0, 7] 3 = some [10, 20, 30, 7] ∧
    ∃ o, yuyv2y [10, 128, 20, 129, 30, 130] [0, 0, 0, 7] ((3 : Nat) : Int) = some o ∧
      o.length = [0, 0, 0, 7].length ∧
      (∀ j, j < 3 → o.getD j 0 = [10, 128, 20, 129, 30, 130].getD (2 * j) 0) ∧
      (∀ j, 3 ≤ j → o.getD j 0 = [0, 0, 0, 7].getD j 0) :=
  ⟨⟨by norm_num, rfl, by decide⟩, by decide,
    yuyv2y_luma [10, 128, 20, 129, 30, 130] [0, 0, 0, 7] 3 (by norm_num) rfl (by decide)⟩

/-- One iteration of the loop of `yuyv2rgba` writes the eight bytes of its pixel pair. -/
theorem yuyv2rgba_body_spec (yuyv rgba : List Nat) (t : Nat) (hy : 4 * t + 3 < yuyv.length)
    (hr : 8 * t + 7 < rgba.length) :
    ∃ o, yuyv2rgba_body yuyv rgba t = some o ∧ o.length = rgba.length ∧
      ∀ k, o.getD k 0 =
        if 8 * t ≤ k ∧ k < 8 * t + 8 then bgra_channel yuyv (k / 4) (k % 4)
        else rgba.getD k 0 := by
  unfold yuyv2rgba_body
  simp only [if_pos (And.intro hy hr), store_u8_clamp255]
  refine ⟨_, rfl, by simp only [List.length_set], fun k => ?_⟩
  by_cases hk : 8 * t ≤ k ∧ k < 8 * t + 8
  · rw [if_pos hk]
    have hcases : k = 8 * t ∨ k = 8 * t + 1 ∨ k = 8 * t + 2 ∨ k = 8 * t + 3 ∨ k = 8 * t + 4 ∨
        k = 8 * t + 5 ∨ k = 8 * t + 6 ∨ k = 8 * t + 7 := by omega
    have h2t : (2 * t) / 2 = t := by omega
    have h2t1 : (2 * t + 1) / 2 = t := by omega
    rcases hcases with h | h | h | h | h | h | h | h <;> subst h
    · have e1 : 8 * t / 4 = 2 * t := by omega
      have e2 : 8 * t % 4 = 0 := by omega
      rw [e1, e2]
      unfold bgra_channel
      rw [h2t, if_pos rfl]
      simp only [List.getD_eq_getElem?_getD, List.getElem?_set, List.length_set]
      simp [show 2 * (2 * t) = 4 * t by omega, hr, show 8 * t < rgba.length by omega]
    · have e1 : (8 * t + 1) / 4 = 2 * t := by omega
      have e2 : (8 * t + 1) % 4 = 1 := by omega
      rw [e1, e2]
      unfold bgra_channel
      rw [h2t]
      simp only [List.getD_eq_getElem?_getD, List.getElem?_set, List.length_set]
      simp [show 2 * (2 * t) = 4 * t by omega, hr, show 8 * t + 1 < rgba.length by omega]
    · have e1 : (8 * t + 2) / 4 = 2 * t := by omega
      have e2 : (8 * t + 2) % 4 = 2 := by omega
      rw [e1, e2]
      unfold bgra_channel
      rw [h2t]
      simp only [List.getD_eq_getElem?_getD, List.getElem?_set, List.length_set]
      simp [show 2 * (2 * t) = 4 * t by omega, hr, show 8 * t + 2 < rgba.length by omega]
    · have e1 : (8 * t + 3) / 4 = 2 * t := by omega
      have e2 : (8 * t + 3) % 4 = 3 := by omega
      rw [e1, e2]
      unfold bgra_channel
      rw [h2t]
      simp only [List.getD_eq_getElem?_getD, List.getElem?_set, List.length_set]
      simp [show 2 * (2 * t) = 4 * t by omega, hr, show 8 * t + 3 < rgba.length by omega]
    · have e1 : (8 * t + 4) / 4 = 2 * t + 1 := by omega
      have e2 : (8 * t + 4) % 4 = 0 := by omega
      rw [e1, e2]
      unfold bgra_channel
      rw [h2t1]
      simp only [List.getD_eq_getElem?_getD, List.getElem?_set, List.length_set]
      simp [show 2 * (2 * t + 1) = 4 * t + 2 by omega, hr,
        show 8 * t + 4 < rgba.length by omega]
    · have e1 : (8 * t + 5) / 4 = 2 * t + 1 := by omega
      have e2 : (8 * t + 5) % 4 = 1 := by omega
      rw [e1, e2]
      unfold bgra_channel
      rw [h2t1]
      simp only [List.getD_eq_getElem?_getD, List.getElem?_set, List.length_set]
      simp [show 2 * (2 * t + 1) = 4 * t + 2 by omega, hr,
        show 8 * t + 5 < rgba.length by omega]
    · have e1 : (8 * t + 6) / 4 = 2 * t + 1 := by omega
      have e2 : (8 * t + 6) % 4 = 2 := by omega
      rw [e1, e2]
      unfold bgra_channel
      rw [h2t1]
      simp only [List.getD_eq_getElem?_getD, List.getElem?_set, List.length_set]
      simp [show 2 * (2 * t + 1) = 4 * t + 2 by omega, hr,
        show 8 * t + 6 < rgba.length by omega]
    · have e1 : (8 * t + 7) / 4 = 2 * t + 1 := by omega
      have e2 : (8 * t + 7) % 4 = 3 := by omega
      rw [e1, e2]
      unfold bgra_channel
      rw [h2t1]
      simp only [List.getD_eq_getElem?_getD, List.getElem?_set, List.length_set]
      simp [show 2 * (2 * t + 1) = 4 * t + 2 by omega, hr]
  · rw [if_neg hk]
    simp only [List.getD_eq_getElem?_getD, List.getElem?_set]
    have h0 : ¬ 8 * t = k := by omega
    have h1 : ¬ 8 * t + 1 = k := by omega
    have h2 : ¬ 8 * t + 2 = k := by omega
    have h3 : ¬ 8 * t + 3 = k := by omega
    have h4 : ¬ 8 * t + 4 = k := by omega
    have h5 : ¬ 8 * t + 5 = k := by omega
    have h6 : ¬ 8 * t + 6 = k := by omega
    have h7 : ¬ 8 * t + 7 = k := by omega
    simp only [h0, h1, h2, h3, h4, h5, h6, h7, if_false]

/-- The loop of `yuyv2rgba` after `c` iterations. -/
theorem yuyv2rgba_loop (yuyv rgba : List Nat) (c : Nat) (hy : 4 * c ≤ yuyv.length)
    (hr : 8 * c ≤ rgba.length) :
    ∃ o, (List.range c).foldlM (yuyv2rgba_body yuyv) rgba = some o ∧
      o.length = rgba.length ∧
      ∀ k, o.getD k 0 =
        if k < 8 * c then bgra_channel yuyv (k / 4) (k % 4) else rgba.getD k 0 := by
  induction c with
  | zero => exact ⟨rgba, rfl, rfl, fun k => by simp⟩
  | succ t ih =>
    obtain ⟨o, e, hl, hd⟩ := ih (by omega) (by omega)
    obtain ⟨o', e', hl', hd'⟩ := yuyv2rgba_body_spec yuyv o t (by omega) (by omega)
    refine ⟨o', ?_, by rw [hl', hl], fun k => ?_⟩
    · rw [List.range_succ, List.foldlM_append, e]
      show (yuyv2rgba_body yuyv o t).bind _ = _
      rw [e']
      rfl
    · rw [hd' k]
      by_cases hk : 8 * t ≤ k ∧ k < 8 * t + 8
      · rw [if_pos hk, if_pos (by omega)]
      · rw [if_neg hk, hd k]
        by_cases hlt : k < 8 * t
        · rw [if_pos hlt, if_pos (by omega)]
        · rw [if_neg hlt, if_neg (by omega)]

/-- Function `yuyv2rgba` on an even number of pixels below `2^29`. -/
theorem yuyv2rgba_even (yuyv rgba : List Nat) (n : Nat) (heven : n % 2 = 0)
    (hsize : n < 2 ^ 29) (hy : yuyv.length = 2 * n) (hr : 4 * n ≤ rgba.length) :
    ∃ o, yuyv2rgba yuyv rgba (n : Int) = some o ∧ o.length = rgba.length ∧
      ∀ k, o.getD k 0 =
        if k < 4 * n then bgra_channel yuyv (k / 4) (k % 4) else rgba.getD k 0 := by
  obtain ⟨o, e, hl, hd⟩ := yuyv2rgba_loop yuyv rgba (n / 2) (by omega) (by omega)
  refine ⟨o, ?_, hl, fun k => ?_⟩
  · unfold yuyv2rgba
    have hw2 : wrap_int ((n : Int) * 2) = (n : Int) * 2 := wrap_int_eq _ (by omega) (by omega)
    have hw4 : wrap_int ((n : Int) * 4) = (n : Int) * 4 := wrap_int_eq _ (by omega) (by omega)
    have hc : min ((((n : Int) * 2 + 3) / 4).toNat) ((((n : Int) * 4 + 7) / 8).toNat) = n / 2 := by
      omega
    simp only [hw2, hw4, hc]
    exact e
  · rw [hd k]
    by_cases hk : k < 4 * n
    · rw [if_pos hk, if_pos (by omega)]
    · rw [if_neg hk, if_neg (by omega)]

theorem clamp255_toNat (x : Int) : (((clamp255 x).toNat : Nat) : Int) = clamp255 x :=
  Int.toNat_of_nonneg (clamp255_range x).1

/-- The call of `yuyv2rgba` for `2^29` pixels writes nothing: the `int` product
`n_pixels * 4` wraps to `-2^31` and the loop does not run. -/
theorem yuyv2rgba_skips (yuyv rgba : List Nat) :
    yuyv2rgba yuyv rgba ((536870912 : Nat) : Int) = some rgba := by
  have hc : min ((wrap_int (((536870912 : Nat) : Int) * 2) + 3) / 4).toNat
      ((wrap_int (((536870912 : Nat) : Int) * 4) + 7) / 8).toNat = 0 := by decide
  unfold yuyv2rgba
  simp only [hc, List.range_zero, List.foldlM_nil]
  rfl

/-- C22 as stated fails: for `n_pixels = 2^29` the `int` product `n_pixels * 4` of
main.c 601 wraps to `-2^31`, the condition `j < rgb_max` is false at `j = 0` and no byte is
written: the output buffer keeps its zeros, so the alpha byte of pixel 0 is not 255. -/
theorem yuyv2rgba_bound_wraps :
    536870912 % 2 = 0 ∧
    (List.replicate 1073741824 128).length = 2 * 536870912 ∧
    4 * 536870912 ≤ (List.replicate 2147483648 0).length ∧
    yuyv2rgba (List.replicate 1073741824 128) (List.replicate 2147483648 0)
        ((536870912 : Nat) : Int) = some (List.replicate 2147483648 0) ∧
    (List.replicate 2147483648 0).getD (4 * 0 + 3) 0 ≠ 255 := by
  refine ⟨by norm_num, ?_, ?_, yuyv2rgba_skips _ _, ?_⟩
  · rw [List.length_replicate]
  · rw [List.length_replicate]
  · rw [getD_replicate_lt _ _ _ (by norm_num)]
    decide

/-- C22 (amended): for every packed YUYV buffer of an even number `n` of pixels below
`2^29`, so that the `int` products `n_pixels * 2` and `n_pixels * 4` do not overflow,
`yuyv2rgba` writes
four bytes per pixel, in the order blue, green, red, alpha: alpha is 255 and each colour
byte is the luma of the pixel minus 16 plus the blue (`up`), green (`uvp`) or red (`vp`)
offset of the pair, clamped to `[0, 255]`; the offsets are computed from the `U - 128` and
`V - 128` of the pair `p / 2`, shared by both pixels of the pair. Bytes past the `4 n`
written ones are untouched. -/
theorem yuyv2rgba_pixels (yuyv rgba : List Nat) (n : Nat) (heven : n % 2 = 0)
    (hsize : n < 2 ^ 29) (hy : yuyv.length = 2 * n) (hr : 4 * n ≤ rgba.length) :
    ∃ o, yuyv2rgba yuyv rgba (n : Int) = some o ∧ o.length = rgba.length ∧
      (∀ p, p < n →
        ((o.getD (4 * p) 0 : Nat) : Int) =
          clamp255 ((yuyv.getD (2 * p) 0 : Int) - 16 +
            up ((yuyv.getD (4 * (p / 2) + 1) 0 : Int) - 128)) ∧
        ((o.getD (4 * p + 1) 0 : Nat) : Int) =
          clamp255 ((yuyv.getD (2 * p) 0 : Int) - 16 +
            uvp ((yuyv.getD (4 * (p / 2) + 1) 0 : Int) - 128)
              ((yuyv.getD (4 * (p / 2) + 3) 0 : Int) - 128)) ∧
        ((o.getD (4 * p + 2) 0 : Nat) : Int) =
          clamp255 ((yuyv.getD (2 * p) 0 : Int) - 16 +
            vp ((yuyv.getD (4 * (p / 2) + 3) 0 : Int) - 128)) ∧
        o.getD (4 * p + 3) 0 = 255) ∧
      (∀ k, 4 * n ≤ k → o.getD k 0 = rgba.getD k 0) := by
  obtain ⟨o, e, hl, hd⟩ := yuyv2rgba_even yuyv rgba n heven hsize hy hr
  refine ⟨o, e, hl, fun p hp => ⟨?_, ?_, ?_, ?_⟩, fun k hk => by rw [hd, if_neg (by omega)]⟩
  · rw [hd, if_pos (by omega), show 4 * p / 4 = p by omega, show 4 * p % 4 = 0 by omega]
    unfold bgra_channel
    simp only [if_true]
    exact clamp255_toNat _
  · rw [hd, if_pos (by omega), show (4 * p + 1) / 4 = p by omega,
      show (4 * p + 1) % 4 = 1 by omega]
    unfold bgra_channel
    simp only [if_true, if_false, one_ne_zero]
    exact clamp255_toNat _
  · rw [hd, if_pos (by omega), show (4 * p + 2) / 4 = p by omega,
      show (4 * p + 2) % 4 = 2 by omega]
    unfold bgra_channel
    simp only [if_true, if_false, OfNat.ofNat_ne_zero, OfNat.ofNat_ne_one]
    exact clamp255_toNat _
  · rw [hd, if_pos (by omega), show (4 * p + 3) / 4 = p by omega,
      show (4 * p + 3) % 4 = 3 by omega]
    unfold bgra_channel
    simp

/-- Witness of C22 (amended): one pixel pair. -/
theorem yuyv2rgba_pixels_witness :
    (2 % 2 = 0 ∧ 2 < 2 ^ 29 ∧ [100, 90, 200, 240].length = 2 * 2 ∧
      4 * 2 ≤ (List.replicate 9 7).length) ∧
    yuyv2rgba [100, 90, 200, 240] (List.replicate 9 7) 2 =
      some [16, 19, 241, 255, 116, 119, 255, 255, 7] ∧
    ∃ o, yuyv2rgba [100, 90, 200, 240] (List.replicate 9 7) ((2 : Nat) : Int) = some o ∧
      o.length = (List.replicate 9 7).length := by
  obtain ⟨o, e, hl, _⟩ := yuyv2rgba_pixels [100, 90, 200, 240] (List.replicate 9 7) 2 rfl
    (by norm_num) rfl (by decide)
  exact ⟨⟨rfl, by norm_num, rfl, by decide⟩, by decide, o, e, hl⟩

theorem clamp255_toNat_le (x : Int) : (clamp255 x).toNat ≤ 255 := by
  have h := clamp255_range x
  omega

/-- C23 as stated fails: for the even pixel count `2^29` the `int` product `n_pixels * 4`
wraps and `yuyv2rgba` writes nothing, so the output is the buffer it was given, uniform
or not: on a constant input (every byte 128) and an output buffer holding 9 followed by
zeros, the first bytes of pixel 0 and of pixel 1 differ after the call. -/
theorem yuyv2rgba_constant_wraps :
    536870912 % 2 = 0 ∧
    (List.replicate 1073741824 128).length = 2 * 536870912 ∧
    4 * 536870912 ≤ (9 :: List.replicate 2147483647 0).length ∧
    (∀ x ∈ List.replicate 1073741824 128, x = 128) ∧
    yuyv2rgba (List.replicate 1073741824 128) (9 :: List.replicate 2147483647 0)
        ((536870912 : Nat) : Int) = some (9 :: List.replicate 2147483647 0) ∧
    (9 :: List.replicate 2147483647 0).getD (4 * 0) 0 ≠
      (9 :: List.replicate 2147483647 0).getD (4 * 1) 0 := by
  refine ⟨by norm_num, ?_, ?_, fun x hx => List.eq_of_mem_replicate hx, yuyv2rgba_skips _ _, ?_⟩
  · rw [List.length_replicate]
  · rw [List.length_cons, List.length_replicate]
  · rw [show 4 * 0 = 0 from rfl, show 4 * 1 = 3 + 1 from rfl, List.getD_cons_zero,
      List.getD_cons_succ, getD_replicate_lt _ _ _ (by norm_num)]
    decide

/-- C23 (amended): a constant input gives a uniform output for an even pixel count below
`2^29`, so that the `int` products `n_pixels * 2` and `n_pixels * 4` do not overflow. If
every luma byte of a packed YUYV buffer of `n` pixels is `Y`, every U byte is `U` and
every V byte is `V`, then `yuyv2rgba` writes the same four bytes `b, g, r, 255` for every
pixel, each of them in `[0, 255]`. -/
theorem yuyv2rgba_constant (yuyv rgba : List Nat) (n Y U V : Nat) (heven : n % 2 = 0)
    (hsize : n < 2 ^ 29) (hy : yuyv.length = 2 * n) (hr : 4 * n ≤ rgba.length)
    (hY : ∀ p, p < n → yuyv.getD (2 * p) 0 = Y)
    (hU : ∀ q, 2 * q < n → yuyv.getD (4 * q + 1) 0 = U)
    (hV : ∀ q, 2 * q < n → yuyv.getD (4 * q + 3) 0 = V) :
    ∃ o b g r, yuyv2rgba yuyv rgba (n : Int) = some o ∧ b ≤ 255 ∧ g ≤ 255 ∧ r ≤ 255 ∧
      ∀ p, p < n →
        o.getD (4 * p) 0 = b ∧ o.getD (4 * p + 1) 0 = g ∧ o.getD (4 * p + 2) 0 = r ∧
        o.getD (4 * p + 3) 0 = 255 := by
  obtain ⟨o, e, _, hd⟩ := yuyv2rgba_even yuyv rgba n heven hsize hy hr
  refine ⟨o, (clamp255 ((Y : Int) - 16 + up ((U : Int) - 128))).toNat,
    (clamp255 ((Y : Int) - 16 + uvp ((U : Int) - 128) ((V : Int) - 128))).toNat,
    (clamp255 ((Y : Int) - 16 + vp ((V : Int) - 128))).toNat, e, clamp255_toNat_le _,
    clamp255_toNat_le _, clamp255_toNat_le _, fun p hp => ?_⟩
  have h1 := hY p hp
  have h2 := hU (p / 2) (by omega)
  have h3 := hV (p / 2) (by omega)
  refine ⟨?_, ?_, ?_, ?_⟩
  · rw [hd, if_pos (by omega), show 4 * p / 4 = p by omega, show 4 * p % 4 = 0 by omega]
    unfold bgra_channel
    simp only [if_true, h1, h2]
  · rw [hd, if_pos (by omega), show (4 * p + 1) / 4 = p by omega,
      show (4 * p + 1) % 4 = 1 by omega]
    unfold bgra_channel
    simp only [if_true, if_false, one_ne_zero, h1, h2, h3]
  · rw [hd, if_pos (by omega), show (4 * p + 2) / 4 = p by omega,
      show (4 * p + 2) % 4 = 2 by omega]
    unfold bgra_channel
    simp only [if_true, if_false, OfNat.ofNat_ne_zero, OfNat.ofNat_ne_one, h1, h3]
  · rw [hd, if_pos (by omega), show (4 * p + 3) / 4 = p by omega,
      show (4 * p + 3) % 4 = 3 by omega]
    unfold bgra_channel
    simp

/-- Witness of C23 (amended): four pixels of one colour. -/
theorem yuyv2rgba_constant_witness :
    (4 % 2 = 0 ∧ 4 < 2 ^ 29 ∧ [100, 90, 100, 240, 100, 90, 100, 240].length = 2 * 4 ∧
      4 * 4 ≤ (List.replicate 16 0).length ∧
      (∀ p, p < 4 → [100, 90, 100, 240, 100, 90, 100, 240].getD (2 * p) 0 = 100) ∧
      (∀ q, 2 * q < 4 → [100, 90, 100, 240, 100, 90, 100, 240].getD (4 * q + 1) 0 = 90) ∧
      (∀ q, 2 * q < 4 → [100, 90, 100, 240, 100, 90, 100, 240].getD (4 * q + 3) 0 = 240)) ∧
    yuyv2rgba [100, 90, 100, 240, 100, 90, 100, 240] (List.replicate 16 0) 4 =
      some [16, 19, 241, 255, 16, 19, 241, 255, 16, 19, 241, 255, 16, 19, 241, 255] ∧
    ∃ o b g r, yuyv2rgba [100, 90, 100, 240, 100, 90, 100, 240] (List.replicate 16 0)
        ((4 : Nat) : Int) = some o ∧ b ≤ 255 ∧ g ≤ 255 ∧ r ≤ 255 ∧
      ∀ p, p < 4 →
        o.getD (4 * p) 0 = b ∧ o.getD (4 * p + 1) 0 = g ∧ o.getD (4 * p + 2) 0 = r ∧
        o.getD (4 * p + 3) 0 = 255 := by
  have hY : ∀ p, p < 4 → [100, 90, 100, 240, 100, 90, 100, 240].getD (2 * p) 0 = 100 := by
    decide
  have hU : ∀ q, 2 * q < 4 → [100, 90, 100, 240, 100, 90, 100, 240].getD (4 * q + 1) 0 = 90 := by
    intro q hq
    have : q = 0 ∨ q = 1 := by omega
    rcases this with rfl | rfl <;> rfl
  have hV : ∀ q, 2 * q < 4 → [100, 90, 100, 240, 100, 90, 100, 240].getD (4 * q + 3) 0 = 240 := by
    intro q hq
    have : q = 0 ∨ q = 1 := by omega
    rcases this with rfl | rfl <;> rfl
  exact ⟨⟨rfl, by norm_num, rfl, by decide, hY, hU, hV⟩, by decide,
    yuyv2rgba_constant [100, 90, 100, 240, 100, 90, 100, 240] (List.replicate 16 0) 4 100 90
      240 rfl (by norm_num) rfl (by decide) hY hU hV⟩

/-- C24 as stated fails: for the in-range input `Y = 0`, `U = V = 128` (black with neutral
chroma) the three intermediate values are `-16`, outside `[0, 255]`; `clamp255` changes
them to 0, which is what `yuyv2rgba` stores. -/
theorem clamp_triggers_on_black :
    ((0 : Int) - 16 + up (128 - 128) = -16 ∧ (0 : Int) - 16 + uvp (128 - 128) (128 - 128) = -16 ∧
      (0 : Int) - 16 + vp (128 - 128) = -16) ∧
    clamp255 (-16) = 0 ∧
    yuyv2rgba [0, 128, 0, 128] (List.replicate 8 9) 2 = some [0, 0, 0, 255, 0, 0, 0, 255] := by
  decide

/-- C24 (amended): for luma and chroma bytes in `0 .. 255` the intermediate channel values
of `yuyv2rgba` lie in `[-242, 461]` (blue), `[-145, 375]` (green) and `[-196, 415]` (red),
not always in `[0, 255]`; `clamp255` returns its argument unchanged exactly when the
argument is in `[0, 255]`, which is the case for all three channels when the chroma is
neutral (`U = V = 128`) and the luma is at least 16. -/
theorem clamp255_on_bytes (Y U V : Nat) (hY : Y ≤ 255) (hU : U ≤ 255) (hV : V ≤ 255) :
    (-242 ≤ (Y : Int) - 16 + up ((U : Int) - 128) ∧
      (Y : Int) - 16 + up ((U : Int) - 128) ≤ 461) ∧
    (-145 ≤ (Y : Int) - 16 + uvp ((U : Int) - 128) ((V : Int) - 128) ∧
      (Y : Int) - 16 + uvp ((U : Int) - 128) ((V : Int) - 128) ≤ 375) ∧
    (-196 ≤ (Y : Int) - 16 + vp ((V : Int) - 128) ∧
      (Y : Int) - 16 + vp ((V : Int) - 128) ≤ 415) ∧
    (∀ x : Int, clamp255 x = x ↔ (0 ≤ x ∧ x ≤ 255)) ∧
    (U = 128 → V = 128 → 16 ≤ Y →
      clamp255 ((Y : Int) - 16 + up ((U : Int) - 128)) = (Y : Int) - 16 ∧
      clamp255 ((Y : Int) - 16 + uvp ((U : Int) - 128) ((V : Int) - 128)) = (Y : Int) - 16 ∧
      clamp255 ((Y : Int) - 16 + vp ((V : Int) - 128)) = (Y : Int) - 16) := by
  refine ⟨?_, ?_, ?_, clamp255_id_iff, fun h1 h2 h3 => ?_⟩
  · rw [up_eq]
    omega
  · rw [uvp_eq]
    omega
  · rw [vp_eq]
    omega
  · subst h1
    subst h2
    have e1 : up (((128 : Nat) : Int) - 128) = 0 := by decide
    have e2 : uvp (((128 : Nat) : Int) - 128) (((128 : Nat) : Int) - 128) = 0 := by decide
    have e3 : vp (((128 : Nat) : Int) - 128) = 0 := by decide
    rw [e1, e2, e3, add_zero, (clamp255_id_iff _).mpr (by omega)]
    exact ⟨rfl, rfl, rfl⟩

/-- Witness of C24 (amended): mid grey. -/
theorem clamp255_on_bytes_witness :
    (128 ≤ 255 ∧ 128 ≤ 255 ∧ 128 ≤ 255) ∧
    clamp255 (((128 : Nat) : Int) - 16 + up (((128 : Nat) : Int) - 128)) =
      ((128 : Nat) : Int) - 16 :=
  ⟨by decide, ((clamp255_on_bytes 128 128 128 (by decide) (by decide) (by decide)).2.2.2.2
    rfl rfl (by decide)).1⟩

theorem exchange_init_inv (blank : List Nat) : exchange_inv (exchange_init blank) := by
  refine ⟨(fun h => by cases h), ⟨(fun h => by cases h), fun h => ?_⟩,
    ⟨(fun h => by cases h), fun h => ?_⟩, (fun k h => by cases h)⟩
  · rcases h with h | h <;> cases h
  · obtain ⟨k, h⟩ := h
    cases h

/-- Every step keeps the invariant of the exchange. -/
theorem exchange_step_inv (s s' : exchange) (a : action) (hinv : exchange_inv s)
    (h : exchange_step s a = some s') : exchange_inv s' := by
  obtain ⟨i1, i2, i3, i4⟩ := hinv
  cases a with
  | fetch =>
    simp only [exchange_step] at h
    split_ifs at h with hc
    cases h
    refine ⟨fun _ => rfl, ⟨fun hm => ?_, fun hp => ?_⟩, i3, i4⟩
    · have := i2.mp hm
      rw [hc] at this
      rcases this with h | h <;> cases h
    · rcases hp with h | h <;> cases h
  | write i v =>
    simp only [exchange_step] at h
    split_ifs at h with hc
    cases h
    have hw := i1 hc
    have hne : s.rindex ≠ s.windex := by
      rw [hw]
      cases s.rindex <;> decide
    refine ⟨i1, i2, i3, fun k hk => ?_⟩
    show s.seen = (Function.update s.slots s.windex _ s.rindex).take k
    rw [Function.update_noteq hne]
    exact i4 k hk
  | lock ok =>
    simp only [exchange_step] at h
    split_ifs at h with hc hok hm
    · cases h
      refine ⟨(fun hp => by cases hp), ⟨fun _ => Or.inl rfl, fun _ => rfl⟩,
        ⟨(fun hd => by cases hd), fun hk => ?_⟩, i4⟩
      have := i3.mpr hk
      rw [hm] at this
      cases this
    · cases h
      refine ⟨(fun hp => by cases hp), ⟨fun hm => ?_, fun hp => ?_⟩, i3, i4⟩
      · have := i2.mp hm
        rw [hc] at this
        rcases this with h | h <;> cases h
      · rcases hp with h | h <;> cases h
  | flip =>
    simp only [exchange_step] at h
    split_ifs at h with hc
    cases h
    have hm : s.mutex = owner.capture := i2.mpr (Or.inl hc)
    refine ⟨(fun hp => by cases hp), ⟨fun _ => Or.inr rfl, fun _ => hm⟩, i3, fun k hk => ?_⟩
    have := i3.mpr ⟨k, hk⟩
    rw [hm] at this
    cases this
  | unlock =>
    simp only [exchange_step] at h
    split_ifs at h with hc
    cases h
    have hm : s.mutex = owner.capture := i2.mpr (Or.inr hc)
    refine ⟨(fun hp => by cases hp), ⟨(fun h => by cases h), fun hp => ?_⟩,
      ⟨(fun h => by cases h), fun hk => ?_⟩, i4⟩
    · rcases hp with h | h <;> cases h
    · have := i3.mpr hk
      rw [hm] at this
      cases this
  | dlock ok =>
    simp only [exchange_step] at h
    split_ifs at h with hc hok hm
    · cases h
      refine ⟨i1, ⟨(fun h => by cases h), fun hp => ?_⟩, ⟨fun _ => ⟨0, rfl⟩, fun _ => rfl⟩,
        fun k hk => ?_⟩
      · have := i2.mpr hp
        rw [hm] at this
        cases this
      · cases hk
        rfl
    · cases h
      exact ⟨i1, i2, i3, i4⟩
  | dread =>
    simp only [exchange_step] at h
    cases hd : s.dpc with
    | idle =>
      rw [hd] at h
      cases h
    | reading k =>
      rw [hd] at h
      simp only at h
      split_ifs at h with hk
      cases h
      refine ⟨i1, i2, ⟨fun hm => ⟨k + 1, rfl⟩, fun _ => i3.mpr ⟨k, hd⟩⟩, fun j hj => ?_⟩
      cases hj
      show s.seen ++ [(s.slots s.rindex).getD k 0] = (s.slots s.rindex).take (k + 1)
      rw [i4 k hd, List.take_succ, List.getD_eq_getElem?_getD, List.getElem?_eq_getElem hk]
      rfl
  | dunlock =>
    simp only [exchange_step] at h
    cases hd : s.dpc with
    | idle =>
      rw [hd] at h
      cases h
    | reading k =>
      rw [hd] at h
      simp only at h
      cases h
      have hm : s.mutex = owner.display := i3.mpr ⟨k, hd⟩
      refine ⟨i1, ⟨(fun h => by cases h), fun hp => ?_⟩,
        ⟨(fun h => by cases h), fun hk => ?_⟩, (fun j hj => by cases hj)⟩
      · have := i2.mpr hp
        rw [hm] at this
        cases this
      · obtain ⟨j, hj⟩ := hk
        cases hj

theorem exchange_run_inv (as : List action) :
    ∀ s s' : exchange, exchange_inv s → exchange_run s as = some s' → exchange_inv s' := by
  induction as with
  | nil =>
    intro s s' hinv h
    cases h
    exact hinv
  | cons a rest ih =>
    intro s s' hinv h
    have h' : (exchange_step s a).bind (fun s1 => exchange_run s1 rest) = some s' := h
    cases hs : exchange_step s a with
    | none => rw [hs] at h'; cases h'
    | some s1 =>
      rw [hs] at h'
      exact ih s1 s' (exchange_step_inv s s1 a hinv hs) h'

/-- No step taken from a state that satisfies the invariant modifies the slot pair the
reader is directed to; the only step that changes `rindex` is the flip of the capture
thread, taken while it holds the mutex and the display loop is not reading. -/
theorem exchange_step_active (s s' : exchange) (a : action) (hinv : exchange_inv s)
    (h : exchange_step s a = some s') :
    s'.slots s.rindex = s.slots s.rindex ∧
    (s'.rindex ≠ s.rindex →
      a = action.flip ∧ s.mutex = owner.capture ∧ s.dpc = display_pc.idle) := by
  obtain ⟨i1, i2, i3, _⟩ := hinv
  cases a with
  | fetch =>
    simp only [exchange_step] at h
    split_ifs at h
    cases h
    exact ⟨rfl, fun hne => absurd rfl hne⟩
  | write i v =>
    simp only [exchange_step] at h
    split_ifs at h with hc
    cases h
    have hw := i1 hc
    have hne : s.rindex ≠ s.windex := by
      rw [hw]
      cases s.rindex <;> decide
    exact ⟨Function.update_noteq hne _ _, fun hne => absurd rfl hne⟩
  | lock ok =>
    simp only [exchange_step] at h
    split_ifs at h <;> cases h <;> exact ⟨rfl, fun hne => absurd rfl hne⟩
  | flip =>
    simp only [exchange_step] at h
    split_ifs at h with hc
    cases h
    have hm : s.mutex = owner.capture := i2.mpr (Or.inl hc)
    refine ⟨rfl, fun _ => ⟨rfl, hm, ?_⟩⟩
    cases hd : s.dpc with
    | idle => rfl
    | reading k =>
      have := i3.mpr ⟨k, hd⟩
      rw [hm] at this
      cases this
  | unlock =>
    simp only [exchange_step] at h
    split_ifs at h
    cases h
    exact ⟨rfl, fun hne => absurd rfl hne⟩
  | dlock ok =>
    simp only [exchange_step] at h
    split_ifs at h <;> cases h <;> exact ⟨rfl, fun hne => absurd rfl hne⟩
  | dread =>
    simp only [exchange_step] at h
    cases hd : s.dpc with
    | idle => rw [hd] at h; cases h
    | reading k =>
      rw [hd] at h
      simp only at h
      split_ifs at h
      cases h
      exact ⟨rfl, fun hne => absurd rfl hne⟩
  | dunlock =>
    simp only [exchange_step] at h
    cases hd : s.dpc with
    | idle => rw [hd] at h; cases h
    | reading k =>
      rw [hd] at h
      simp only at h
      cases h
      exact ⟨rfl, fun hne => absurd rfl hne⟩

theorem exchange_run_append (as bs : List action) :
    ∀ s : exchange, exchange_run s (as ++ bs) =
      (exchange_run s as).bind fun s1 => exchange_run s1 bs := by
  induction as with
  | nil => intro s; rfl
  | cons a rest ih =>
    intro s
    show (exchange_step s a).bind _ = ((exchange_step s a).bind _).bind _
    cases exchange_step s a with
    | none => rfl
    | some s1 => exact ih s1

/-- The stores of one iteration, performed through the write pointers. -/
theorem exchange_run_writes (ws : List (Nat × Nat)) :
    ∀ s : exchange, s.cpc = capture_pc.writing →
      exchange_run s (ws.map fun w => action.write w.1 w.2) =
        some { s with slots := (Function.update s.slots s.windex
          (ws.foldl (fun d w => d.set w.1 w.2) (s.slots s.windex))) } := by
  induction ws with
  | nil =>
    intro s _
    show some s = _
    rw [List.foldl_nil, Function.update_eq_self]
  | cons w rest ih =>
    intro s hc
    show (exchange_step s (action.write w.1 w.2)).bind _ = _
    simp only [exchange_step, if_pos hc, Option.some_bind]
    rw [ih { s with slots := (Function.update s.slots s.windex
      ((s.slots s.windex).set w.1 w.2)) } hc]
    simp only [Function.update_same, Function.update_idem, List.foldl_cons]

/-- One iteration of the capture thread run without interruption. -/
theorem publish_run (s : exchange) (ws : List (Nat × Nat)) (ok : Bool)
    (hpc : s.cpc = capture_pc.fetch) (hfree : s.mutex = owner.free) :
    exchange_run s (publish_actions ws ok) =
      some { s with
        slots := (Function.update s.slots (!s.rindex)
          (ws.foldl (fun d w => d.set w.1 w.2) (s.slots (!s.rindex))))
        windex := !s.rindex
        rindex := if ok then !s.rindex else s.rindex
        cpc := capture_pc.fetch } := by
  unfold publish_actions
  rw [List.append_assoc, List.append_assoc, List.singleton_append]
  show (exchange_step s action.fetch).bind _ = _
  simp only [exchange_step, if_pos hpc, Option.some_bind]
  rw [exchange_run_append, exchange_run_writes ws _ rfl, Option.some_bind]
  cases ok with
  | false =>
    show (exchange_step _ (action.lock false)).bind _ = _
    simp only [exchange_step, if_true, Option.some_bind]
    rfl
  | true =>
    show (exchange_step _ (action.lock true)).bind _ = _
    simp only [exchange_step, if_true, Option.some_bind, hfree]
    show (exchange_step _ action.flip).bind _ = _
    simp only [exchange_step, if_true, Option.some_bind]
    show (exchange_step _ action.unlock).bind _ = _
    simp only [exchange_step, if_true, Option.some_bind]
    rfl

/-- C25 as stated fails: when `SDL_LockMutex` returns an error at the end of an iteration
the flip is skipped; the iteration has written the inactive slot pair and the parity index
is still 0. -/
theorem failed_lock_skips_flip :
    (exchange_run (exchange_init [0, 0]) (publish_actions [(0, 7), (1, 8)] false)).map
      (fun s => (s.rindex, s.slots false, s.slots true)) = some (false, [0, 0], [7, 8]) := by
  decide

/-- C25 (amended): publish writes only the inactive slot pair. An iteration of the capture
thread that starts with parity index `p` performs all its stores on the slot pair
`1 - p` and leaves the slot pair `p` as it was; it flips the parity index at most once,
as its last action before the unlock: exactly once when `SDL_LockMutex` succeeds, not at
all when it fails. In every state of the exchange no step modifies the slot pair the
reader is directed to, and the only step that changes the parity index is the flip, taken
while the capture thread holds the mutex. -/
theorem publish_writes_inactive_slot (s : exchange) (ws : List (Nat × Nat)) (ok : Bool)
    (hpc : s.cpc = capture_pc.fetch) (hfree : s.mutex = owner.free) :
    (∃ s', exchange_run s (publish_actions ws ok) = some s' ∧
      s'.slots s.rindex = s.slots s.rindex ∧
      s'.slots (!s.rindex) = ws.foldl (fun d w => d.set w.1 w.2) (s.slots (!s.rindex)) ∧
      s'.rindex = (if ok then !s.rindex else s.rindex) ∧
      s'.cpc = capture_pc.fetch ∧ s'.mutex = owner.free) ∧
    (∀ (t t' : exchange) (a : action), exchange_inv t → exchange_step t a = some t' →
      t'.slots t.rindex = t.slots t.rindex ∧
      (t'.rindex ≠ t.rindex → a = action.flip ∧ t.mutex = owner.capture)) := by
  refine ⟨⟨_, publish_run s ws ok hpc hfree, ?_, ?_, rfl, rfl, hfree⟩, fun t t' a ht h => ?_⟩
  · have hne : s.rindex ≠ !s.rindex := by cases s.rindex <;> decide
    exact Function.update_noteq hne _ _
  · exact Function.update_same _ _ _
  · obtain ⟨h1, h2⟩ := exchange_step_active t t' a ht h
    exact ⟨h1, fun hne => ⟨(h2 hne).1, (h2 hne).2.1⟩⟩

/-- Witness of C25 (amended): the first iteration, with a successful lock. -/
theorem publish_writes_inactive_slot_witness :
    ((exchange_init [0, 0]).cpc = capture_pc.fetch ∧
      (exchange_init [0, 0]).mutex = owner.free) ∧
    ∃ s', exchange_run (exchange_init [0, 0]) (publish_actions [(0, 7), (1, 8)] true) = some s' ∧
      s'.slots false = [0, 0] ∧ s'.slots true = [7, 8] ∧ s'.rindex = true :=
  match (publish_writes_inactive_slot (exchange_init [0, 0]) [(0, 7), (1, 8)] true
    rfl rfl).1 with
  | ⟨s', e, h1, h2, h3, _⟩ => ⟨⟨rfl, rfl⟩, s', e, h1, h2, h3⟩

/-- C26: the exchange never exposes a slot pair in the middle of a write. After every
interleaving of steps of the capture thread and of the display loop: what the display
loop has copied so far in its current read is a prefix of the slot pair `rindex` as it is
now; the capture thread, while it stores, stores into the other slot pair; and no step
that can follow modifies the slot pair `rindex`, or changes `rindex` while a read is in
progress. A read therefore returns the bytes of one slot pair that nobody wrote since
the read began. -/
theorem no_torn_read (blank : List Nat) (as : List action) (s : exchange)
    (h : exchange_run (exchange_init blank) as = some s) :
    (∀ k, s.dpc = display_pc.reading k → s.seen = (s.slots s.rindex).take k) ∧
    (s.cpc = capture_pc.writing → s.windex ≠ s.rindex) ∧
    (∀ (a : action) (s' : exchange), exchange_step s a = some s' →
      s'.slots s.rindex = s.slots s.rindex ∧
      ((∃ k, s.dpc = display_pc.reading k) → s'.rindex = s.rindex)) := by
  have hinv := exchange_run_inv as _ s (exchange_init_inv blank) h
  refine ⟨hinv.2.2.2, fun hc => ?_, fun a s' hs => ?_⟩
  · rw [hinv.1 hc]
    cases s.rindex <;> decide
  · obtain ⟨h1, h2⟩ := exchange_step_active s s' a hinv hs
    refine ⟨h1, fun ⟨k, hk⟩ => ?_⟩
    by_contra hne
    have := (h2 hne).2.2
    rw [hk] at this
    cases this

/-- Witness of C26: the display loop reads while the capture thread writes the other slot
pair, then reads again after the flip and sees the published frame. -/
theorem no_torn_read_witness :
    ∃ s, exchange_run (exchange_init [0, 0])
        [action.fetch, action.write 0 7, action.dlock true, action.dread, action.write 1 8,
         action.dread, action.dunlock, action.lock true, action.flip, action.unlock,
         action.dlock true, action.dread, action.dread] = some s ∧
      s.seen = [7, 8] ∧ s.seen = (s.slots s.rindex).take 2 := by
  have e : (exchange_run (exchange_init [0, 0])
      [action.fetch, action.write 0 7, action.dlock true, action.dread, action.write 1 8,
       action.dread, action.dunlock, action.lock true, action.flip, action.unlock,
       action.dlock true, action.dread, action.dread]).map (fun s => (s.seen, s.dpc)) =
      some ([7, 8], display_pc.reading 2) := by decide
  cases h : exchange_run (exchange_init [0, 0])
      [action.fetch, action.write 0 7, action.dlock true, action.dread, action.write 1 8,
       action.dread, action.dunlock, action.lock true, action.flip, action.unlock,
       action.dlock true, action.dread, action.dread] with
  | none =>
    rw [h] at e
    cases e
  | some s =>
    rw [h] at e
    have e1 : s.seen = [7, 8] := congrArg Prod.fst (Option.some.inj e)
    have e2 : s.dpc = display_pc.reading 2 := congrArg Prod.snd (Option.some.inj e)
    exact ⟨s, rfl, e1, (no_torn_read [0, 0] _ s h).1 2 e2⟩

/-! ## Asymmetry of the blend -/

theorem mix_pixel_darker (R C : Nat) (hR : R < 256) (hC : C < 256) (h : C < R) :
    mix_pixel (1000 - 10) 10 1000 R C < R ∧ C ≤ mix_pixel (1000 - 10) 10 1000 R C := by
  rw [mix_pixel_weight_10 R C hR hC]
  constructor <;> omega

theorem mix_pixel_stuck (R C : Nat) (hR : R < 256) (hC : C < 256) (h : R ≤ C)
    (hd : C < R + 100) : mix_pixel (1000 - 10) 10 1000 R C = R := by
  rw [mix_pixel_weight_10 R C hR hC]
  omega

theorem list_eq_of_getD (l1 l2 : List Nat) (hl : l1.length = l2.length)
    (h : ∀ i, i < l2.length → l1.getD i 0 = l2.getD i 0) : l1 = l2 := by
  apply List.ext_getElem hl
  intro i h1 h2
  have := h i h2
  rw [List.getD_eq_getElem?_getD, List.getD_eq_getElem?_getD, List.getElem?_eq_getElem h1,
    List.getElem?_eq_getElem h2] at this
  exact this

/-- Repeated blends toward an image that is nowhere darker and everywhere less than 100
brighter leave the bytes of the reference as they are. -/
theorem blend_times_stuck (old new : image)
    (hn : old.n_pixels = new.n_pixels) (hc : old.channels = new.channels)
    (_hlen : old.data.length = old.n_pixels * old.channels)
    (hold : ∀ x ∈ old.data, x < 256) (hnew : ∀ x ∈ new.data, x < 256)
    (hb : ∀ i, i < old.data.length →
      old.data.getD i 0 ≤ new.data.getD i 0 ∧ new.data.getD i 0 < old.data.getD i 0 + 100)
    (k : Nat) :
    ∃ rk, blend_times new k old = some rk ∧ rk.n_pixels = old.n_pixels ∧
      rk.channels = old.channels ∧ rk.data = old.data := by
  induction k with
  | zero => exact ⟨old, rfl, rfl, rfl, rfl⟩
  | succ j ih =>
    obtain ⟨rj, e, h1, h2, h3⟩ := ih
    obtain ⟨r', e', g1, g2, g3, _, g5⟩ := mix_images_weight_10_any rj new (by rw [h1, hn])
      (by rw [h2, hc]) (by rw [h3]; exact hold)
    refine ⟨r', ?_, by rw [g1, h1], by rw [g2, h2], ?_⟩
    · show (blend_times new j old).bind _ = _
      rw [e]
      show (mix_images rj new 10).map Prod.fst = _
      rw [e']
      rfl
    · rw [h3] at g3 g5
      apply list_eq_of_getD _ _ g3
      intro i hi
      rcases g5 i hi with g | g
      · rw [g]
        exact mix_pixel_stuck _ _ (getD_lt_256 _ hold i) (getD_lt_256 _ hnew i) (hb i hi).1
          (hb i hi).2
      · exact g

/-- C31: the blend is asymmetric because the division truncates. For a reference byte `R`
and a current byte `C` blended by `mix_images` with weight 10, that is for every byte
below the loop bound of the call, the `int` product `n_pixels * channels` (these are all
the bytes of an image of fewer than `2^31` bytes): if `R > C` the new reference byte is
strictly below `R` and at least `C`; if `R < C` and `C - R < 100` it is `R` again. Hence
`k` repeated blends toward an image that is everywhere brighter by less than 100 leave
every byte of the reference unchanged. -/
theorem blend_asymmetric (old new : image) (k : Nat)
    (hn : old.n_pixels = new.n_pixels) (hc : old.channels = new.channels)
    (hlen : old.data.length = old.n_pixels * old.channels)
    (_hlen2 : new.data.length = new.n_pixels * new.channels)
    (hold : ∀ x ∈ old.data, x < 256) (hnew : ∀ x ∈ new.data, x < 256) :
    (∃ r1, mix_images old new 10 = some (r1, new) ∧
      ∀ i, i < old.data.length →
        i < (wrap_int ((old.n_pixels : Int) * (old.channels : Int))).toNat →
        (new.data.getD i 0 < old.data.getD i 0 →
          r1.data.getD i 0 < old.data.getD i 0 ∧ new.data.getD i 0 ≤ r1.data.getD i 0) ∧
        (old.data.getD i 0 < new.data.getD i 0 →
          new.data.getD i 0 - old.data.getD i 0 < 100 →
          r1.data.getD i 0 = old.data.getD i 0)) ∧
    (old.n_pixels * old.channels < 2 ^ 31 →
      (wrap_int ((old.n_pixels : Int) * (old.channels : Int))).toNat = old.data.length) ∧
    ((∀ i, i < old.data.length →
        old.data.getD i 0 < new.data.getD i 0 ∧
        new.data.getD i 0 - old.data.getD i 0 < 100) →
      ∃ rk, blend_times new k old = some rk ∧ rk.data = old.data) := by
  refine ⟨?_, fun hsize => ?_, fun hb => ?_⟩
  · obtain ⟨r1, e, _, _, g⟩ := mix_images_any old new 10 hn hc
    refine ⟨r1, e, fun i hi hloop => ⟨fun h => ?_, fun h hd => ?_⟩⟩
    · rw [g i hi, if_pos hloop]
      exact mix_pixel_darker _ _ (getD_lt_256 _ hold i) (getD_lt_256 _ hnew i) h
    · rw [g i hi, if_pos hloop]
      exact mix_pixel_stuck _ _ (getD_lt_256 _ hold i) (getD_lt_256 _ hnew i) (Nat.le_of_lt h)
        (by omega)
  · rw [mix_images_count old hsize, hlen]
  · obtain ⟨rk, e, _, _, h⟩ := blend_times_stuck old new hn hc hlen hold hnew
      (fun i hi => ⟨Nat.le_of_lt (hb i hi).1, by have := hb i hi; omega⟩) k
    exact ⟨rk, e, h⟩

/-- Witness of C31: a byte whose current value is brighter by 99 stays at 10, a byte whose
current value is darker moves from 200 to 199. -/
theorem blend_asymmetric_witness :
    ((row_image [10, 200]).n_pixels = (row_image [109, 100]).n_pixels ∧
      (row_image [10, 200]).channels = (row_image [109, 100]).channels ∧
      (row_image [10, 200]).data.length =
        (row_image [10, 200]).n_pixels * (row_image [10, 200]).channels ∧
      (row_image [109, 100]).data.length =
        (row_image [109, 100]).n_pixels * (row_image [109, 100]).channels ∧
      (∀ x ∈ (row_image [10, 200]).data, x < 256) ∧
      (∀ x ∈ (row_image [109, 100]).data, x < 256)) ∧
    mix_images (row_image [10, 200]) (row_image [109, 100]) 10 =
      some (row_image [10, 199], row_image [109, 100]) ∧
    ∃ r1, mix_images (row_image [10, 200]) (row_image [109, 100]) 10 =
        some (r1, row_image [109, 100]) ∧
      ∀ i, i < (row_image [10, 200]).data.length →
        i < (wrap_int (((row_image [10, 200]).n_pixels : Int) *
          ((row_image [10, 200]).channels : Int))).toNat →
        ((row_image [109, 100]).data.getD i 0 < (row_image [10, 200]).data.getD i 0 →
          r1.data.getD i 0 < (row_image [10, 200]).data.getD i 0 ∧
          (row_image [109, 100]).data.getD i 0 ≤ r1.data.getD i 0) ∧
        ((row_image [10, 200]).data.getD i 0 < (row_image [109, 100]).data.getD i 0 →
          (row_image [109, 100]).data.getD i 0 - (row_image [10, 200]).data.getD i 0 < 100 →
          r1.data.getD i 0 = (row_image [10, 200]).data.getD i 0) :=
  ⟨⟨rfl, rfl, rfl, rfl, by decide, by decide⟩, by decide,
    (blend_asymmetric (row_image [10, 200]) (row_image [109, 100]) 5 rfl rfl rfl rfl
      (by decide) (by decide)).1⟩

/-- The window of the model is the list of the bytes at `window_indices`. -/
theorem median_window_reads (a : image) (r i : Nat) :
    median_window a r i = (window_indices a r i).map (read_at a.data) := by
  unfold median_window window_indices
  rw [List.map_flatMap]
  simp only [List.map_map]
  rfl

/-- Inside the range of `int`, with the borders inside the image, the stores of the
filter loop of the model are the stores at `filter_indices`, made after the two copies. -/
theorem median_channel_stores (a b : image) (r channel : Nat)
    (h : a.n_pixels = b.n_pixels ∧ b.channels ≠ 0)
    (hwin : (2 * r + 1) * (2 * r + 1) < 2 ^ 31)
    (hpad : r * a.stride + r * b.channels + channel ≤ a.n_pixels * b.channels)
    (hsize : a.n_pixels * b.channels + b.channels ≤ 2 ^ 31)
    (hlb : b.data.length = a.n_pixels * b.channels) :
    ∃ b2, b2.length = b.data.length ∧
      (∀ k, k < b.data.length →
        b2.getD k 0 =
          if k < r * a.stride + r * b.channels + channel ∨
              a.n_pixels * b.channels ≤ k + (r * a.stride + r * b.channels + channel)
          then a.data.getD k 0 else b.data.getD k 0) ∧
      median_channel a b r channel =
        some ({ a with channels := b.channels },
          { b with data := ((filter_indices a b r channel).foldl
            (fun (d : List Nat) (i : Nat) =>
              d.set i (median_value { a with channels := b.channels } r i)) b2) }) := by
  obtain ⟨b2, l2, d2, e⟩ := median_channel_run a b r channel h hwin hpad hsize hlb
  refine ⟨b2, l2, d2, ?_⟩
  rw [e]
  have hch : 0 < b.channels := Nat.pos_of_ne_zero h.2
  unfold filter_indices
  simp only
  generalize r * a.stride + r * b.channels + channel = P at hpad ⊢
  generalize a.n_pixels * b.channels = T at hpad hsize ⊢
  have hwp : wrap_int ((P : Nat) : Int) = (P : Int) := wrap_int_nat _ (by omega)
  have hwi : wrap_int (((T : Nat) : Int) - (P : Int)) = (T : Int) - (P : Int) :=
    wrap_int_eq _ (by omega) (by omega)
  simp only [hwp, hwi, Int.toNat_ofNat, List.foldl_map]

theorem mem_copy_indices (off len x : Int) (h0 : 0 ≤ len) (h1 : len < 2 ^ 64) :
    x ∈ copy_indices off len ↔ (off ≤ x ∧ x < off + len) := by
  unfold copy_indices
  rw [List.mem_map]
  have hm : len % 18446744073709551616 = len := Int.emod_eq_of_lt h0 (by omega)
  rw [hm]
  constructor
  · rintro ⟨k, hk, rfl⟩
    rw [List.mem_range] at hk
    omega
  · intro h
    refine ⟨(x - off).toNat, ?_, ?_⟩
    · rw [List.mem_range]
      omega
    · omega

/-- A byte changes in `copy_bytes` only at an index of `copy_indices`. -/
theorem copy_bytes_outside (src dst d : List Nat) (off len : Int) (k : Nat)
    (hlen : len < 2 ^ 31) (e : copy_bytes src dst off len = some d)
    (hk : k < dst.length) (h : (k : Int) ∉ copy_indices off len) :
    d.getD k 0 = dst.getD k 0 := by
  unfold copy_bytes at e
  by_cases hl : len = 0
  · rw [if_pos hl] at e
    cases e
    rfl
  · rw [if_neg hl] at e
    by_cases hc : 0 ≤ off ∧ 0 < len ∧ off + len ≤ (dst.length : Int)
    · rw [if_pos hc] at e
      cases e
      rw [mem_copy_indices off len _ (by omega) (by omega)] at h
      rw [List.getD_eq_getElem?_getD, List.getElem?_map, List.getElem?_range hk]
      show (if off ≤ (k : Int) ∧ (k : Int) < off + len then src.getD k 0 else dst.getD k 0) = _
      rw [if_neg h]
    · rw [if_neg hc] at e
      cases e

theorem mem_filter_indices (a b : image) (r channel i : Nat) (hc : 0 < b.channels)
    (hpad : r * a.stride + r * b.channels + channel ≤ a.n_pixels * b.channels)
    (hsize : a.n_pixels * b.channels < 2 ^ 31)
    (h : i ∈ filter_indices a b r channel) :
    (∃ t : Nat, i = r * a.stride + r * b.channels + channel + t * b.channels) ∧
    r * a.stride + r * b.channels + channel ≤ i ∧
    (i : Int) < ((a.n_pixels * b.channels : Nat) : Int) -
      ((r * a.stride + r * b.channels + channel : Nat) : Int) := by
  unfold filter_indices at h
  simp only at h
  generalize r * a.stride + r * b.channels + channel = P at hpad h ⊢
  generalize a.n_pixels * b.channels = T at hpad hsize h ⊢
  have hwp : wrap_int ((P : Nat) : Int) = (P : Int) := wrap_int_nat _ (by omega)
  have hwi : wrap_int (((T : Nat) : Int) - (P : Int)) = (T : Int) - (P : Int) :=
    wrap_int_eq _ (by omega) (by omega)
  simp only [hwp, hwi, Int.toNat_ofNat, List.mem_map, List.mem_range] at h
  obtain ⟨t, ht, rfl⟩ := h
  have hb := loop_count_bound _ _ t (by exact_mod_cast hc) ht
  refine ⟨⟨t, rfl⟩, Nat.le_add_right _ _, ?_⟩
  push_cast at hb ⊢
  omega

theorem mem_window_indices (a : image) (r i : Nat) (x : Int) (h : x ∈ window_indices a r i) :
    ∃ y : Int, x = wrap_int y ∧
      (i : Int) - (r : Int) * (a.channels : Int) - (r : Int) * (a.stride : Int) ≤ y ∧
      y ≤ (i : Int) + (r : Int) * (a.channels : Int) + (r : Int) * (a.stride : Int) := by
  unfold window_indices at h
  simp only [List.mem_flatMap, List.mem_map, List.mem_range] at h
  obtain ⟨kk, hk, yy, hy, rfl⟩ := h
  refine ⟨_, rfl, ?_⟩
  have hch : (0 : Int) ≤ (a.channels : Int) := Int.ofNat_nonneg _
  have hst : (0 : Int) ≤ (a.stride : Int) := Int.ofNat_nonneg _
  have k1 : (0 : Int) ≤ (kk : Int) * (a.channels : Int) := mul_nonneg (Int.ofNat_nonneg _) hch
  have k2 : (0 : Int) ≤ (2 * (r : Int) - (kk : Int)) * (a.channels : Int) :=
    mul_nonneg (by omega) hch
  have y1 : (0 : Int) ≤ (yy : Int) * (a.stride : Int) := mul_nonneg (Int.ofNat_nonneg _) hst
  have y2 : (0 : Int) ≤ (2 * (r : Int) - (yy : Int)) * (a.stride : Int) :=
    mul_nonneg (by omega) hst
  constructor <;> nlinarith [k1, k2, y1, y2]

/-- C32 as stated fails: on a two-channel image whose row stride 3 is not a multiple of
the channel count, with `r = 1` and `channel = 0`, the filter loop visits the single
index 5, which is odd: `median_channel` stores the median 6 at byte 5 and leaves byte 6
of the output alone. -/
theorem median_store_off_channel :
    (0 < (padded_rows_image [1, 2, 3, 4, 5, 6, 7, 8, 9, 10, 11, 12]).channels ∧
      1 * (padded_rows_image [1, 2, 3, 4, 5, 6, 7, 8, 9, 10, 11, 12]).stride +
        1 * (padded_rows_image [1, 2, 3, 4, 5, 6, 7, 8, 9, 10, 11, 12]).channels + 0 ≤
        (padded_rows_image [1, 2, 3, 4, 5, 6, 7, 8, 9, 10, 11, 12]).n_pixels *
          (padded_rows_image [1, 2, 3, 4, 5, 6, 7, 8, 9, 10, 11, 12]).channels ∧
      (padded_rows_image [1, 2, 3, 4, 5, 6, 7, 8, 9, 10, 11, 12]).n_pixels *
          (padded_rows_image [1, 2, 3, 4, 5, 6, 7, 8, 9, 10, 11, 12]).channels +
        (padded_rows_image [1, 2, 3, 4, 5, 6, 7, 8, 9, 10, 11, 12]).channels ≤ 2 ^ 31) ∧
    filter_indices (padded_rows_image [1, 2, 3, 4, 5, 6, 7, 8, 9, 10, 11, 12])
      (padded_rows_image (List.replicate 12 99)) 1 0 = [5] ∧
    5 % (padded_rows_image [1, 2, 3, 4, 5, 6, 7, 8, 9, 10, 11, 12]).channels ≠ 0 ∧
    (median_channel (padded_rows_image [1, 2, 3, 4, 5, 6, 7, 8, 9, 10, 11, 12])
      (padded_rows_image (List.replicate 12 99)) 1 0).map (fun p => p.2.data) =
      some [1, 2, 3, 4, 5, 6, 99, 8, 9, 10, 11, 12] := by
  decide

/-- C32 (amended): for source and output images of `channels` channels, a radius `r` and
a channel index `channel < channels` with
`pad = r * stride + r * channels + channel ≤ T = n_pixels * channels` and
`T + channels ≤ 2^31`, so that no `int` of the call overflows, every index that
`median_channel` reads in the source or writes in the output (the two copies of `pad`
bytes, every window element, every median store) lies in `[0, T)`; and when the stride
is a multiple of the channel count, the filter loop stores only at indices congruent to
`channel` modulo `channels`. -/
theorem median_channel_in_bounds (a b : image) (r channel : Nat)
    (hc : a.channels = b.channels) (hch : channel < a.channels)
    (hpad : r * a.stride + r * a.channels + channel ≤ a.n_pixels * a.channels)
    (hsize : a.n_pixels * a.channels + a.channels ≤ 2 ^ 31) :
    (∀ x ∈ median_reads a b r channel,
      0 ≤ x ∧ x < ((a.n_pixels * a.channels : Nat) : Int)) ∧
    (∀ x ∈ median_writes a b r channel,
      0 ≤ x ∧ x < ((a.n_pixels * a.channels : Nat) : Int)) ∧
    (a.stride % a.channels = 0 →
      ∀ i ∈ filter_indices a b r channel, i % a.channels = channel) := by
  have hpos : 0 < b.channels := by omega
  rw [hc] at hpad hsize
  have hwp : wrap_int ((r * a.stride + r * b.channels + channel : Nat) : Int) =
      ((r * a.stride + r * b.channels + channel : Nat) : Int) := wrap_int_nat _ (by omega)
  have hwi : wrap_int (((a.n_pixels * b.channels : Nat) : Int) -
      ((r * a.stride + r * b.channels + channel : Nat) : Int)) =
      ((a.n_pixels * b.channels : Nat) : Int) -
        ((r * a.stride + r * b.channels + channel : Nat) : Int) :=
    wrap_int_eq _ (by omega) (by omega)
  have hcopy : ∀ x : Int,
      (x ∈ copy_indices 0 ((r * a.stride + r * b.channels + channel : Nat) : Int) ∨
        x ∈ copy_indices (((a.n_pixels * b.channels : Nat) : Int) -
          ((r * a.stride + r * b.channels + channel : Nat) : Int))
          ((r * a.stride + r * b.channels + channel : Nat) : Int)) →
      0 ≤ x ∧ x < ((a.n_pixels * a.channels : Nat) : Int) := by
    intro x hx
    rw [mem_copy_indices _ _ _ (Int.natCast_nonneg _) (by omega),
      mem_copy_indices _ _ _ (Int.natCast_nonneg _) (by omega)] at hx
    rw [hc]
    omega
  refine ⟨fun x hx => ?_, fun x hx => ?_, fun hs i hi => ?_⟩
  · unfold median_reads at hx
    simp only [hwp, hwi, List.mem_append, List.mem_flatMap] at hx
    rcases hx with hx | ⟨i, hi, hx⟩
    · exact hcopy x hx
    · obtain ⟨_, h1, h2⟩ := mem_filter_indices a b r channel i hpos hpad (by omega) hi
      obtain ⟨y, rfl, w1, w2⟩ := mem_window_indices _ r i x hx
      simp only at w1 w2
      have e1 : ((r * a.stride + r * b.channels + channel : Nat) : Int) ≤ (i : Int) := by
        exact_mod_cast h1
      have hT : ((a.n_pixels * b.channels : Nat) : Int) < 2 ^ 31 := by
        have : a.n_pixels * b.channels < 2 ^ 31 := by omega
        exact_mod_cast this
      rw [hc]
      push_cast at h2 w1 w2 e1 hT ⊢
      have hy : 0 ≤ y ∧ y < (a.n_pixels : Int) * (b.channels : Int) := by
        constructor <;> omega
      rw [wrap_int_eq y hy.1 (by omega)]
      exact hy
  · unfold median_writes at hx
    simp only [hwp, hwi, List.mem_append, List.mem_map] at hx
    rcases hx with hx | ⟨i, hi, rfl⟩
    · exact hcopy x hx
    · obtain ⟨_, _, h2⟩ := mem_filter_indices a b r channel i hpos hpad (by omega) hi
      rw [hc]
      push_cast at h2 ⊢
      omega
  · obtain ⟨⟨t, ht⟩, _, _⟩ := mem_filter_indices a b r channel i hpos hpad (by omega) hi
    obtain ⟨q, hq⟩ := Nat.dvd_of_mod_eq_zero hs
    rw [← hc] at ht
    have e : i = channel + (r * q + r + t) * a.channels := by
      rw [ht, hq]
      ring
    rw [e, Nat.add_mul_mod_self_right, Nat.mod_eq_of_lt hch]

/-- Witness of C32 (amended): the region of interest of the capture loop, a 64 x 256
one-channel image filtered with radius 2. -/
theorem median_channel_in_bounds_witness :
    ((new_image 64 256 1).channels = (new_image 64 256 1).channels ∧
      0 < (new_image 64 256 1).channels ∧
      2 * (new_image 64 256 1).stride + 2 * (new_image 64 256 1).channels + 0 ≤
        (new_image 64 256 1).n_pixels * (new_image 64 256 1).channels ∧
      (new_image 64 256 1).n_pixels * (new_image 64 256 1).channels +
        (new_image 64 256 1).channels ≤ 2 ^ 31) ∧
    (∀ x ∈ median_reads (new_image 64 256 1) (new_image 64 256 1) 2 0,
      0 ≤ x ∧ x < (((new_image 64 256 1).n_pixels * (new_image 64 256 1).channels : Nat) : Int)) ∧
    (∀ x ∈ median_writes (new_image 64 256 1) (new_image 64 256 1) 2 0,
      0 ≤ x ∧ x < (((new_image 64 256 1).n_pixels * (new_image 64 256 1).channels : Nat) : Int)) ∧
    ((new_image 64 256 1).stride % (new_image 64 256 1).channels = 0 →
      ∀ i ∈ filter_indices (new_image 64 256 1) (new_image 64 256 1) 2 0,
        i % (new_image 64 256 1).channels = 0) :=
  ⟨⟨rfl, by decide, by decide, by decide⟩,
    median_channel_in_bounds (new_image 64 256 1) (new_image 64 256 1) 2 0 rfl (by decide)
      (by decide) (by decide)⟩

end Racemon
